import Mathlib

/-!
Verification model of the `week07-jungle` dynamic-memory allocator.

The repository holds two strategy variants of the same malloc-lab allocator:

* `src/malloc-lab/mm.c` — one explicit doubly-linked free list
  (namespace `Exp` below);
* `src/unnamed/part_000` and `src/unnamed/part_001` — segregated explicit
  free lists over 16 size classes (namespace `Seg` below).  The two files
  are identical except for `find_fit`: `part_000` performs a best-fit scan
  with an exact-match short circuit, `part_001` performs a first-fit scan
  (`Seg.find_fit` and `Seg.find_fit001` below).

Embedding choices:

* The heap is the address-ordered list of blocks strictly between the
  prologue and the epilogue.  The prologue pair occupies bytes 0..15 of the
  region, so the payload address of block `i` is `16 + sum of the sizes of
  the blocks before it` (`addrOf`).  The prologue and epilogue are the
  permanently allocated sentinels of the C code: a block with no list
  neighbour on one side has an allocated neighbour there.
* A block carries its total size in bytes (header word with the low status
  bits masked off), its allocation bit, and its payload bytes
  (`size - 8` of them: total minus the 4-byte header and 4-byte footer).
  The header and its duplicate footer are represented once.
* The `pred`/`succ` pointer fields that the C code overlays on the first 16
  payload bytes of a free block are modelled by the free-index component of
  the state (`Exp`: one list of payload addresses ordered as the `succ`
  chain from `free_listp`; `Seg`: 16 such lists).  Writes to those two
  fields (`SET_PRED`/`SET_SUCC`) are therefore modelled as updates of the
  index, not of the payload bytes; the payload bytes of a free block carry
  no meaning for any caller.
* When blocks are merged, the stale footer and header words lying between
  them physically remain as 4 raw bytes each inside the merged payload;
  `wbytes` reproduces those bytes (little endian) from the packed word that
  was stored there.
* The external memory provider (`mem_sbrk`) is modelled by a remaining
  byte budget `mem`: a growth request succeeds exactly when it fits in the
  budget.  As in the C code, the budget is only consumed after the success
  check, so a failed request mutates nothing.
* C `size_t` subtractions such as `csize - asize` are written with natural
  subtraction; on every reachable call the C code has already established
  `csize >= asize`, so the two agree there.  Block sizes stay below `2^32`
  whenever the provider budget is below `2^32`, so the 32-bit header never
  truncates and sizes are plain naturals.
-/

/-- One heap block: total size in bytes (multiple of 8 in well-formed
heaps), the allocation status bit, and the payload bytes. -/
structure Block where
  size  : Nat
  alloc : Bool
  data  : List Nat
deriving Repr, DecidableEq

/-- Placeholder block used for out-of-range `getD` reads; such reads only
happen on paths that are undefined behaviour in the C code. -/
def dummyBlock : Block := ⟨0, true, []⟩

/-- The four little-endian bytes of a stored 32-bit header/footer word.
Used for the stale metadata bytes that remain inside a merged payload. -/
def wbytes (w : Nat) : List Nat :=
  [w % 256, w / 256 % 256, w / 65536 % 256, w / 16777216 % 256]

/-- Payload address of the `i`-th block: the prologue pair occupies bytes
0..15, so the first block payload starts at 16 (`mm_init` sets the heap up
this way in both variants). -/
def addrOf (bs : List Block) (i : Nat) : Nat :=
  16 + ((bs.take i).map Block.size).sum

/-- Index of the block whose payload address is `a`, if any. -/
def idxOf (bs : List Block) (a : Nat) : Option Nat :=
  (List.range bs.length).find? (fun i => addrOf bs i = a)

/-- The block whose payload address is `a`, if any. -/
def blockAt (bs : List Block) (a : Nat) : Option Block :=
  (idxOf bs a).bind bs.get?

/-- `GET_SIZE(HDRP(a))`: size field read at payload address `a`.  Reading a
non-block address is undefined behaviour in C; the model returns 0. -/
def sizeAt (bs : List Block) (a : Nat) : Nat :=
  match blockAt bs a with
  | some b => b.size
  | none => 0

/-- Adjusted block size (identical in all three files): at least payload
plus 8 bytes of header/footer rounded up to a multiple of 8, at least
`2*DSIZE = 16` for tiny requests, and floored at the minimum free block
size `MIN_FREE_BLK = 24`. -/
def asizeOf (size : Nat) : Nat :=
  let a :=
    if size ≤ 8 then 2 * 8 else 8 * (((size + 8 + (8 - 1)) % 2 ^ 64) / 8)
  if a < 24 then 24 else a

/-- Allocator state: the blocks between prologue and epilogue in address
order, the free index (variant specific: the `pred`/`succ` chains), and the
remaining provider budget in bytes. -/
structure HState (ι : Type) where
  blocks : List Block
  index  : ι
  mem    : Nat

/-- The byte count `extend_heap` requests for a word count: rounded up to
an even number of 4-byte words to preserve 8-byte alignment. -/
def extendBytes (words : Nat) : Nat :=
  if words % 2 = 1 then (words + 1) * 4 else words * 4

section GenericOps

variable {ι : Type}
variable (ins : ι → Nat → Nat → ι) (rem : ι → Nat → Nat → ι)

/-- `coalesce` (identical in `mm.c`, `part_000`, `part_001`): merge the
free block at `a` with its free address-neighbours, unlinking each merged
neighbour from the index first, then insert the merged block (its size is
re-read, so the segregated variant re-buckets) and return its possibly
shifted payload address.  The stale footer/header words between merged
blocks remain as raw bytes inside the merged payload. -/
def coalesce (s : HState ι) (a : Nat) : HState ι × Nat :=
  match idxOf s.blocks a with
  | none => (s, a)
  | some i =>
    let bs := s.blocks
    let b := bs.getD i dummyBlock
    let pm :=
      if 0 < i ∧ (bs.getD (i - 1) dummyBlock).alloc = false then
        let p := bs.getD (i - 1) dummyBlock
        let m : Block :=
          ⟨p.size + b.size, false, p.data ++ wbytes p.size ++ wbytes b.size ++ b.data⟩
        (bs.take (i - 1) ++ m :: bs.drop (i + 1),
          rem s.index (addrOf bs (i - 1)) p.size, i - 1)
      else (bs, s.index, i)
    let bs1 := pm.1
    let ix1 := pm.2.1
    let i1 := pm.2.2
    let b1 := bs1.getD i1 dummyBlock
    let nm :=
      if i1 + 1 < bs1.length ∧ (bs1.getD (i1 + 1) dummyBlock).alloc = false then
        let n := bs1.getD (i1 + 1) dummyBlock
        let m : Block :=
          ⟨b1.size + n.size, false, b1.data ++ wbytes b1.size ++ wbytes n.size ++ n.data⟩
        (bs1.take i1 ++ m :: bs1.drop (i1 + 2),
          rem ix1 (addrOf bs1 (i1 + 1)) n.size)
      else (bs1, ix1)
    let bs2 := nm.1
    let ix2 := nm.2
    let a2 := addrOf bs2 i1
    (⟨bs2, ins ix2 a2 (bs2.getD i1 dummyBlock).size, s.mem⟩, a2)

/-- `extend_heap` (identical in all three files): round the word count up
to an even number of 4-byte words, request that many bytes from the
provider, and on success format them as one free block (the old epilogue
word becomes its header, a fresh epilogue is written after it) and
coalesce it with a free tail block.  On provider failure nothing is
written and `NULL` is returned. -/
def extend_heap (s : HState ι) (words : Nat) : HState ι × Option Nat :=
  let size := extendBytes words
  if size ≤ s.mem then
    let bs1 := s.blocks ++ [⟨size, false, List.replicate (size - 8) 0⟩]
    let s1 : HState ι := ⟨bs1, s.index, s.mem - size⟩
    let r := coalesce ins rem s1 (addrOf bs1 (bs1.length - 1))
    (r.1, some r.2)
  else (s, none)

/-- `place` (identical in `mm.c`, `part_000`, `part_001`): unlink the free
block at `a`, split it when the remainder is at least the 24-byte minimum
free block (front part allocated with exactly `asize` bytes, remainder a
new free block inserted into the index), otherwise allocate the whole
block. -/
def place (s : HState ι) (a : Nat) (asize : Nat) : HState ι :=
  match idxOf s.blocks a with
  | none => s
  | some i =>
    let bs := s.blocks
    let b := bs.getD i dummyBlock
    let csize := b.size
    let ix1 := rem s.index a csize
    if csize - asize ≥ 24 then
      let front : Block := ⟨asize, true, b.data.take (asize - 8)⟩
      let rest : Block := ⟨csize - asize, false, b.data.drop asize⟩
      ⟨bs.take i ++ front :: rest :: bs.drop (i + 1),
        ins ix1 (a + asize) (csize - asize), s.mem⟩
    else
      ⟨bs.set i ⟨csize, true, b.data⟩, ix1, s.mem⟩

/-- `mm_free` (identical in all three files): no-op on `NULL`, otherwise
mark the block free (its `pred`/`succ` fields are reset, which only
touches index-modelled bytes) and coalesce it. -/
def mm_free (s : HState ι) (bp : Option Nat) : HState ι :=
  match bp with
  | none => s
  | some a =>
    match idxOf s.blocks a with
    | none => s
    | some i =>
      let b := s.blocks.getD i dummyBlock
      let s1 : HState ι := ⟨s.blocks.set i ⟨b.size, false, b.data⟩, s.index, s.mem⟩
      (coalesce ins rem s1 a).1

/-- `mm_init` (identical in all three files): obtain 16 bytes for the
padding word, prologue pair and epilogue, then bootstrap with one
`CHUNKSIZE`-byte extension (`CHUNKSIZE / WSIZE = 1024` words).  Failure of
either provider request aborts with failure. -/
def mm_init (emptyIdx : ι) (mem : Nat) : Option (HState ι) :=
  if 16 ≤ mem then
    let s0 : HState ι := ⟨[], emptyIdx, mem - 16⟩
    let r := extend_heap ins rem s0 1024
    match r.2 with
    | some _ => some r.1
    | none => none
  else none

/-- `memcpy(a, src, src.length)`: overwrite the leading payload bytes of
the block at `a`. -/
def writeData (bs : List Block) (a : Nat) (src : List Nat) : List Block :=
  match idxOf bs a with
  | none => bs
  | some i =>
    let b := bs.getD i dummyBlock
    bs.set i ⟨b.size, b.alloc, src ++ b.data.drop src.length⟩

/-- `mm_realloc` (identical in `mm.c`, `part_000`, `part_001` up to local
variable names), parameterised by the variant's `mm_malloc`:
`NULL` pointer delegates to malloc; size 0 frees and returns `NULL`;
a request that already fits splits off and coalesces a free remainder when
it reaches the 24-byte minimum; a growing request first tries to absorb an
immediately following free block (unlinking it, splitting back any
remainder of at least 24 bytes); otherwise malloc-copy-free, copying
`min(old payload size, size)` bytes. -/
def mm_realloc (malloc : HState ι → Nat → HState ι × Option Nat)
    (s : HState ι) (bp : Option Nat) (size : Nat) : HState ι × Option Nat :=
  match bp with
  | none => malloc s size
  | some p =>
    if size = 0 then (mm_free ins rem s (some p), none)
    else
      match idxOf s.blocks p with
      | none => (s, none)
      | some i =>
        let bs := s.blocks
        let b := bs.getD i dummyBlock
        let oldsize := b.size
        let asize := asizeOf size
        if asize ≤ oldsize then
          let remain := oldsize - asize
          if remain ≥ 24 then
            let front : Block := ⟨asize, true, b.data.take (asize - 8)⟩
            let rest : Block := ⟨remain, false, b.data.drop asize⟩
            let s1 : HState ι :=
              ⟨bs.take i ++ front :: rest :: bs.drop (i + 1), s.index, s.mem⟩
            ((coalesce ins rem s1 (p + asize)).1, some p)
          else (s, some p)
        else
          let tryNext : Option (HState ι × Option Nat) :=
            if i + 1 < bs.length ∧ (bs.getD (i + 1) dummyBlock).alloc = false then
              let n := bs.getD (i + 1) dummyBlock
              let capacity := oldsize + n.size
              if capacity ≥ asize then
                let ix1 := rem s.index (addrOf bs (i + 1)) n.size
                let remain := capacity - asize
                let combined := b.data ++ wbytes (oldsize + 1) ++ wbytes n.size ++ n.data
                if remain ≥ 24 then
                  let front : Block := ⟨asize, true, combined.take (asize - 8)⟩
                  let rest : Block := ⟨remain, false, combined.drop asize⟩
                  some (⟨bs.take i ++ front :: rest :: bs.drop (i + 2),
                    ins ix1 (p + asize) remain, s.mem⟩, some p)
                else
                  some (⟨bs.take i ++ (⟨capacity, true, combined⟩ : Block) :: bs.drop (i + 2),
                    ix1, s.mem⟩, some p)
              else none
            else none
          match tryNext with
          | some r => r
          | none =>
            let r := malloc s size
            match r.2 with
            | none => (r.1, none)
            | some np =>
              let copySize := min (oldsize - 8) size
              let src := (match blockAt r.1.blocks p with
                          | some ob => ob.data
                          | none => []).take copySize
              let s2 : HState ι := ⟨writeData r.1.blocks np src, r.1.index, r.1.mem⟩
              (mm_free ins rem s2 (some p), some np)

end GenericOps

namespace Exp

/-- `mm.c`: the explicit free list is the `succ` chain from `free_listp`,
as a list of payload addresses. -/
abbrev Index := List Nat

abbrev State := HState Index

/-- `mm.c` `insert_node`: LIFO push at the list head.  The block size is
not consulted (the extra argument only exists to share the generic
operations with the segregated variant). -/
def insert_node (idx : Index) (a : Nat) (_size : Nat) : Index :=
  a :: idx

/-- `mm.c` `remove_node`: unlink the node at `a` in place. -/
def remove_node (idx : Index) (a : Nat) (_size : Nat) : Index :=
  idx.erase a

/-- The scan loop of `mm.c` `find_fit`: best fit tracking `best` and
`best_size` (initially `NULL` and `(size_t)-1`), short-circuiting on an
exact size match. -/
def find_fit_go (sizeOf : Nat → Nat) (asize : Nat) :
    List Nat → Option Nat → Nat → Option Nat
  | [], best, _ => best
  | bp :: rest, best, best_size =>
    let csize := sizeOf bp
    if csize ≥ asize then
      if csize = asize then some bp
      else if csize < best_size then find_fit_go sizeOf asize rest (some bp) csize
      else find_fit_go sizeOf asize rest best best_size
    else find_fit_go sizeOf asize rest best best_size

/-- `mm.c` `find_fit`: best-fit scan of the explicit free list. -/
def find_fit (s : State) (asize : Nat) : Option Nat :=
  find_fit_go (sizeAt s.blocks) asize s.index none (2 ^ 64 - 1)

/-- `mm.c` `mm_malloc`: zero requests return `NULL`; otherwise adjust the
size, try the free list, and on a miss extend by
`max(asize, CHUNKSIZE)` bytes before placing. -/
def mm_malloc (s : State) (size : Nat) : State × Option Nat :=
  if size = 0 then (s, none)
  else
    let asize := asizeOf size
    match find_fit s asize with
    | some bp => (place insert_node remove_node s bp asize, some bp)
    | none =>
      let extendsize := max asize 4096
      let r := extend_heap insert_node remove_node s (extendsize / 4)
      match r.2 with
      | some bp => (place insert_node remove_node r.1 bp asize, some bp)
      | none => (r.1, none)

/-- `mm.c` `mm_free`. -/
def mmFree (s : State) (bp : Option Nat) : State :=
  mm_free insert_node remove_node s bp

/-- `mm.c` `mm_realloc`. -/
def mmRealloc (s : State) (bp : Option Nat) (size : Nat) : State × Option Nat :=
  mm_realloc insert_node remove_node mm_malloc s bp size

/-- `mm.c` `extend_heap`. -/
def extendHeap (s : State) (words : Nat) : State × Option Nat :=
  extend_heap insert_node remove_node s words

/-- `mm.c` `mm_init` (`free_listp = NULL`). -/
def mmInit (mem : Nat) : Option State :=
  mm_init insert_node remove_node ([] : Index) mem

end Exp

namespace Seg

/-- `part_000`/`part_001` `size_to_group`: map a block size to one of the
`NLISTS = 16` size classes. -/
def size_to_group (size : Nat) : Fin 16 :=
  if size ≤ 32 then 0
  else if size ≤ 48 then 1
  else if size ≤ 64 then 2
  else if size ≤ 96 then 3
  else if size ≤ 128 then 4
  else if size ≤ 192 then 5
  else if size ≤ 256 then 6
  else if size ≤ 384 then 7
  else if size ≤ 512 then 8
  else if size ≤ 768 then 9
  else if size ≤ 1024 then 10
  else if size ≤ 1536 then 11
  else if size ≤ 2048 then 12
  else if size ≤ 4096 then 13
  else if size ≤ 8192 then 14
  else 15

/-- The `headers` array: 16 class lists, each the `succ` chain from its
head, as lists of payload addresses. -/
abbrev Index := Fin 16 → List Nat

abbrev State := HState Index

/-- `headers` after `mm_init`: all 16 heads `NULL`. -/
def emptyHeaders : Index := fun _ => []

/-- `part_000`/`part_001` `insert_node`: LIFO push at the head of the
class list selected by the block's current size. -/
def insert_node (idx : Index) (a : Nat) (size : Nat) : Index :=
  let group := size_to_group size
  Function.update idx group (a :: idx group)

/-- `part_000`/`part_001` `remove_node`: unlink from the class list
selected by the block's current size. -/
def remove_node (idx : Index) (a : Nat) (size : Nat) : Index :=
  let group := size_to_group size
  Function.update idx group ((idx group).erase a)

/-- The class lists `find_fit` walks for a request of adjusted size
`asize`: the class of `asize` and every larger class, in scan order. -/
def visited (idx : Index) (asize : Nat) : List Nat :=
  (((List.finRange 16).drop (size_to_group asize).val).map idx).flatten

/-- The scan loop of `part_000` `find_fit`: best fit tracking `pBestFit`
and `bestAmountOfWaste` (initially `NULL` and `(size_t)-1`) across all
visited classes, returning immediately on an exact match. -/
def scanBest (sizeOf : Nat → Nat) (asize : Nat) :
    List Nat → Option Nat → Nat → Option Nat
  | [], pBestFit, _ => pBestFit
  | bp :: rest, pBestFit, bestAmountOfWaste =>
    let capacity := sizeOf bp
    if capacity ≥ asize then
      let temp := capacity - asize
      if temp = 0 then some bp
      else if temp < bestAmountOfWaste then scanBest sizeOf asize rest (some bp) temp
      else scanBest sizeOf asize rest pBestFit bestAmountOfWaste
    else scanBest sizeOf asize rest pBestFit bestAmountOfWaste

/-- `part_000` `find_fit`: global best fit over the visited classes. -/
def find_fit (s : State) (asize : Nat) : Option Nat :=
  scanBest (sizeAt s.blocks) asize (visited s.index asize) none (2 ^ 64 - 1)

/-- `part_001` `find_fit`: first fit over the visited classes (that file
leaves the exact-match early return commented out and returns the first
block whose size suffices). -/
def find_fit001 (s : State) (asize : Nat) : Option Nat :=
  (visited s.index asize).find? (fun bp => asize ≤ sizeAt s.blocks bp)

/-- `part_000` `getFreeSizeOfTail` (named `tail_free_size` in `part_001`):
size of the free block immediately before the epilogue, 0 when that block
is allocated or when it is the prologue. -/
def getFreeSizeOfTail (bs : List Block) : Nat :=
  match bs.getLast? with
  | none => 0
  | some b => if b.alloc then 0 else b.size

/-- `part_000`/`part_001` `mm_malloc`: zero requests return `NULL`;
otherwise adjust the size, try the class lists, and on a miss extend by
only the shortfall past the free tail block (no `CHUNKSIZE` floor), then
re-query and place.  The final `place` in the C code dereferences the
re-query result without a `NULL` check; the model returns `NULL` on that
(unreachable from consistent states) path. -/
def mm_malloc (s : State) (size : Nat) : State × Option Nat :=
  if size = 0 then (s, none)
  else
    let adjustedSize := asizeOf size
    match find_fit s adjustedSize with
    | some bp => (place insert_node remove_node s bp adjustedSize, some bp)
    | none =>
      let freeSizeOfTail := getFreeSizeOfTail s.blocks
      let lackingSize :=
        if adjustedSize > freeSizeOfTail then adjustedSize - freeSizeOfTail else 0
      let afterExtend : Option State :=
        if lackingSize > 0 then
          let nWord := (lackingSize + (4 - 1)) / 4
          let r := extend_heap insert_node remove_node s nWord
          match r.2 with
          | none => none
          | some _ => some r.1
        else some s
      match afterExtend with
      | none => (s, none)
      | some s1 =>
        match find_fit s1 adjustedSize with
        | some bp => (place insert_node remove_node s1 bp adjustedSize, some bp)
        | none => (s1, none)

/-- `part_001` `mm_malloc`: the same body as `part_000`, but both free-list
queries go through that file's first-fit `find_fit` (`find_fit001`). -/
def mm_malloc001 (s : State) (size : Nat) : State × Option Nat :=
  if size = 0 then (s, none)
  else
    let adjustedSize := asizeOf size
    match find_fit001 s adjustedSize with
    | some bp => (place insert_node remove_node s bp adjustedSize, some bp)
    | none =>
      let freeSizeOfTail := getFreeSizeOfTail s.blocks
      let lackingSize :=
        if adjustedSize > freeSizeOfTail then adjustedSize - freeSizeOfTail else 0
      let afterExtend : Option State :=
        if lackingSize > 0 then
          let nWord := (lackingSize + (4 - 1)) / 4
          let r := extend_heap insert_node remove_node s nWord
          match r.2 with
          | none => none
          | some _ => some r.1
        else some s
      match afterExtend with
      | none => (s, none)
      | some s1 =>
        match find_fit001 s1 adjustedSize with
        | some bp => (place insert_node remove_node s1 bp adjustedSize, some bp)
        | none => (s1, none)

/-- `part_000`/`part_001` `mm_free`. -/
def mmFree (s : State) (bp : Option Nat) : State :=
  mm_free insert_node remove_node s bp

/-- `part_000`/`part_001` `mm_realloc`. -/
def mmRealloc (s : State) (bp : Option Nat) (size : Nat) : State × Option Nat :=
  mm_realloc insert_node remove_node mm_malloc s bp size

/-- `part_000`/`part_001` `extend_heap`. -/
def extendHeap (s : State) (words : Nat) : State × Option Nat :=
  extend_heap insert_node remove_node s words

/-- `part_000`/`part_001` `mm_init`. -/
def mmInit (mem : Nat) : Option State :=
  mm_init insert_node remove_node emptyHeaders mem

end Seg

/-- The single-block shape condition of `wfBlocks`: the size is a positive
multiple of 8 and the payload holds exactly `size - 8` bytes. -/
def wfBlock (b : Block) : Prop :=
  b.size % 8 = 0 ∧ 8 ≤ b.size ∧ b.data.length + 8 = b.size

/-- Structural well-formedness of the block sequence: every size is a
positive multiple of 8 (the aligned header word) and the payload holds
exactly `size - 8` bytes. -/
def wfBlocks (bs : List Block) : Prop :=
  ∀ b ∈ bs, b.size % 8 = 0 ∧ 8 ≤ b.size ∧ b.data.length + 8 = b.size

/-- No two address-adjacent blocks are both free.  The prologue and the
epilogue are allocated sentinels, so only interior pairs can violate
this. -/
def noAdjFree (bs : List Block) : Prop :=
  ∀ j < bs.length, j + 1 < bs.length →
    (bs.getD j dummyBlock).alloc = true ∨ (bs.getD (j + 1) dummyBlock).alloc = true

/-- Free-index consistency, generically over the index representation:
`memIdx idx a` reads "address `a` is on some free list of `idx`",
`inIdx idx a sz` reads "address `a` is on the list where a free block of
size `sz` belongs", and `nodupIdx` reads "no address appears twice across
the lists".  Consistency: the indexed addresses are exactly the free
blocks' payload addresses, each on the list matching its size. -/
def consistentW {ι : Type} (memIdx : ι → Nat → Prop) (inIdx : ι → Nat → Nat → Prop)
    (nodupIdx : ι → Prop) (bs : List Block) (idx : ι) : Prop :=
  nodupIdx idx ∧
  (∀ a, memIdx idx a → ∃ j, j < bs.length ∧ addrOf bs j = a ∧
      (bs.getD j dummyBlock).alloc = false) ∧
  (∀ j, j < bs.length → (bs.getD j dummyBlock).alloc = false →
      inIdx idx (addrOf bs j) (bs.getD j dummyBlock).size)

/-- Segregated-index instantiations of the `consistentW` vocabulary:
membership across any class list, membership on the class list that a
block size selects, and per-list plus cross-list uniqueness. -/
def Seg.memIdx (idx : Seg.Index) (a : Nat) : Prop := ∃ g, a ∈ idx g

def Seg.inIdx (idx : Seg.Index) (a sz : Nat) : Prop :=
  a ∈ idx (Seg.size_to_group sz)

def Seg.nodupIdx (idx : Seg.Index) : Prop :=
  (∀ g, (idx g).Nodup) ∧ ∀ g g' a, a ∈ idx g → a ∈ idx g' → g = g'

namespace Exp

/-- Free-index consistency for the explicit variant: the `succ` chain from
`free_listp` visits pairwise distinct nodes, every node on it is a free
heap block, and every free heap block is on it. -/
def consistent (s : State) : Prop :=
  s.index.Nodup ∧
  (∀ a ∈ s.index, ∃ j, j < s.blocks.length ∧ addrOf s.blocks j = a ∧
      (s.blocks.getD j dummyBlock).alloc = false) ∧
  (∀ j < s.blocks.length, (s.blocks.getD j dummyBlock).alloc = false →
      addrOf s.blocks j ∈ s.index)

/-- Well-formed reachable state of the explicit variant. -/
def WF (s : State) : Prop :=
  wfBlocks s.blocks ∧ noAdjFree s.blocks ∧ consistent s

end Exp

namespace Seg

/-- Free-index consistency for the segregated variant: each class list
visits pairwise distinct nodes, every node on a class list is a free heap
block whose size falls in that class, and every free heap block is on the
class list of its size. -/
def consistent (s : State) : Prop :=
  (∀ g : Fin 16, (s.index g).Nodup) ∧
  (∀ g : Fin 16, ∀ a ∈ s.index g, ∃ j, j < s.blocks.length ∧ addrOf s.blocks j = a ∧
      (s.blocks.getD j dummyBlock).alloc = false ∧
      size_to_group (s.blocks.getD j dummyBlock).size = g) ∧
  (∀ j < s.blocks.length, (s.blocks.getD j dummyBlock).alloc = false →
      addrOf s.blocks j ∈ s.index (size_to_group (s.blocks.getD j dummyBlock).size))

/-- Well-formed reachable state of the segregated variant. -/
def WF (s : State) : Prop :=
  wfBlocks s.blocks ∧ noAdjFree s.blocks ∧ consistent s

end Seg

/-- Modelled from the spec's words for the fit policy (spec 4.3): return
the free block with `size ≥ requested_size` and minimal
`size - requested_size` waste; when several candidates tie, the one
encountered earlier in scan order wins.  Used as the specification side of
the refinement proofs about `find_fit`. -/
def bestFitSpec (sizeOf : Nat → Nat) (asize : Nat) : List Nat → Option Nat
  | [] => none
  | a :: rest =>
    if asize ≤ sizeOf a then
      match bestFitSpec sizeOf asize rest with
      | none => some a
      | some b => if sizeOf b - asize < sizeOf a - asize then some b else some a
    else bestFitSpec sizeOf asize rest

/-- A tiny reachable-shape heap for the explicit variant: one free 8-byte
block at payload address 16, on the free list, provider exhausted. -/
def exampleExpState : Exp.State :=
  ⟨[⟨8, false, []⟩], [16], 200⟩

/-- The segregated analogue of `exampleExpState`: the free 8-byte block at
16 sits on class list 0. -/
def exampleSegState : Seg.State :=
  ⟨[⟨8, false, []⟩], fun g => if g = 0 then [16] else [], 200⟩

/-- A reachable-shape heap for exercising the growing-resize path of the
explicit variant: an allocated 24-byte block holding a 16-byte pattern at
payload address 16, followed by a free 40-byte block at 40 on the free
list; provider exhausted. -/
def exampleExpGrow : Exp.State :=
  ⟨[⟨24, true, List.replicate 16 7⟩, ⟨40, false, List.replicate 32 0⟩], [40], 0⟩

/-- The segregated analogue of `exampleExpGrow`: the free 40-byte block at
40 sits on class list 1 (`size_to_group 40 = 1`). -/
def exampleSegGrow : Seg.State :=
  ⟨[⟨24, true, List.replicate 16 7⟩, ⟨40, false, List.replicate 32 0⟩],
   fun g => if g = 1 then [40] else [], 0⟩

/-- A heap for exhibiting the adjusted-size `size_t` overflow on the
allocation path: one free 32-byte block at payload address 16, on the free
list, provider exhausted. -/
def exampleExpHuge : Exp.State :=
  ⟨[⟨32, false, List.replicate 24 0⟩], [16], 0⟩

/-- A heap for exhibiting the adjusted-size `size_t` overflow on the
resize path: a single allocated 48-byte block at 16 whose 40-byte payload
holds a pattern; the free list is empty. -/
def exampleExpShrinkBug : Exp.State :=
  ⟨[⟨48, true, List.replicate 40 7⟩], [], 0⟩

/-!
## Theorems

Helper lemmas first, then one theorem (plus witness or counterexample as
needed) per claim C1..C10.
-/

/-- C9: for every pointer `p`, `resize(p, 0)` has exactly the same effect
on the heap as `free(p)` and returns `NULL`, and `resize(NULL, n)` behaves
exactly like `allocate(n)`; this holds in both the explicit (`mm.c`) and
segregated (`part_000`/`part_001`) variants. -/
theorem C9_resize_zero_free_resize_null_malloc :
    (∀ (s : Exp.State) (p : Nat),
        Exp.mmRealloc s (some p) 0 = (Exp.mmFree s (some p), none)) ∧
    (∀ (s : Exp.State) (n : Nat), Exp.mmRealloc s none n = Exp.mm_malloc s n) ∧
    (∀ (s : Seg.State) (p : Nat),
        Seg.mmRealloc s (some p) 0 = (Seg.mmFree s (some p), none)) ∧
    (∀ (s : Seg.State) (n : Nat), Seg.mmRealloc s none n = Seg.mm_malloc s n) :=
  ⟨fun _ _ => rfl, fun _ _ => rfl, fun _ _ => rfl, fun _ _ => rfl⟩

lemma extend_heap_fail {ι : Type} (ins rem : ι → Nat → Nat → ι) (s : HState ι)
    (words : Nat) (h : s.mem < extendBytes words) :
    extend_heap ins rem s words = (s, none) := by
  simp only [extend_heap]
  rw [if_neg (by omega)]

lemma Exp_mm_malloc_fail (s : Exp.State) (n : Nat) (hn : n ≠ 0)
    (hmiss : Exp.find_fit s (asizeOf n) = none)
    (hmem : s.mem < extendBytes (max (asizeOf n) 4096 / 4)) :
    Exp.mm_malloc s n = (s, none) := by
  simp only [Exp.mm_malloc]
  rw [if_neg hn, hmiss, extend_heap_fail _ _ _ _ hmem]

lemma Seg_mm_malloc_fail (s : Seg.State) (n : Nat) (hn : n ≠ 0)
    (hmiss : Seg.find_fit s (asizeOf n) = none)
    (htail : Seg.getFreeSizeOfTail s.blocks < asizeOf n)
    (hmem : s.mem <
      extendBytes ((asizeOf n - Seg.getFreeSizeOfTail s.blocks + (4 - 1)) / 4)) :
    Seg.mm_malloc s n = (s, none) := by
  simp only [Seg.mm_malloc]
  rw [if_neg hn, hmiss]
  rw [if_pos (by omega : asizeOf n > Seg.getFreeSizeOfTail s.blocks)]
  rw [if_pos (by omega : 0 < asizeOf n - Seg.getFreeSizeOfTail s.blocks)]
  rw [extend_heap_fail _ _ _ _ hmem]

lemma mm_init_fail {ι : Type} (ins rem : ι → Nat → Nat → ι) (emptyIdx : ι)
    (mem : Nat) (h16 : 16 ≤ mem) (h : mem - 16 < 4096) :
    mm_init ins rem emptyIdx mem = none := by
  simp only [mm_init]
  rw [if_pos h16, extend_heap_fail _ _ _ _ (by simpa [extendBytes] using h)]

lemma Exp_mm_realloc_fail (s : Exp.State) (p n i : Nat) (hn : n ≠ 0)
    (hidx : idxOf s.blocks p = some i)
    (hgrow : (s.blocks.getD i dummyBlock).size < asizeOf n)
    (hnext : ¬((i + 1 < s.blocks.length ∧
        (s.blocks.getD (i + 1) dummyBlock).alloc = false) ∧
      asizeOf n ≤
        (s.blocks.getD i dummyBlock).size + (s.blocks.getD (i + 1) dummyBlock).size))
    (hmalloc : Exp.mm_malloc s n = (s, none)) :
    Exp.mmRealloc s (some p) n = (s, none) := by
  simp only [Exp.mmRealloc, mm_realloc, hidx]
  rw [if_neg hn, if_neg (by omega)]
  by_cases hc :
      i + 1 < s.blocks.length ∧ (s.blocks.getD (i + 1) dummyBlock).alloc = false
  · rw [if_pos hc, if_neg (fun hcap => hnext ⟨hc, hcap⟩)]
    rw [hmalloc]
  · rw [if_neg hc]
    rw [hmalloc]

/-- C8: when the provider cannot satisfy a heap-growth request, the
extension fails with no heap mutation — the returned state is exactly the
input state, so every block, every free list and the epilogue are
unchanged — and the failure propagates as a null/failure return from
allocate (both variants), from resize on its allocate-copy-free path, and
from init. -/
theorem C8_failed_growth_no_mutation :
    (∀ {ι : Type} (ins rem : ι → Nat → Nat → ι) (s : HState ι) (words : Nat),
        s.mem < extendBytes words → extend_heap ins rem s words = (s, none)) ∧
    (∀ (s : Exp.State) (n : Nat), n ≠ 0 → Exp.find_fit s (asizeOf n) = none →
        s.mem < extendBytes (max (asizeOf n) 4096 / 4) →
        Exp.mm_malloc s n = (s, none)) ∧
    (∀ (s : Seg.State) (n : Nat), n ≠ 0 → Seg.find_fit s (asizeOf n) = none →
        Seg.getFreeSizeOfTail s.blocks < asizeOf n →
        s.mem < extendBytes
          ((asizeOf n - Seg.getFreeSizeOfTail s.blocks + (4 - 1)) / 4) →
        Seg.mm_malloc s n = (s, none)) ∧
    (∀ {ι : Type} (ins rem : ι → Nat → Nat → ι) (emptyIdx : ι) (mem : Nat),
        16 ≤ mem → mem - 16 < 4096 → mm_init ins rem emptyIdx mem = none) ∧
    (∀ (s : Exp.State) (p n i : Nat), n ≠ 0 → idxOf s.blocks p = some i →
        (s.blocks.getD i dummyBlock).size < asizeOf n →
        ¬((i + 1 < s.blocks.length ∧
            (s.blocks.getD (i + 1) dummyBlock).alloc = false) ∧
          asizeOf n ≤ (s.blocks.getD i dummyBlock).size +
            (s.blocks.getD (i + 1) dummyBlock).size) →
        Exp.mm_malloc s n = (s, none) →
        Exp.mmRealloc s (some p) n = (s, none)) :=
  ⟨fun ins rem s words h => extend_heap_fail ins rem s words h,
   Exp_mm_malloc_fail, Seg_mm_malloc_fail,
   fun ins rem emptyIdx mem h16 h => mm_init_fail ins rem emptyIdx mem h16 h,
   Exp_mm_realloc_fail⟩

/-- Witness for C8 at concrete inputs: a heap with one allocated 24-byte
block and an exhausted provider. -/
theorem C8_witness :
    Exp.mm_malloc ⟨[⟨24, true, List.replicate 16 0⟩], [], 0⟩ 100 =
      (⟨[⟨24, true, List.replicate 16 0⟩], [], 0⟩, none) ∧
    Seg.mm_malloc ⟨[⟨24, true, List.replicate 16 0⟩], fun _ => [], 0⟩ 100 =
      (⟨[⟨24, true, List.replicate 16 0⟩], fun _ => [], 0⟩, none) ∧
    mm_init Exp.insert_node Exp.remove_node ([] : Exp.Index) 100 = none ∧
    Exp.mmRealloc ⟨[⟨24, true, List.replicate 16 0⟩], [], 0⟩ (some 16) 100 =
      (⟨[⟨24, true, List.replicate 16 0⟩], [], 0⟩, none) :=
  ⟨C8_failed_growth_no_mutation.2.1 _ 100 (by decide) (by decide) (by decide),
   C8_failed_growth_no_mutation.2.2.1 _ 100 (by decide) (by decide) (by decide)
     (by decide),
   C8_failed_growth_no_mutation.2.2.2.1 _ _ _ 100 (by decide) (by decide),
   C8_failed_growth_no_mutation.2.2.2.2 _ 16 100 0 (by decide) (by decide)
     (by decide) (by decide)
     (C8_failed_growth_no_mutation.2.1 _ 100 (by decide) (by decide) (by decide))⟩

lemma bestFitSpec_some (sizeOf : Nat → Nat) (asize : Nat) :
    ∀ (l : List Nat) (m : Nat), bestFitSpec sizeOf asize l = some m →
      m ∈ l ∧ asize ≤ sizeOf m := by
  intro l
  induction l with
  | nil => intro m h; simp [bestFitSpec] at h
  | cons a rest ih =>
    intro m h
    simp only [bestFitSpec] at h
    by_cases ha : asize ≤ sizeOf a
    · rw [if_pos ha] at h
      rcases hrest : bestFitSpec sizeOf asize rest with _ | b <;>
          simp only [hrest] at h
      · replace h := Option.some.inj h
        subst h
        exact ⟨List.mem_cons_self a rest, ha⟩
      · by_cases hlt : sizeOf b - asize < sizeOf a - asize
        · rw [if_pos hlt] at h
          replace h := Option.some.inj h
          subst h
          obtain ⟨hmem, hfit⟩ := ih b hrest
          exact ⟨List.mem_cons_of_mem a hmem, hfit⟩
        · rw [if_neg hlt] at h
          replace h := Option.some.inj h
          subst h
          exact ⟨List.mem_cons_self a rest, ha⟩
    · rw [if_neg ha] at h
      obtain ⟨hmem, hfit⟩ := ih m h
      exact ⟨List.mem_cons_of_mem a hmem, hfit⟩

lemma bestFitSpec_none (sizeOf : Nat → Nat) (asize : Nat) :
    ∀ (l : List Nat), bestFitSpec sizeOf asize l = none ↔
      ∀ a ∈ l, sizeOf a < asize := by
  intro l
  induction l with
  | nil => simp [bestFitSpec]
  | cons a rest ih =>
    simp only [bestFitSpec]
    by_cases ha : asize ≤ sizeOf a
    · rw [if_pos ha]
      constructor
      · intro h
        rcases hrest : bestFitSpec sizeOf asize rest with _ | b <;>
            simp only [hrest] at h
        · simp at h
        · split at h <;> simp at h
      · intro h
        exact absurd (h a (List.mem_cons_self a rest)) (by omega)
    · rw [if_neg ha]
      rw [ih]
      constructor
      · intro h b hb
        rcases List.mem_cons.mp hb with hba | hbr
        · subst hba; omega
        · exact h b hbr
      · intro h b hb
        exact h b (List.mem_cons_of_mem a hb)

lemma bestFitSpec_min (sizeOf : Nat → Nat) (asize : Nat) :
    ∀ (l : List Nat) (m : Nat), bestFitSpec sizeOf asize l = some m →
      ∀ b ∈ l, asize ≤ sizeOf b → sizeOf m - asize ≤ sizeOf b - asize := by
  intro l
  induction l with
  | nil => intro m h; simp [bestFitSpec] at h
  | cons a rest ih =>
    intro m h c hc hcfit
    simp only [bestFitSpec] at h
    by_cases ha : asize ≤ sizeOf a
    · rw [if_pos ha] at h
      rcases hrest : bestFitSpec sizeOf asize rest with _ | b <;>
          simp only [hrest] at h
      · replace h := Option.some.inj h
        subst h
        rcases List.mem_cons.mp hc with hca | hcr
        · subst hca; omega
        · have := (bestFitSpec_none sizeOf asize rest).mp hrest c hcr
          omega
      · by_cases hlt : sizeOf b - asize < sizeOf a - asize
        · rw [if_pos hlt] at h
          replace h := Option.some.inj h
          subst h
          rcases List.mem_cons.mp hc with hca | hcr
          · subst hca; omega
          · exact ih b hrest c hcr hcfit
        · rw [if_neg hlt] at h
          replace h := Option.some.inj h
          subst h
          rcases List.mem_cons.mp hc with hca | hcr
          · subst hca; omega
          · have := ih b hrest c hcr hcfit
            omega
    · rw [if_neg ha] at h
      rcases List.mem_cons.mp hc with hca | hcr
      · subst hca; omega
      · exact ih m h c hcr hcfit

lemma bestFitSpec_earliest (sizeOf : Nat → Nat) (asize : Nat) :
    ∀ (l : List Nat) (m : Nat), bestFitSpec sizeOf asize l = some m →
      ∃ l₁ l₂, l = l₁ ++ m :: l₂ ∧
        ∀ b ∈ l₁, asize ≤ sizeOf b → sizeOf m - asize < sizeOf b - asize := by
  intro l
  induction l with
  | nil => intro m h; simp [bestFitSpec] at h
  | cons a rest ih =>
    intro m h
    simp only [bestFitSpec] at h
    by_cases ha : asize ≤ sizeOf a
    · rw [if_pos ha] at h
      rcases hrest : bestFitSpec sizeOf asize rest with _ | b <;>
          simp only [hrest] at h
      · replace h := Option.some.inj h
        subst h
        exact ⟨[], rest, rfl, by simp⟩
      · by_cases hlt : sizeOf b - asize < sizeOf a - asize
        · rw [if_pos hlt] at h
          replace h := Option.some.inj h
          subst h
          obtain ⟨l₁, l₂, heq, hstrict⟩ := ih b hrest
          refine ⟨a :: l₁, l₂, by rw [heq]; rfl, ?_⟩
          intro c hc hcfit
          rcases List.mem_cons.mp hc with hca | hcr
          · subst hca; omega
          · exact hstrict c hcr hcfit
        · rw [if_neg hlt] at h
          replace h := Option.some.inj h
          subst h
          exact ⟨[], rest, rfl, by simp⟩
    · rw [if_neg ha] at h
      obtain ⟨l₁, l₂, heq, hstrict⟩ := ih m h
      refine ⟨a :: l₁, l₂, by rw [heq]; rfl, ?_⟩
      intro c hc hcfit
      rcases List.mem_cons.mp hc with hca | hcr
      · subst hca; omega
      · exact hstrict c hcr hcfit
lemma Exp_find_fit_go_acc (sizeOf : Nat → Nat) (asize : Nat) :
    ∀ (l : List Nat) (b : Nat), asize ≤ sizeOf b → asize ≠ sizeOf b →
      Exp.find_fit_go sizeOf asize l (some b) (sizeOf b) =
        match bestFitSpec sizeOf asize l with
        | none => some b
        | some m => if sizeOf m - asize < sizeOf b - asize then some m else some b := by
  intro l
  induction l with
  | nil => intro b hb hbne; simp [Exp.find_fit_go, bestFitSpec]
  | cons a rest ih =>
    intro b hb hbne
    simp only [Exp.find_fit_go, bestFitSpec, ge_iff_le]
    by_cases ha : asize ≤ sizeOf a
    · rw [if_pos ha, if_pos ha]
      by_cases hex : sizeOf a = asize
      · rw [if_pos hex]
        rcases hrest : bestFitSpec sizeOf asize rest with _ | c <;>
            simp only [hrest]
        · rw [if_pos (by omega)]
        · have hcfit := (bestFitSpec_some sizeOf asize rest c hrest).2
          rw [if_neg (by omega : ¬(sizeOf c - asize < sizeOf a - asize))]
          show some a = if sizeOf a - asize < sizeOf b - asize then some a else some b
          rw [if_pos (by omega)]
      · rw [if_neg hex]
        by_cases hab : sizeOf a < sizeOf b
        · rw [if_pos hab, ih a ha (fun he => hex he.symm)]
          rcases hrest : bestFitSpec sizeOf asize rest with _ | c <;>
              simp only [hrest]
          · rw [if_pos (by omega)]
          · have hcfit := (bestFitSpec_some sizeOf asize rest c hrest).2
            by_cases hca : sizeOf c - asize < sizeOf a - asize
            · rw [if_pos hca]
              show some c = if sizeOf c - asize < sizeOf b - asize then some c else some b
              rw [if_pos (by omega)]
            · rw [if_neg hca]
              show some a = if sizeOf a - asize < sizeOf b - asize then some a else some b
              rw [if_pos (by omega)]
        · rw [if_neg hab, ih b hb hbne]
          rcases hrest : bestFitSpec sizeOf asize rest with _ | c <;>
              simp only [hrest]
          · rw [if_neg (by omega)]
          · have hcfit := (bestFitSpec_some sizeOf asize rest c hrest).2
            by_cases hca : sizeOf c - asize < sizeOf a - asize
            · rw [if_pos hca]
            · rw [if_neg hca]
              show (if sizeOf c - asize < sizeOf b - asize then some c else some b) =
                if sizeOf a - asize < sizeOf b - asize then some a else some b
              rw [if_neg (by omega), if_neg (by omega)]
    · rw [if_neg ha, if_neg ha]
      exact ih b hb hbne

lemma Exp_find_fit_go_spec (sizeOf : Nat → Nat) (asize : Nat) :
    ∀ (l : List Nat), (∀ a ∈ l, sizeOf a < 2 ^ 64 - 1) →
      Exp.find_fit_go sizeOf asize l none (2 ^ 64 - 1) =
        bestFitSpec sizeOf asize l := by
  intro l
  induction l with
  | nil => intro _; simp [Exp.find_fit_go, bestFitSpec]
  | cons a rest ih =>
    intro hb
    simp only [Exp.find_fit_go, bestFitSpec, ge_iff_le]
    by_cases ha : asize ≤ sizeOf a
    · rw [if_pos ha, if_pos ha]
      by_cases hex : sizeOf a = asize
      · rw [if_pos hex]
        rcases hrest : bestFitSpec sizeOf asize rest with _ | c <;>
            simp only [hrest]
        · have hcfit := (bestFitSpec_some sizeOf asize rest c hrest).2
          rw [if_neg (by omega)]
      · rw [if_neg hex, if_pos (hb a (List.mem_cons_self a rest)),
          Exp_find_fit_go_acc sizeOf asize rest a ha (fun he => hex he.symm)]
    · rw [if_neg ha, if_neg ha]
      exact ih (fun x hx => hb x (List.mem_cons_of_mem a hx))

/-- `mm.c` `find_fit` refines the spec's best-fit policy whenever every
block size on the list is below the `(size_t)-1` sentinel (always true of
sizes decoded from 32-bit headers). -/
lemma Exp_find_fit_spec (s : Exp.State) (asize : Nat)
    (hb : ∀ a ∈ s.index, sizeAt s.blocks a < 2 ^ 64 - 1) :
    Exp.find_fit s asize = bestFitSpec (sizeAt s.blocks) asize s.index :=
  Exp_find_fit_go_spec (sizeAt s.blocks) asize s.index hb

lemma Seg_scanBest_acc (sizeOf : Nat → Nat) (asize : Nat) :
    ∀ (l : List Nat) (b : Nat), asize ≤ sizeOf b → asize ≠ sizeOf b →
      Seg.scanBest sizeOf asize l (some b) (sizeOf b - asize) =
        match bestFitSpec sizeOf asize l with
        | none => some b
        | some m => if sizeOf m - asize < sizeOf b - asize then some m else some b := by
  intro l
  induction l with
  | nil => intro b hb hbne; simp [Seg.scanBest, bestFitSpec]
  | cons a rest ih =>
    intro b hb hbne
    simp only [Seg.scanBest, bestFitSpec, ge_iff_le]
    by_cases ha : asize ≤ sizeOf a
    · rw [if_pos ha, if_pos ha]
      by_cases hex : sizeOf a - asize = 0
      · rw [if_pos hex]
        rcases hrest : bestFitSpec sizeOf asize rest with _ | c <;>
            simp only [hrest]
        · rw [if_pos (by omega)]
        · have hcfit := (bestFitSpec_some sizeOf asize rest c hrest).2
          rw [if_neg (by omega : ¬(sizeOf c - asize < sizeOf a - asize))]
          show some a = if sizeOf a - asize < sizeOf b - asize then some a else some b
          rw [if_pos (by omega)]
      · rw [if_neg hex]
        by_cases hca : sizeOf a - asize < sizeOf b - asize
        · rw [if_pos hca, ih a ha (by omega)]
          rcases hrest : bestFitSpec sizeOf asize rest with _ | c <;>
              simp only [hrest]
          · rw [if_pos (by omega)]
          · have hcfit := (bestFitSpec_some sizeOf asize rest c hrest).2
            by_cases hwc : sizeOf c - asize < sizeOf a - asize
            · rw [if_pos hwc]
              show some c = if sizeOf c - asize < sizeOf b - asize then some c else some b
              rw [if_pos (by omega)]
            · rw [if_neg hwc]
              show some a = if sizeOf a - asize < sizeOf b - asize then some a else some b
              rw [if_pos (by omega)]
        · rw [if_neg hca, ih b hb hbne]
          rcases hrest : bestFitSpec sizeOf asize rest with _ | c <;>
              simp only [hrest]
          · rw [if_neg (by omega)]
          · have hcfit := (bestFitSpec_some sizeOf asize rest c hrest).2
            by_cases hwc : sizeOf c - asize < sizeOf a - asize
            · rw [if_pos hwc]
            · rw [if_neg hwc]
              show (if sizeOf c - asize < sizeOf b - asize then some c else some b) =
                if sizeOf a - asize < sizeOf b - asize then some a else some b
              rw [if_neg (by omega : ¬(sizeOf c - asize < sizeOf b - asize)),
                if_neg (by omega)]
    · rw [if_neg ha, if_neg ha]
      exact ih b hb hbne

lemma Seg_scanBest_spec (sizeOf : Nat → Nat) (asize : Nat) :
    ∀ (l : List Nat), (∀ a ∈ l, sizeOf a - asize < 2 ^ 64 - 1) →
      Seg.scanBest sizeOf asize l none (2 ^ 64 - 1) =
        bestFitSpec sizeOf asize l := by
  intro l
  induction l with
  | nil => intro _; simp [Seg.scanBest, bestFitSpec]
  | cons a rest ih =>
    intro hb
    simp only [Seg.scanBest, bestFitSpec, ge_iff_le]
    by_cases ha : asize ≤ sizeOf a
    · rw [if_pos ha, if_pos ha]
      by_cases hex : sizeOf a - asize = 0
      · rw [if_pos hex]
        rcases hrest : bestFitSpec sizeOf asize rest with _ | c <;>
            simp only [hrest]
        · have hcfit := (bestFitSpec_some sizeOf asize rest c hrest).2
          rw [if_neg (by omega)]
      · rw [if_neg hex, if_pos (hb a (List.mem_cons_self a rest)),
          Seg_scanBest_acc sizeOf asize rest a ha (by omega)]
    · rw [if_neg ha, if_neg ha]
      exact ih (fun x hx => hb x (List.mem_cons_of_mem a hx))

/-- `part_000` `find_fit` refines the spec's best-fit policy over the
visited class lists whenever every waste is below the `(size_t)-1`
sentinel (always true of sizes decoded from 32-bit headers). -/
lemma Seg_find_fit_spec (s : Seg.State) (asize : Nat)
    (hb : ∀ a ∈ Seg.visited s.index asize,
      sizeAt s.blocks a - asize < 2 ^ 64 - 1) :
    Seg.find_fit s asize =
      bestFitSpec (sizeAt s.blocks) asize (Seg.visited s.index asize) :=
  Seg_scanBest_spec (sizeAt s.blocks) asize (Seg.visited s.index asize) hb

/-- C6: in the explicit single-list variant, `find_fit` scans the one free
list and returns the free block with size at least the requested size and
minimal waste, short-circuiting on an exact match; among equal-waste
candidates the earlier list position wins.  Stated as: `find_fit` equals
the spec policy `bestFitSpec`, the returned block is a fitting member of
minimal waste, every fitting block strictly before it has strictly larger
waste (which also forces the exact-match short circuit), and a no-fit
answer means no listed block fits.  The side condition bounds every listed
size by the `(size_t)-1` scan sentinel, which always holds for sizes
decoded from 32-bit headers. -/
theorem C6_explicit_find_fit_best_fit (s : Exp.State) (asize : Nat)
    (hb : ∀ a ∈ s.index, sizeAt s.blocks a < 2 ^ 64 - 1) :
    Exp.find_fit s asize = bestFitSpec (sizeAt s.blocks) asize s.index ∧
    (∀ m, Exp.find_fit s asize = some m →
      m ∈ s.index ∧ asize ≤ sizeAt s.blocks m ∧
      (∀ b ∈ s.index, asize ≤ sizeAt s.blocks b →
        sizeAt s.blocks m - asize ≤ sizeAt s.blocks b - asize) ∧
      ∃ l₁ l₂, s.index = l₁ ++ m :: l₂ ∧
        ∀ b ∈ l₁, asize ≤ sizeAt s.blocks b →
          sizeAt s.blocks m - asize < sizeAt s.blocks b - asize) ∧
    (Exp.find_fit s asize = none ↔
      ∀ b ∈ s.index, sizeAt s.blocks b < asize) := by
  have he := Exp_find_fit_spec s asize hb
  refine ⟨he, ?_, ?_⟩
  · intro m hm
    rw [he] at hm
    obtain ⟨hmem, hfit⟩ := bestFitSpec_some _ _ _ _ hm
    exact ⟨hmem, hfit, bestFitSpec_min _ _ _ _ hm,
      bestFitSpec_earliest _ _ _ _ hm⟩
  · rw [he]
    exact bestFitSpec_none _ _ _

/-- Witness for C6: a heap whose free list holds a 40-byte and a 48-byte
free block; a request of adjusted size 44 fits only the 48-byte block. -/
theorem C6_witness :
    Exp.find_fit ⟨[⟨40, false, []⟩, ⟨24, true, []⟩, ⟨48, false, []⟩], [16, 80], 0⟩ 44 =
      bestFitSpec
        (sizeAt [⟨40, false, []⟩, ⟨24, true, []⟩, ⟨48, false, []⟩]) 44 [16, 80] ∧
    Exp.find_fit ⟨[⟨40, false, []⟩, ⟨24, true, []⟩, ⟨48, false, []⟩], [16, 80], 0⟩ 44 =
      some 80 :=
  ⟨(C6_explicit_find_fit_best_fit _ 44 (by decide)).1, by decide⟩

lemma find?_eq_some_split {α : Type} (p : α → Bool) :
    ∀ (l : List α) (a : α), l.find? p = some a →
      ∃ l₁ l₂, l = l₁ ++ a :: l₂ ∧ ∀ b ∈ l₁, p b = false := by
  intro l
  induction l with
  | nil => intro a h; simp at h
  | cons x xs ih =>
    intro a h
    by_cases hp : p x = true
    · rw [List.find?_cons_of_pos _ hp] at h
      replace h := Option.some.inj h
      subst h
      exact ⟨[], xs, rfl, by simp⟩
    · rw [List.find?_cons_of_neg _ hp] at h
      obtain ⟨l₁, l₂, heq, hfalse⟩ := ih a h
      refine ⟨x :: l₁, l₂, by rw [heq]; rfl, ?_⟩
      intro b hb
      rcases List.mem_cons.mp hb with hbx | hbl
      · subst hbx; simpa using hp
      · exact hfalse b hbl

lemma mem_finRange_drop_le :
    ∀ (k x : Fin 16), x ∈ (List.finRange 16).drop k.val → k ≤ x := by decide

lemma Seg_visited_congr (idx idx' : Seg.Index) (asize : Nat)
    (h : ∀ g : Fin 16, Seg.size_to_group asize ≤ g → idx' g = idx g) :
    Seg.visited idx' asize = Seg.visited idx asize := by
  unfold Seg.visited
  congr 1
  apply List.map_congr_left
  intro x hx
  exact h x (mem_finRange_drop_le _ x hx)

/-- C1 (counterexample to the claim as frozen): the repository's segregated
variant `part_001` implements `find_fit` as first fit over the visited
classes, not global best fit.  In a heap with a free 48-byte block at 16
ahead of a free 40-byte block at 88 on the same class list, a request of
adjusted size 40 returns the 48-byte block (waste 8) even though the
40-byte block (waste 0, an exact match) is visited later, contradicting
"returns the one with minimal waste, returning immediately on an exact
match". -/
theorem C1_counterexample :
    Seg.find_fit001
      ⟨[⟨48, false, []⟩, ⟨24, true, []⟩, ⟨40, false, []⟩, ⟨24, true, []⟩],
        fun g => if g = 1 then [16, 88] else [], 0⟩ 40 = some 16 ∧
    sizeAt [⟨48, false, []⟩, ⟨24, true, []⟩, ⟨40, false, []⟩, ⟨24, true, []⟩] 16 = 48 ∧
    88 ∈ Seg.visited (fun g => if g = 1 then [16, 88] else []) 40 ∧
    sizeAt [⟨48, false, []⟩, ⟨24, true, []⟩, ⟨40, false, []⟩, ⟨24, true, []⟩] 88 = 40 := by
  decide

/-- C1 (amended): both segregated `find_fit` implementations start at the
size class of the requested size and read only that class and larger ones
(replacing the smaller classes changes nothing).  The `part_000`
implementation returns, among all visited blocks that fit, the one with
minimal waste — equal to the spec policy `bestFitSpec`, with every fitting
block scanned before it strictly worse, which forces the immediate return
on an exact match — and returns no-fit exactly when no visited block fits.
The `part_001` implementation instead returns the first visited block that
fits (first fit): every block scanned before it does not fit.  The side
condition bounds each visited waste by the `(size_t)-1` scan sentinel,
always true of sizes decoded from 32-bit headers. -/
theorem C1_segregated_find_fit (s : Seg.State) (asize : Nat)
    (hb : ∀ a ∈ Seg.visited s.index asize,
      sizeAt s.blocks a - asize < 2 ^ 64 - 1) :
    Seg.find_fit s asize =
      bestFitSpec (sizeAt s.blocks) asize (Seg.visited s.index asize) ∧
    (∀ m, Seg.find_fit s asize = some m →
      m ∈ Seg.visited s.index asize ∧ asize ≤ sizeAt s.blocks m ∧
      (∀ b ∈ Seg.visited s.index asize, asize ≤ sizeAt s.blocks b →
        sizeAt s.blocks m - asize ≤ sizeAt s.blocks b - asize) ∧
      ∃ l₁ l₂, Seg.visited s.index asize = l₁ ++ m :: l₂ ∧
        ∀ b ∈ l₁, asize ≤ sizeAt s.blocks b →
          sizeAt s.blocks m - asize < sizeAt s.blocks b - asize) ∧
    (Seg.find_fit s asize = none ↔
      ∀ b ∈ Seg.visited s.index asize, sizeAt s.blocks b < asize) ∧
    (∀ idx' : Seg.Index,
      (∀ g : Fin 16, Seg.size_to_group asize ≤ g → idx' g = s.index g) →
      Seg.find_fit ⟨s.blocks, idx', s.mem⟩ asize = Seg.find_fit s asize ∧
      Seg.find_fit001 ⟨s.blocks, idx', s.mem⟩ asize = Seg.find_fit001 s asize) ∧
    (∀ m, Seg.find_fit001 s asize = some m →
      m ∈ Seg.visited s.index asize ∧ asize ≤ sizeAt s.blocks m ∧
      ∃ l₁ l₂, Seg.visited s.index asize = l₁ ++ m :: l₂ ∧
        ∀ b ∈ l₁, sizeAt s.blocks b < asize) ∧
    (Seg.find_fit001 s asize = none ↔
      ∀ b ∈ Seg.visited s.index asize, sizeAt s.blocks b < asize) := by
  have he := Seg_find_fit_spec s asize hb
  refine ⟨he, ?_, ?_, ?_, ?_, ?_⟩
  · intro m hm
    rw [he] at hm
    obtain ⟨hmem, hfit⟩ := bestFitSpec_some _ _ _ _ hm
    exact ⟨hmem, hfit, bestFitSpec_min _ _ _ _ hm,
      bestFitSpec_earliest _ _ _ _ hm⟩
  · rw [he]
    exact bestFitSpec_none _ _ _
  · intro idx' hidx
    have hv := Seg_visited_congr s.index idx' asize hidx
    constructor
    · show Seg.scanBest _ _ (Seg.visited idx' asize) _ _ = _
      rw [hv]; rfl
    · show (Seg.visited idx' asize).find? _ = _
      rw [hv]; rfl
  · intro m hm
    have hmem := List.mem_of_find?_eq_some hm
    have hfit := List.find?_some hm
    simp only [decide_eq_true_eq] at hfit
    obtain ⟨l₁, l₂, heq, hfalse⟩ := find?_eq_some_split _ _ _ hm
    refine ⟨hmem, hfit, l₁, l₂, heq, ?_⟩
    intro b hbl
    have := hfalse b hbl
    simp only [decide_eq_false_iff_not, not_le] at this
    exact this
  · unfold Seg.find_fit001
    rw [List.find?_eq_none]
    constructor
    · intro h b hbv
      have := h b hbv
      simp only [decide_eq_true_eq] at this
      omega
    · intro h b hbv
      simp only [decide_eq_true_eq]
      have := h b hbv
      omega

/-- Witness for C1 (amended) on the counterexample heap: the `part_000`
best-fit scan returns the exact 40-byte match at 88, unlike `part_001`. -/
theorem C1_witness :
    Seg.find_fit
      ⟨[⟨48, false, []⟩, ⟨24, true, []⟩, ⟨40, false, []⟩, ⟨24, true, []⟩],
        fun g => if g = 1 then [16, 88] else [], 0⟩ 40 =
      bestFitSpec
        (sizeAt [⟨48, false, []⟩, ⟨24, true, []⟩, ⟨40, false, []⟩, ⟨24, true, []⟩])
        40 (Seg.visited (fun g => if g = 1 then [16, 88] else []) 40) ∧
    Seg.find_fit
      ⟨[⟨48, false, []⟩, ⟨24, true, []⟩, ⟨40, false, []⟩, ⟨24, true, []⟩],
        fun g => if g = 1 then [16, 88] else [], 0⟩ 40 = some 88 :=
  ⟨(C1_segregated_find_fit _ 40 (by decide)).1, by decide⟩

lemma getD_append_left (L R : List Block) (j : Nat) (h : j < L.length) :
    (L ++ R).getD j dummyBlock = L.getD j dummyBlock := by
  simp [List.getD_eq_getElem?_getD, List.getElem?_append_left h]

lemma getD_append_right (L R : List Block) (j : Nat) (h : L.length ≤ j) :
    (L ++ R).getD j dummyBlock = R.getD (j - L.length) dummyBlock := by
  simp [List.getD_eq_getElem?_getD, List.getElem?_append_right h]

lemma getD_drop (bs : List Block) (i j : Nat) :
    (bs.drop i).getD j dummyBlock = bs.getD (i + j) dummyBlock := by
  simp [List.getD_eq_getElem?_getD, List.getElem?_drop]

lemma getD_take (bs : List Block) (i j : Nat) (h : j < i) :
    (bs.take i).getD j dummyBlock = bs.getD j dummyBlock := by
  simp [List.getD_eq_getElem?_getD, List.getElem?_take, h]

lemma getD_cons_succ (x : Block) (xs : List Block) (j : Nat) :
    (x :: xs).getD (j + 1) dummyBlock = xs.getD j dummyBlock := rfl

lemma addrOf_zero (bs : List Block) : addrOf bs 0 = 16 := rfl

lemma addrOf_succ (bs : List Block) (i : Nat) :
    addrOf bs (i + 1) = addrOf bs i + (bs.getD i dummyBlock).size := by
  unfold addrOf
  rw [List.take_succ]
  rcases h : bs[i]? with _ | b
  · have : bs.length ≤ i := by
      by_contra hc
      push_neg at hc
      exact absurd h (by simp [List.getElem?_eq_getElem hc])
    simp [List.getD_eq_getElem?_getD, h, dummyBlock]
  · simp [List.getD_eq_getElem?_getD, h]
    omega

lemma addrOf_mono (bs : List Block) (i j : Nat) (h : i ≤ j) :
    addrOf bs i ≤ addrOf bs j := by
  induction j with
  | zero => simp_all
  | succ k ih =>
    rcases Nat.lt_or_ge i (k + 1) with hik | hik
    · have := ih (by omega)
      rw [addrOf_succ]
      omega
    · have : i = k + 1 := by omega
      subst this
      exact le_refl _

lemma addrOf_strict (bs : List Block) (hpos : ∀ b ∈ bs, 0 < b.size)
    (i j : Nat) (hij : i < j) (hi : i < bs.length) :
    addrOf bs i < addrOf bs j := by
  have h1 : addrOf bs i < addrOf bs (i + 1) := by
    rw [addrOf_succ]
    have : bs.getD i dummyBlock ∈ bs := by
      rw [List.getD_eq_getElem?_getD, List.getElem?_eq_getElem hi]
      exact List.getElem_mem _
    have := hpos _ this
    omega
  have h2 := addrOf_mono bs (i + 1) j (by omega)
  omega

lemma addrOf_take (bs : List Block) (n j : Nat) (h : j ≤ n) :
    addrOf (bs.take n) j = addrOf bs j := by
  unfold addrOf
  rw [List.take_take, Nat.min_eq_left h]

lemma addrOf_append_left (L R : List Block) (j : Nat) (h : j ≤ L.length) :
    addrOf (L ++ R) j = addrOf L j := by
  unfold addrOf
  rw [List.take_append_of_le_length h]

lemma find?_append_of_some {α : Type} (p : α → Bool) (l₁ l₂ : List α) (a : α)
    (h : l₁.find? p = some a) : (l₁ ++ l₂).find? p = some a := by
  induction l₁ with
  | nil => simp at h
  | cons x xs ih =>
    by_cases hp : p x = true
    · rw [List.find?_cons_of_pos _ hp] at h
      simpa [List.find?_cons_of_pos _ hp] using h
    · rw [List.find?_cons_of_neg _ hp] at h
      simpa [List.find?_cons_of_neg _ hp] using ih h

lemma find?_append_of_none {α : Type} (p : α → Bool) (l₁ l₂ : List α)
    (h : l₁.find? p = none) : (l₁ ++ l₂).find? p = l₂.find? p := by
  induction l₁ with
  | nil => simp
  | cons x xs ih =>
    by_cases hp : p x = true
    · rw [List.find?_cons_of_pos _ hp] at h
      simp at h
    · rw [List.find?_cons_of_neg _ hp] at h
      simpa [List.find?_cons_of_neg _ hp] using ih h

lemma find?_range_eq_some (n : Nat) (p : Nat → Bool) (i : Nat)
    (hi : i < n) (hp : p i = true) (hbefore : ∀ k, k < i → p k = false) :
    (List.range n).find? p = some i := by
  induction n with
  | zero => omega
  | succ m ih =>
    rw [List.range_succ]
    rcases Nat.lt_or_ge i m with him | him
    · exact find?_append_of_some p _ _ i (ih him)
    · have him' : i = m := by omega
      have hnone : (List.range m).find? p = none := by
        rw [List.find?_eq_none]
        intro k hk
        simp only [List.mem_range] at hk
        simp [hbefore k (by omega)]
      rw [find?_append_of_none p _ _ hnone, ← him']
      simp [List.find?_cons_of_pos _ hp]

lemma idxOf_addrOf (bs : List Block) (hpos : ∀ b ∈ bs, 0 < b.size)
    (i : Nat) (hi : i < bs.length) : idxOf bs (addrOf bs i) = some i := by
  unfold idxOf
  apply find?_range_eq_some _ _ _ hi (by simp)
  intro k hk
  have := addrOf_strict bs hpos k i hk (by omega)
  simp
  omega

lemma idxOf_some (bs : List Block) (a i : Nat) (h : idxOf bs a = some i) :
    i < bs.length ∧ addrOf bs i = a := by
  unfold idxOf at h
  have hmem := List.mem_of_find?_eq_some h
  have hp := List.find?_some h
  simp only [List.mem_range] at hmem
  simp only [decide_eq_true_eq] at hp
  exact ⟨hmem, hp⟩

lemma coalesce_spec_nn {ι : Type} (ins rem : ι → Nat → Nat → ι) (s : HState ι)
    (i : Nat) (hi : i < s.blocks.length) (hpos : ∀ b ∈ s.blocks, 0 < b.size)
    (hP : ¬(0 < i ∧ (s.blocks.getD (i - 1) dummyBlock).alloc = false))
    (hN : ¬(i + 1 < s.blocks.length ∧
        (s.blocks.getD (i + 1) dummyBlock).alloc = false)) :
    coalesce ins rem s (addrOf s.blocks i) =
      (⟨s.blocks,
        ins s.index (addrOf s.blocks i) (s.blocks.getD i dummyBlock).size,
        s.mem⟩, addrOf s.blocks i) := by
  simp only [coalesce, idxOf_addrOf s.blocks hpos i hi]
  rw [if_neg hP]
  simp only
  rw [if_neg hN]

lemma coalesce_spec_prev {ι : Type} (ins rem : ι → Nat → Nat → ι) (s : HState ι)
    (i : Nat) (hi : i < s.blocks.length) (hpos : ∀ b ∈ s.blocks, 0 < b.size)
    (hP : 0 < i ∧ (s.blocks.getD (i - 1) dummyBlock).alloc = false)
    (hN : ¬(i + 1 < s.blocks.length ∧
        (s.blocks.getD (i + 1) dummyBlock).alloc = false)) :
    coalesce ins rem s (addrOf s.blocks i) =
      (⟨s.blocks.take (i - 1) ++
          ⟨(s.blocks.getD (i - 1) dummyBlock).size + (s.blocks.getD i dummyBlock).size,
            false,
            (s.blocks.getD (i - 1) dummyBlock).data ++
              wbytes (s.blocks.getD (i - 1) dummyBlock).size ++
              wbytes (s.blocks.getD i dummyBlock).size ++
              (s.blocks.getD i dummyBlock).data⟩ :: s.blocks.drop (i + 1),
        ins (rem s.index (addrOf s.blocks (i - 1))
              (s.blocks.getD (i - 1) dummyBlock).size)
          (addrOf s.blocks (i - 1))
          ((s.blocks.getD (i - 1) dummyBlock).size +
            (s.blocks.getD i dummyBlock).size),
        s.mem⟩, addrOf s.blocks (i - 1)) := by
  set bs := s.blocks with hbs
  set m : Block :=
    ⟨(bs.getD (i - 1) dummyBlock).size + (bs.getD i dummyBlock).size, false,
      (bs.getD (i - 1) dummyBlock).data ++ wbytes (bs.getD (i - 1) dummyBlock).size ++
        wbytes (bs.getD i dummyBlock).size ++ (bs.getD i dummyBlock).data⟩ with hm
  have hAlen : (bs.take (i - 1)).length = i - 1 := by
    rw [List.length_take]; omega
  have hlen1 : (bs.take (i - 1) ++ m :: bs.drop (i + 1)).length = bs.length - 1 := by
    simp [hAlen]
    omega
  have hgetD : (bs.take (i - 1) ++ m :: bs.drop (i + 1)).getD (i - 1) dummyBlock = m := by
    rw [getD_append_right _ _ _ (by omega)]
    simp [hAlen]
  have hgetDn : ∀ j, (bs.take (i - 1) ++ m :: bs.drop (i + 1)).getD (i - 1 + (j + 1))
      dummyBlock = bs.getD (i + j + 1) dummyBlock := by
    intro j
    rw [getD_append_right _ _ _ (by omega)]
    have : i - 1 + (j + 1) - (bs.take (i - 1)).length = j + 1 := by omega
    rw [this, getD_cons_succ, getD_drop]
    congr 1
    omega
  have haddr : addrOf (bs.take (i - 1) ++ m :: bs.drop (i + 1)) (i - 1) =
      addrOf bs (i - 1) := by
    rw [addrOf_append_left _ _ _ (by omega), addrOf_take _ _ _ (le_refl _)]
  simp only [coalesce, idxOf_addrOf bs hpos i hi]
  rw [if_pos hP]
  simp only
  rw [if_neg (by
    intro hc
    apply hN
    rw [hlen1] at hc
    have h2 := hc.2
    have := hgetDn 0
    rw [show i - 1 + 1 = i - 1 + (0 + 1) by omega] at h2
    rw [this] at h2
    exact ⟨by omega, by simpa using h2⟩)]
  rw [haddr, hgetD]

lemma coalesce_spec_next {ι : Type} (ins rem : ι → Nat → Nat → ι) (s : HState ι)
    (i : Nat) (hi : i < s.blocks.length) (hpos : ∀ b ∈ s.blocks, 0 < b.size)
    (hP : ¬(0 < i ∧ (s.blocks.getD (i - 1) dummyBlock).alloc = false))
    (hN : i + 1 < s.blocks.length ∧
        (s.blocks.getD (i + 1) dummyBlock).alloc = false) :
    coalesce ins rem s (addrOf s.blocks i) =
      (⟨s.blocks.take i ++
          ⟨(s.blocks.getD i dummyBlock).size + (s.blocks.getD (i + 1) dummyBlock).size,
            false,
            (s.blocks.getD i dummyBlock).data ++
              wbytes (s.blocks.getD i dummyBlock).size ++
              wbytes (s.blocks.getD (i + 1) dummyBlock).size ++
              (s.blocks.getD (i + 1) dummyBlock).data⟩ :: s.blocks.drop (i + 2),
        ins (rem s.index (addrOf s.blocks (i + 1))
              (s.blocks.getD (i + 1) dummyBlock).size)
          (addrOf s.blocks i)
          ((s.blocks.getD i dummyBlock).size +
            (s.blocks.getD (i + 1) dummyBlock).size),
        s.mem⟩, addrOf s.blocks i) := by
  set bs := s.blocks with hbs
  set m : Block :=
    ⟨(bs.getD i dummyBlock).size + (bs.getD (i + 1) dummyBlock).size, false,
      (bs.getD i dummyBlock).data ++ wbytes (bs.getD i dummyBlock).size ++
        wbytes (bs.getD (i + 1) dummyBlock).size ++
        (bs.getD (i + 1) dummyBlock).data⟩ with hm
  have hAlen : (bs.take i).length = i := by
    rw [List.length_take]; omega
  have hgetD : (bs.take i ++ m :: bs.drop (i + 2)).getD i dummyBlock = m := by
    rw [getD_append_right _ _ _ (by omega)]
    simp [hAlen]
  have haddr : addrOf (bs.take i ++ m :: bs.drop (i + 2)) i = addrOf bs i := by
    rw [addrOf_append_left _ _ _ (by omega), addrOf_take _ _ _ (le_refl _)]
  simp only [coalesce, idxOf_addrOf bs hpos i hi]
  rw [if_neg hP]
  simp only
  rw [if_pos hN, haddr, hgetD]

lemma coalesce_spec_both {ι : Type} (ins rem : ι → Nat → Nat → ι) (s : HState ι)
    (i : Nat) (hi : i < s.blocks.length) (hpos : ∀ b ∈ s.blocks, 0 < b.size)
    (hP : 0 < i ∧ (s.blocks.getD (i - 1) dummyBlock).alloc = false)
    (hN : i + 1 < s.blocks.length ∧
        (s.blocks.getD (i + 1) dummyBlock).alloc = false) :
    coalesce ins rem s (addrOf s.blocks i) =
      (⟨s.blocks.take (i - 1) ++
          ⟨(s.blocks.getD (i - 1) dummyBlock).size + (s.blocks.getD i dummyBlock).size +
              (s.blocks.getD (i + 1) dummyBlock).size,
            false,
            ((s.blocks.getD (i - 1) dummyBlock).data ++
                wbytes (s.blocks.getD (i - 1) dummyBlock).size ++
                wbytes (s.blocks.getD i dummyBlock).size ++
                (s.blocks.getD i dummyBlock).data) ++
              wbytes ((s.blocks.getD (i - 1) dummyBlock).size +
                (s.blocks.getD i dummyBlock).size) ++
              wbytes (s.blocks.getD (i + 1) dummyBlock).size ++
              (s.blocks.getD (i + 1) dummyBlock).data⟩ :: s.blocks.drop (i + 2),
        ins (rem (rem s.index (addrOf s.blocks (i - 1))
                (s.blocks.getD (i - 1) dummyBlock).size)
              (addrOf s.blocks (i + 1))
              (s.blocks.getD (i + 1) dummyBlock).size)
          (addrOf s.blocks (i - 1))
          ((s.blocks.getD (i - 1) dummyBlock).size + (s.blocks.getD i dummyBlock).size +
            (s.blocks.getD (i + 1) dummyBlock).size),
        s.mem⟩, addrOf s.blocks (i - 1)) := by
  set bs := s.blocks with hbs
  set m1 : Block :=
    ⟨(bs.getD (i - 1) dummyBlock).size + (bs.getD i dummyBlock).size, false,
      (bs.getD (i - 1) dummyBlock).data ++ wbytes (bs.getD (i - 1) dummyBlock).size ++
        wbytes (bs.getD i dummyBlock).size ++ (bs.getD i dummyBlock).data⟩ with hm1
  have hAlen : (bs.take (i - 1)).length = i - 1 := by
    rw [List.length_take]; omega
  have hlen1 : (bs.take (i - 1) ++ m1 :: bs.drop (i + 1)).length = bs.length - 1 := by
    simp [hAlen]
    omega
  have hgetD1 : (bs.take (i - 1) ++ m1 :: bs.drop (i + 1)).getD (i - 1) dummyBlock
      = m1 := by
    rw [getD_append_right _ _ _ (by omega)]
    simp [hAlen]
  have hgetDn : (bs.take (i - 1) ++ m1 :: bs.drop (i + 1)).getD (i - 1 + 1) dummyBlock
      = bs.getD (i + 1) dummyBlock := by
    rw [getD_append_right _ _ _ (by omega)]
    have : i - 1 + 1 - (bs.take (i - 1)).length = 1 := by omega
    rw [this, getD_cons_succ, getD_drop]
  have htake1 : (bs.take (i - 1) ++ m1 :: bs.drop (i + 1)).take (i - 1) =
      bs.take (i - 1) := by
    rw [List.take_append_of_le_length (by omega),
      List.take_of_length_le (le_of_eq hAlen)]
  have hdrop1 : (bs.take (i - 1) ++ m1 :: bs.drop (i + 1)).drop (i - 1 + 2) =
      bs.drop (i + 2) := by
    have h1 : bs.take (i - 1) ++ m1 :: bs.drop (i + 1) =
        (bs.take (i - 1) ++ [m1]) ++ bs.drop (i + 1) := by simp
    rw [h1]
    have h2 : (bs.take (i - 1) ++ [m1]).length = i := by simp [hAlen]; omega
    rw [show i - 1 + 2 = (bs.take (i - 1) ++ [m1]).length + 1 by omega]
    rw [List.drop_append, List.drop_drop]
  have haddr1 : addrOf (bs.take (i - 1) ++ m1 :: bs.drop (i + 1)) (i - 1 + 1) =
      addrOf bs (i + 1) := by
    have e1 : addrOf bs (i + 1) = addrOf bs i + (bs.getD i dummyBlock).size :=
      addrOf_succ bs i
    have e2 : addrOf bs i = addrOf bs (i - 1) + (bs.getD (i - 1) dummyBlock).size := by
      have := addrOf_succ bs (i - 1)
      rw [show i - 1 + 1 = i by omega] at this
      exact this
    have e3 := addrOf_succ (bs.take (i - 1) ++ m1 :: bs.drop (i + 1)) (i - 1)
    rw [e3, hgetD1]
    have e4 : addrOf (bs.take (i - 1) ++ m1 :: bs.drop (i + 1)) (i - 1) =
        addrOf bs (i - 1) := by
      rw [addrOf_append_left _ _ _ (by omega), addrOf_take _ _ _ (le_refl _)]
    rw [e4]
    simp only [hm1]
    omega
  have haddr0 : addrOf (bs.take (i - 1) ++ m1 :: bs.drop (i + 1)) (i - 1) =
      addrOf bs (i - 1) := by
    rw [addrOf_append_left _ _ _ (by omega), addrOf_take _ _ _ (le_refl _)]
  simp only [coalesce, idxOf_addrOf bs hpos i hi]
  rw [if_pos hP]
  simp only
  rw [if_pos (by
    refine ⟨by rw [hlen1]; omega, ?_⟩
    rw [hgetDn]
    exact hN.2)]
  rw [hgetDn, hgetD1, htake1, hdrop1, haddr1]
  have hgetD2 : (bs.take (i - 1) ++
      (⟨m1.size + (bs.getD (i + 1) dummyBlock).size, false,
        m1.data ++ wbytes m1.size ++ wbytes (bs.getD (i + 1) dummyBlock).size ++
          (bs.getD (i + 1) dummyBlock).data⟩ : Block) :: bs.drop (i + 2)).getD
      (i - 1) dummyBlock =
      ⟨m1.size + (bs.getD (i + 1) dummyBlock).size, false,
        m1.data ++ wbytes m1.size ++ wbytes (bs.getD (i + 1) dummyBlock).size ++
          (bs.getD (i + 1) dummyBlock).data⟩ := by
    rw [getD_append_right _ _ _ (by omega)]
    simp [hAlen]
  have haddr2 : addrOf (bs.take (i - 1) ++
      (⟨m1.size + (bs.getD (i + 1) dummyBlock).size, false,
        m1.data ++ wbytes m1.size ++ wbytes (bs.getD (i + 1) dummyBlock).size ++
          (bs.getD (i + 1) dummyBlock).data⟩ : Block) :: bs.drop (i + 2)) (i - 1) =
      addrOf bs (i - 1) := by
    rw [addrOf_append_left _ _ _ (by omega), addrOf_take _ _ _ (le_refl _)]
  rw [hgetD2, haddr2]

/-- All block sizes are positive (follows from `wfBlocks`); enough for the
address arithmetic to be injective. -/
def sizesPos (bs : List Block) : Prop := ∀ b ∈ bs, 0 < b.size

lemma wfBlocks_sizesPos (bs : List Block) (h : wfBlocks bs) : sizesPos bs :=
  fun b hb => by have := h b hb; omega

lemma map_size_set_of_eq (bs : List Block) (i : Nat) (x : Block)
    (hsz : x.size = (bs.getD i dummyBlock).size) :
    (bs.set i x).map Block.size = bs.map Block.size := by
  apply List.ext_getElem?
  intro k
  rw [List.getElem?_map, List.getElem?_map]
  rcases eq_or_ne i k with hik | hik
  · subst hik
    rcases Nat.lt_or_ge i bs.length with h | h
    · rw [List.getElem?_set_self (by omega), List.getElem?_eq_getElem h]
      have hxi : x.size = bs[i].size := by
        rw [hsz, List.getD_eq_getElem?_getD, List.getElem?_eq_getElem h]
        rfl
      simp [hxi]
    · rw [List.getElem?_eq_none (by simpa using h), List.getElem?_eq_none (by simpa using h)]
  · rw [List.getElem?_set_ne hik]

lemma addrOf_eq_of_map_size (bs bs' : List Block)
    (h : bs.map Block.size = bs'.map Block.size) (j : Nat) :
    addrOf bs j = addrOf bs' j := by
  unfold addrOf
  rw [List.map_take, List.map_take, h]

lemma place_spec_split {ι : Type} (ins rem : ι → Nat → Nat → ι) (s : HState ι)
    (i asize : Nat) (hi : i < s.blocks.length) (hpos : sizesPos s.blocks)
    (h : 24 ≤ (s.blocks.getD i dummyBlock).size - asize) :
    place ins rem s (addrOf s.blocks i) asize =
      ⟨s.blocks.take i ++
          ⟨asize, true, (s.blocks.getD i dummyBlock).data.take (asize - 8)⟩ ::
          ⟨(s.blocks.getD i dummyBlock).size - asize, false,
            (s.blocks.getD i dummyBlock).data.drop asize⟩ :: s.blocks.drop (i + 1),
        ins (rem s.index (addrOf s.blocks i) (s.blocks.getD i dummyBlock).size)
          (addrOf s.blocks i + asize)
          ((s.blocks.getD i dummyBlock).size - asize),
        s.mem⟩ := by
  simp only [place, idxOf_addrOf s.blocks hpos i hi]
  rw [if_pos h]

lemma place_spec_whole {ι : Type} (ins rem : ι → Nat → Nat → ι) (s : HState ι)
    (i asize : Nat) (hi : i < s.blocks.length) (hpos : sizesPos s.blocks)
    (h : ¬24 ≤ (s.blocks.getD i dummyBlock).size - asize) :
    place ins rem s (addrOf s.blocks i) asize =
      ⟨s.blocks.set i
          ⟨(s.blocks.getD i dummyBlock).size, true, (s.blocks.getD i dummyBlock).data⟩,
        rem s.index (addrOf s.blocks i) (s.blocks.getD i dummyBlock).size,
        s.mem⟩ := by
  simp only [place, idxOf_addrOf s.blocks hpos i hi]
  rw [if_neg h]

lemma mm_free_spec {ι : Type} (ins rem : ι → Nat → Nat → ι) (s : HState ι)
    (i : Nat) (hi : i < s.blocks.length) (hpos : sizesPos s.blocks) :
    mm_free ins rem s (some (addrOf s.blocks i)) =
      (coalesce ins rem
        ⟨s.blocks.set i
            ⟨(s.blocks.getD i dummyBlock).size, false, (s.blocks.getD i dummyBlock).data⟩,
          s.index, s.mem⟩ (addrOf s.blocks i)).1 := by
  simp only [mm_free, idxOf_addrOf s.blocks hpos i hi]

lemma extend_heap_spec {ι : Type} (ins rem : ι → Nat → Nat → ι) (s : HState ι)
    (words : Nat) (nb : Block)
    (hnb : nb = ⟨extendBytes words, false, List.replicate (extendBytes words - 8) 0⟩)
    (h : extendBytes words ≤ s.mem) :
    extend_heap ins rem s words =
      ((coalesce ins rem ⟨s.blocks ++ [nb], s.index, s.mem - extendBytes words⟩
          (addrOf (s.blocks ++ [nb]) ((s.blocks ++ [nb]).length - 1))).1,
       some (coalesce ins rem ⟨s.blocks ++ [nb], s.index, s.mem - extendBytes words⟩
          (addrOf (s.blocks ++ [nb]) ((s.blocks ++ [nb]).length - 1))).2) := by
  subst hnb
  simp only [extend_heap]
  rw [if_pos h]

lemma extend_heap_spec_fst {ι : Type} (ins rem : ι → Nat → Nat → ι) (s : HState ι)
    (words : Nat) (nb : Block)
    (hnb : nb = ⟨extendBytes words, false, List.replicate (extendBytes words - 8) 0⟩)
    (h : extendBytes words ≤ s.mem) :
    (extend_heap ins rem s words).1 =
      (coalesce ins rem ⟨s.blocks ++ [nb], s.index, s.mem - extendBytes words⟩
          (addrOf (s.blocks ++ [nb]) ((s.blocks ++ [nb]).length - 1))).1 := by
  rw [extend_heap_spec ins rem s words nb hnb h]

lemma getD_set_self (bs : List Block) (i : Nat) (x : Block) (h : i < bs.length) :
    (bs.set i x).getD i dummyBlock = x := by
  rw [List.getD_eq_getElem?_getD, List.getElem?_set_self (by omega)]
  rfl

lemma getD_set_ne (bs : List Block) (i j : Nat) (x : Block) (h : i ≠ j) :
    (bs.set i x).getD j dummyBlock = bs.getD j dummyBlock := by
  rw [List.getD_eq_getElem?_getD, List.getElem?_set_ne h, ← List.getD_eq_getElem?_getD]

lemma replace_length (bs : List Block) (i₀ k : Nat) (X : List Block)
    (h : i₀ + k ≤ bs.length) :
    (bs.take i₀ ++ (X ++ bs.drop (i₀ + k))).length =
      i₀ + X.length + (bs.length - (i₀ + k)) := by
  simp [List.length_take]
  omega

lemma replace_getD_left (bs : List Block) (i₀ k : Nat) (X : List Block)
    (h : i₀ + k ≤ bs.length) (j : Nat) (hj : j < i₀) :
    (bs.take i₀ ++ (X ++ bs.drop (i₀ + k))).getD j dummyBlock =
      bs.getD j dummyBlock := by
  rw [getD_append_left _ _ _ (by rw [List.length_take]; omega), getD_take _ _ _ hj]

lemma replace_getD_mid (bs : List Block) (i₀ k : Nat) (X : List Block)
    (h : i₀ + k ≤ bs.length) (j : Nat) (hj : j < X.length) :
    (bs.take i₀ ++ (X ++ bs.drop (i₀ + k))).getD (i₀ + j) dummyBlock =
      X.getD j dummyBlock := by
  rw [getD_append_right _ _ _ (by rw [List.length_take]; omega)]
  rw [List.length_take, Nat.min_eq_left (by omega)]
  rw [getD_append_left _ _ _ (by omega)]
  congr 1
  omega

lemma replace_getD_right (bs : List Block) (i₀ k : Nat) (X : List Block)
    (h : i₀ + k ≤ bs.length) (j : Nat) :
    (bs.take i₀ ++ (X ++ bs.drop (i₀ + k))).getD (i₀ + X.length + j) dummyBlock =
      bs.getD (i₀ + k + j) dummyBlock := by
  rw [getD_append_right _ _ _ (by rw [List.length_take]; omega)]
  rw [List.length_take, Nat.min_eq_left (by omega)]
  rw [getD_append_right _ _ _ (by omega)]
  rw [getD_drop]
  congr 1
  omega

lemma replace_addrOf_left (bs : List Block) (i₀ k : Nat) (X : List Block)
    (h : i₀ + k ≤ bs.length) (j : Nat) (hj : j ≤ i₀) :
    addrOf (bs.take i₀ ++ (X ++ bs.drop (i₀ + k))) j = addrOf bs j := by
  rw [addrOf_append_left _ _ _ (by rw [List.length_take]; omega),
    addrOf_take _ _ _ hj]

lemma sum_take_drop (bs : List Block) (i₀ k : Nat) :
    (((bs.drop i₀).take k).map Block.size).sum =
      (((bs.take (i₀ + k)).map Block.size).sum -
        ((bs.take i₀).map Block.size).sum : Nat) ∧
      ((bs.take i₀).map Block.size).sum ≤ ((bs.take (i₀ + k)).map Block.size).sum := by
  have h := List.take_add bs i₀ k
  constructor
  · rw [h, List.map_append, List.sum_append]
    omega
  · rw [h, List.map_append, List.sum_append]
    omega

lemma replace_addrOf_right (bs : List Block) (i₀ k : Nat) (X : List Block)
    (h : i₀ + k ≤ bs.length)
    (hsum : (X.map Block.size).sum = (((bs.drop i₀).take k).map Block.size).sum)
    (j : Nat) :
    addrOf (bs.take i₀ ++ (X ++ bs.drop (i₀ + k))) (i₀ + X.length + j) =
      addrOf bs (i₀ + k + j) := by
  have hAlen : (bs.take i₀).length = i₀ := by rw [List.length_take]; omega
  unfold addrOf
  have e1 : (bs.take i₀ ++ (X ++ bs.drop (i₀ + k))).take (i₀ + X.length + j) =
      bs.take i₀ ++ (X ++ (bs.drop (i₀ + k)).take j) := by
    rw [List.take_append_eq_append_take,
      List.take_of_length_le (by rw [hAlen]; omega), hAlen]
    congr 1
    rw [List.take_append_eq_append_take,
      List.take_of_length_le (show X.length ≤ i₀ + X.length + j - i₀ by omega)]
    congr 1
    congr 1
    omega
  have e2 : bs.take (i₀ + k + j) = bs.take (i₀ + k) ++ (bs.drop (i₀ + k)).take j :=
    List.take_add bs (i₀ + k) j
  have e3 := (sum_take_drop bs i₀ k).1
  have e4 := (sum_take_drop bs i₀ k).2
  rw [e1, e2]
  simp only [List.map_append, List.sum_append]
  omega

lemma noAdjFree_singleton (m : Block) : noAdjFree [m] := by
  intro j h1 h2
  simp at h2

lemma noAdjFree_replace (bs : List Block) (i₀ k : Nat) (X : List Block)
    (hk : i₀ + k ≤ bs.length) (hX : 0 < X.length)
    (hout : ∀ j, j + 1 < bs.length → (j + 1 < i₀ ∨ i₀ + k ≤ j) →
      (bs.getD j dummyBlock).alloc = true ∨ (bs.getD (j + 1) dummyBlock).alloc = true)
    (hXin : noAdjFree X)
    (hleft : 0 < i₀ →
      (bs.getD (i₀ - 1) dummyBlock).alloc = true ∨ (X.getD 0 dummyBlock).alloc = true)
    (hright : i₀ + k < bs.length →
      (X.getD (X.length - 1) dummyBlock).alloc = true ∨
        (bs.getD (i₀ + k) dummyBlock).alloc = true) :
    noAdjFree (bs.take i₀ ++ (X ++ bs.drop (i₀ + k))) := by
  intro j hj1 hj2
  rw [replace_length bs i₀ k X hk] at hj1 hj2
  have hreg : j + 1 < i₀ ∨ (0 < i₀ ∧ j + 1 = i₀) ∨
      (i₀ ≤ j ∧ j + 1 < i₀ + X.length) ∨ (i₀ ≤ j ∧ j + 1 = i₀ + X.length) ∨
      i₀ + X.length ≤ j := by omega
  rcases hreg with h | ⟨hi0, he⟩ | ⟨h1, h2⟩ | ⟨h1, h2⟩ | h
  · rw [replace_getD_left bs i₀ k X hk j (by omega),
      replace_getD_left bs i₀ k X hk (j + 1) (by omega)]
    exact hout j (by omega) (Or.inl h)
  · rw [replace_getD_left bs i₀ k X hk j (by omega)]
    rw [show j + 1 = i₀ + 0 by omega, replace_getD_mid bs i₀ k X hk 0 hX]
    rw [show j = i₀ - 1 by omega]
    exact hleft hi0
  · rw [show j = i₀ + (j - i₀) by omega, replace_getD_mid bs i₀ k X hk _ (by omega)]
    rw [show i₀ + (j - i₀) + 1 = i₀ + (j - i₀ + 1) by omega,
      replace_getD_mid bs i₀ k X hk _ (by omega)]
    exact hXin (j - i₀) (by omega) (by omega)
  · rw [show j = i₀ + (X.length - 1) by omega,
      replace_getD_mid bs i₀ k X hk _ (by omega)]
    rw [show i₀ + (X.length - 1) + 1 = i₀ + X.length + 0 by omega,
      replace_getD_right bs i₀ k X hk 0]
    exact hright (by omega)
  · rw [show j = i₀ + X.length + (j - i₀ - X.length) by omega,
      replace_getD_right bs i₀ k X hk _]
    rw [show i₀ + X.length + (j - i₀ - X.length) + 1 =
      i₀ + X.length + (j - i₀ - X.length + 1) by omega,
      replace_getD_right bs i₀ k X hk _]
    rw [show i₀ + k + (j - i₀ - X.length + 1) = i₀ + k + (j - i₀ - X.length) + 1 by omega]
    exact hout (i₀ + k + (j - i₀ - X.length)) (by omega) (Or.inr (by omega))

lemma coalesce_noAdjFree {ι : Type} (ins rem : ι → Nat → Nat → ι) (s : HState ι)
    (i : Nat) (hi : i < s.blocks.length) (hpos : sizesPos s.blocks)
    (hexc : ∀ j, j + 1 < s.blocks.length →
      (s.blocks.getD j dummyBlock).alloc = false →
      (s.blocks.getD (j + 1) dummyBlock).alloc = false → j = i ∨ j + 1 = i) :
    noAdjFree (coalesce ins rem s (addrOf s.blocks i)).1.blocks := by
  by_cases hP : 0 < i ∧ (s.blocks.getD (i - 1) dummyBlock).alloc = false
  · by_cases hN : i + 1 < s.blocks.length ∧
        (s.blocks.getD (i + 1) dummyBlock).alloc = false
    · rw [coalesce_spec_both ins rem s i hi hpos hP hN]
      show noAdjFree _
      rw [show i + 2 = i - 1 + 3 by omega]
      refine noAdjFree_replace s.blocks (i - 1) 3 [_] (by omega) (by simp)
        ?_ (noAdjFree_singleton _) ?_ ?_
      · intro j hj hside
        by_contra hcon
        push_neg at hcon
        simp only [Bool.not_eq_true] at hcon
        rcases hexc j hj hcon.1 hcon.2 with h | h <;> omega
      · intro h0
        left
        by_contra hcon
        simp only [Bool.not_eq_true] at hcon
        have := hexc (i - 1 - 1) (by omega)
        rw [show i - 1 - 1 + 1 = i - 1 by omega] at this
        rcases this hcon hP.2 with h | h <;> omega
      · intro hlt
        right
        by_contra hcon
        simp only [Bool.not_eq_true] at hcon
        have := hexc (i + 1) (by omega)
        rw [show i + 1 + 1 = i - 1 + 3 by omega] at this
        rcases this hN.2 hcon with h | h <;> omega
    · rw [coalesce_spec_prev ins rem s i hi hpos hP hN]
      show noAdjFree _
      rw [show i + 1 = i - 1 + 2 by omega]
      refine noAdjFree_replace s.blocks (i - 1) 2 [_] (by omega) (by simp)
        ?_ (noAdjFree_singleton _) ?_ ?_
      · intro j hj hside
        by_contra hcon
        push_neg at hcon
        simp only [Bool.not_eq_true] at hcon
        rcases hexc j hj hcon.1 hcon.2 with h | h <;> omega
      · intro h0
        left
        by_contra hcon
        simp only [Bool.not_eq_true] at hcon
        have := hexc (i - 1 - 1) (by omega)
        rw [show i - 1 - 1 + 1 = i - 1 by omega] at this
        rcases this hcon hP.2 with h | h <;> omega
      · intro hlt
        right
        by_contra hcon
        simp only [Bool.not_eq_true] at hcon
        rw [show i - 1 + 2 = i + 1 by omega] at hcon hlt
        exact hN ⟨hlt, hcon⟩
  · by_cases hN : i + 1 < s.blocks.length ∧
        (s.blocks.getD (i + 1) dummyBlock).alloc = false
    · rw [coalesce_spec_next ins rem s i hi hpos hP hN]
      show noAdjFree _
      refine noAdjFree_replace s.blocks i 2 [_] (by omega) (by simp)
        ?_ (noAdjFree_singleton _) ?_ ?_
      · intro j hj hside
        by_contra hcon
        push_neg at hcon
        simp only [Bool.not_eq_true] at hcon
        rcases hexc j hj hcon.1 hcon.2 with h | h <;> omega
      · intro h0
        left
        by_contra hcon
        simp only [Bool.not_eq_true] at hcon
        exact hP ⟨h0, hcon⟩
      · intro hlt
        right
        by_contra hcon
        simp only [Bool.not_eq_true] at hcon
        rcases hexc (i + 1) (by omega) hN.2 hcon with h | h <;> omega
    · rw [coalesce_spec_nn ins rem s i hi hpos hP hN]
      show noAdjFree s.blocks
      intro j hj1 hj2
      by_contra hcon
      push_neg at hcon
      simp only [Bool.not_eq_true] at hcon
      rcases hexc j hj2 hcon.1 hcon.2 with h | h
      · subst h
        exact hN ⟨by omega, hcon.2⟩
      · have h1 := hcon.1
        rw [show j = i - 1 by omega] at h1
        exact hP ⟨by omega, h1⟩

lemma sizesPos_set (bs : List Block) (i : Nat) (x : Block)
    (hpos : sizesPos bs) (hx : 0 < x.size) : sizesPos (bs.set i x) := by
  intro b hb
  rcases List.mem_or_eq_of_mem_set hb with h | h
  · exact hpos b h
  · subst h; exact hx

lemma mm_free_noAdjFree {ι : Type} (ins rem : ι → Nat → Nat → ι) (s : HState ι)
    (bp : Option Nat) (hpos : sizesPos s.blocks) (hnaf : noAdjFree s.blocks) :
    noAdjFree (mm_free ins rem s bp).blocks := by
  match bp with
  | none => exact hnaf
  | some a =>
    cases hidx : idxOf s.blocks a with
    | none =>
      simp only [mm_free, hidx]
      exact hnaf
    | some i =>
      obtain ⟨hi, ha⟩ := idxOf_some s.blocks a i hidx
      rw [← ha]
      rw [mm_free_spec ins rem s i hi hpos]
      have hszeq : (⟨(s.blocks.getD i dummyBlock).size, false,
          (s.blocks.getD i dummyBlock).data⟩ : Block).size =
          (s.blocks.getD i dummyBlock).size := rfl
      have hmap := map_size_set_of_eq s.blocks i _ hszeq
      have haddr := addrOf_eq_of_map_size _ _ hmap i
      rw [show addrOf s.blocks i = addrOf (s.blocks.set i
        ⟨(s.blocks.getD i dummyBlock).size, false,
          (s.blocks.getD i dummyBlock).data⟩) i from haddr.symm]
      have hilen : i < s.blocks.length := hi
      apply coalesce_noAdjFree ins rem
        ⟨s.blocks.set i ⟨(s.blocks.getD i dummyBlock).size, false,
          (s.blocks.getD i dummyBlock).data⟩, s.index, s.mem⟩ i
        (by simpa using hilen)
      · show sizesPos (s.blocks.set i _)
        apply sizesPos_set _ _ _ hpos
        show 0 < (s.blocks.getD i dummyBlock).size
        apply hpos
        rw [List.getD_eq_getElem?_getD, List.getElem?_eq_getElem hilen]
        exact List.getElem_mem _
      · show ∀ j, _ → _ → _ → _
        intro j hj hf1 hf2
        simp only [List.length_set] at hj
        by_cases hji : j = i
        · exact Or.inl hji
        · by_cases hji1 : j + 1 = i
          · exact Or.inr hji1
          · exfalso
            rw [getD_set_ne _ _ _ _ (fun he => hji he.symm)] at hf1
            rw [getD_set_ne _ _ _ _ (fun he => hji1 he.symm)] at hf2
            rcases hnaf j (by omega) hj with h | h
            · rw [hf1] at h; cases h
            · rw [hf2] at h; cases h

lemma extend_heap_noAdjFree {ι : Type} (ins rem : ι → Nat → Nat → ι) (s : HState ι)
    (words : Nat) (hw : 0 < words) (hpos : sizesPos s.blocks)
    (hnaf : noAdjFree s.blocks) :
    noAdjFree (extend_heap ins rem s words).1.blocks := by
  by_cases h : extendBytes words ≤ s.mem
  · rw [extend_heap_spec_fst ins rem s words _ rfl h]
    have hb : 0 < extendBytes words := by
      unfold extendBytes
      split <;> omega
    have hlen : (s.blocks ++ [(⟨extendBytes words, false,
        List.replicate (extendBytes words - 8) 0⟩ : Block)]).length - 1 =
        s.blocks.length := by simp
    rw [hlen]
    apply coalesce_noAdjFree ins rem _ s.blocks.length (by simp)
    · show sizesPos _
      intro b hb'
      rcases List.mem_append.mp hb' with h' | h'
      · exact hpos b h'
      · simp at h'
        subst h'
        exact hb
    · show ∀ j, _ → _ → _ → _
      intro j hj hf1 hf2
      simp only [List.length_append, List.length_singleton] at hj
      by_cases hji1 : j + 1 = s.blocks.length
      · exact Or.inr hji1
      · exfalso
        have hj1 : j + 1 < s.blocks.length := by omega
        rw [getD_append_left _ _ _ (by omega)] at hf1
        rw [getD_append_left _ _ _ (by omega)] at hf2
        rcases hnaf j (by omega) hj1 with h' | h'
        · rw [hf1] at h'; cases h'
        · rw [hf2] at h'; cases h'
  · rw [extend_heap_fail ins rem s words (by omega)]
    exact hnaf

/-- C4: after every free operation and every heap extension, scanning the
whole heap in address order finds no two consecutive free blocks; and in
any heap with that property — in particular the one `coalesce` returns —
a free block has no free neighbour on either side.  Stated generically
over the free-index policy, so it covers `mm.c`, `part_000` and
`part_001`; the variant instantiations are included.  `sizesPos` (all
block sizes positive, a consequence of the 8-byte-aligned layout) makes
payload addresses injective. -/
theorem C4_no_adjacent_free (s : Exp.State) (t : Seg.State) (bp bq : Option Nat)
    (hs1 : sizesPos s.blocks) (hs2 : noAdjFree s.blocks)
    (ht1 : sizesPos t.blocks) (ht2 : noAdjFree t.blocks) :
    noAdjFree (Exp.mmFree s bp).blocks ∧
    noAdjFree (Seg.mmFree t bq).blocks ∧
    (∀ (words : Nat), 0 < words → noAdjFree (Exp.extendHeap s words).1.blocks) ∧
    (∀ (words : Nat), 0 < words → noAdjFree (Seg.extendHeap t words).1.blocks) ∧
    (∀ (bs : List Block) (j : Nat), noAdjFree bs →
        (bs.getD j dummyBlock).alloc = false →
        (0 < j → (bs.getD (j - 1) dummyBlock).alloc = true) ∧
        (j + 1 < bs.length → (bs.getD (j + 1) dummyBlock).alloc = true)) := by
  refine ⟨mm_free_noAdjFree _ _ s bp hs1 hs2,
    mm_free_noAdjFree _ _ t bq ht1 ht2,
    fun words hw => extend_heap_noAdjFree _ _ s words hw hs1 hs2,
    fun words hw => extend_heap_noAdjFree _ _ t words hw ht1 ht2,
    ?_⟩
  intro bs j hnaf hfree
  have hjlen : j < bs.length := by
    by_contra hc
    push_neg at hc
    rw [List.getD_eq_getElem?_getD, List.getElem?_eq_none (by omega)] at hfree
    simp [dummyBlock] at hfree
  constructor
  · intro h0
    have := hnaf (j - 1) (by omega) (by omega)
    rw [show j - 1 + 1 = j by omega] at this
    rcases this with h | h
    · exact h
    · rw [hfree] at h; cases h
  · intro hj1
    rcases hnaf j (by omega) hj1 with h | h
    · rw [hfree] at h; cases h
    · exact h

/-- Witness for C4: freeing the head block of a heap whose middle block is
free merges them; extending a heap ending in a free block coalesces the
new space into it. -/
theorem C4_witness :
    noAdjFree (Exp.mmFree
      ⟨[⟨24, true, []⟩, ⟨24, false, []⟩, ⟨24, true, []⟩], [40], 100⟩ (some 16)).blocks ∧
    noAdjFree (Exp.extendHeap
      ⟨[⟨24, true, []⟩, ⟨24, false, []⟩, ⟨24, true, []⟩], [40], 100⟩ 8).1.blocks :=
  ⟨(C4_no_adjacent_free
      ⟨[⟨24, true, []⟩, ⟨24, false, []⟩, ⟨24, true, []⟩], [40], 100⟩
      ⟨[], fun _ => [], 0⟩ (some 16) none
      (by unfold sizesPos; decide) (by unfold noAdjFree; decide)
      (by unfold sizesPos; decide) (by unfold noAdjFree; decide)).1,
   (C4_no_adjacent_free
      ⟨[⟨24, true, []⟩, ⟨24, false, []⟩, ⟨24, true, []⟩], [40], 100⟩
      ⟨[], fun _ => [], 0⟩ (some 16) none
      (by unfold sizesPos; decide) (by unfold noAdjFree; decide)
      (by unfold sizesPos; decide) (by unfold noAdjFree; decide)).2.2.1 8 (by decide)⟩

lemma addrOf_inj (bs : List Block) (hpos : sizesPos bs) (j j' : Nat)
    (hj : j < bs.length) (hj' : j' < bs.length)
    (h : addrOf bs j = addrOf bs j') : j = j' := by
  rcases Nat.lt_trichotomy j j' with hlt | heq | hgt
  · have := addrOf_strict bs hpos j j' hlt hj
    omega
  · exact heq
  · have := addrOf_strict bs hpos j' j hgt hj'
    omega

lemma getD_mem (bs : List Block) (j : Nat) (h : j < bs.length) :
    bs.getD j dummyBlock ∈ bs := by
  rw [List.getD_eq_getElem?_getD, List.getElem?_eq_getElem h]
  exact List.getElem_mem _

lemma drop_cons_getD (bs : List Block) (i : Nat) (h : i < bs.length) :
    bs.drop i = bs.getD i dummyBlock :: bs.drop (i + 1) := by
  rw [List.getD_eq_getElem?_getD, List.getElem?_eq_getElem h]
  exact List.drop_eq_getElem_cons h

lemma span_sum_one (bs : List Block) (i : Nat) (h : i < bs.length) :
    (((bs.drop i).take 1).map Block.size).sum = (bs.getD i dummyBlock).size := by
  rw [drop_cons_getD bs i h]
  simp

lemma span_sum_two (bs : List Block) (i : Nat) (h : i + 1 < bs.length) :
    (((bs.drop i).take 2).map Block.size).sum =
      (bs.getD i dummyBlock).size + (bs.getD (i + 1) dummyBlock).size := by
  rw [drop_cons_getD bs i (by omega), drop_cons_getD bs (i + 1) (by omega)]
  simp

lemma span_sum_three (bs : List Block) (i : Nat) (h : i + 2 < bs.length) :
    (((bs.drop i).take 3).map Block.size).sum =
      (bs.getD i dummyBlock).size + (bs.getD (i + 1) dummyBlock).size +
        (bs.getD (i + 2) dummyBlock).size := by
  rw [drop_cons_getD bs i (by omega), drop_cons_getD bs (i + 1) (by omega),
    drop_cons_getD bs (i + 2) (by omega)]
  simp
  omega

lemma getD_append_nb (bs : List Block) (nb : Block) :
    (bs ++ [nb]).getD bs.length dummyBlock = nb := by
  rw [getD_append_right _ _ _ (le_refl _)]
  simp

lemma writeData_length (bs : List Block) (a : Nat) (src : List Nat) :
    (writeData bs a src).length = bs.length := by
  unfold writeData
  rcases idxOf bs a with _ | k <;> simp

lemma writeData_map_size (bs : List Block) (a : Nat) (src : List Nat) :
    (writeData bs a src).map Block.size = bs.map Block.size := by
  unfold writeData
  rcases hidx : idxOf bs a with _ | k
  · rfl
  · apply map_size_set_of_eq
    rfl

lemma writeData_alloc_size (bs : List Block) (a : Nat) (src : List Nat) (j : Nat) :
    ((writeData bs a src).getD j dummyBlock).alloc = (bs.getD j dummyBlock).alloc ∧
    ((writeData bs a src).getD j dummyBlock).size = (bs.getD j dummyBlock).size := by
  unfold writeData
  rcases hidx : idxOf bs a with _ | k
  · exact ⟨rfl, rfl⟩
  · rcases eq_or_ne k j with rfl | hne
    · rw [getD_set_self bs k _ (idxOf_some bs a k hidx).1]
      exact ⟨rfl, rfl⟩
    · rw [getD_set_ne bs k j _ hne]
      exact ⟨rfl, rfl⟩

lemma sizesPos_of_map_size_eq (bs bs' : List Block)
    (hmap : bs'.map Block.size = bs.map Block.size) (hpos : sizesPos bs) :
    sizesPos bs' := by
  intro b hb
  have hmem : b.size ∈ bs.map Block.size := by
    rw [← hmap]
    exact List.mem_map_of_mem Block.size hb
  rw [List.mem_map] at hmem
  obtain ⟨b2, hb2, he⟩ := hmem
  rw [← he]
  exact hpos b2 hb2

lemma consistentW_congr {ι : Type} (memIdx : ι → Nat → Prop)
    (inIdx : ι → Nat → Nat → Prop) (nodupIdx : ι → Prop)
    (bs bs' : List Block) (idx : ι)
    (hlen : bs'.length = bs.length)
    (hmap : bs'.map Block.size = bs.map Block.size)
    (halloc : ∀ j, j < bs.length →
      ((bs'.getD j dummyBlock).alloc = (bs.getD j dummyBlock).alloc ∧
       (bs'.getD j dummyBlock).size = (bs.getD j dummyBlock).size))
    (h : consistentW memIdx inIdx nodupIdx bs idx) :
    consistentW memIdx inIdx nodupIdx bs' idx := by
  obtain ⟨h1, h2, h3⟩ := h
  have haddr : ∀ j, addrOf bs' j = addrOf bs j := addrOf_eq_of_map_size bs' bs hmap
  refine ⟨h1, ?_, ?_⟩
  · intro a ha
    obtain ⟨j, hj, haj, hfj⟩ := h2 a ha
    exact ⟨j, by omega, by rw [haddr j]; exact haj,
      by rw [(halloc j hj).1]; exact hfj⟩
  · intro j hj hfj
    have hj2 : j < bs.length := by omega
    rw [(halloc j hj2).1] at hfj
    rw [haddr j, (halloc j hj2).2]
    exact h3 j hj2 hfj

lemma wf_getD (bs : List Block) (h : wfBlocks bs) (j : Nat) (hj : j < bs.length) :
    wfBlock (bs.getD j dummyBlock) :=
  h _ (getD_mem bs j hj)

lemma wbytes_length (w : Nat) : (wbytes w).length = 4 := rfl

lemma extendBytes_mod8 (w : Nat) : extendBytes w % 8 = 0 := by
  unfold extendBytes
  split_ifs with h <;> omega

lemma extendBytes_ge8 (w : Nat) (h : 0 < w) : 8 ≤ extendBytes w := by
  unfold extendBytes
  split_ifs with h2 <;> omega

lemma asizeOf_mod8 (n : Nat) : asizeOf n % 8 = 0 := by
  simp only [asizeOf]
  have h64 : (2 : Nat) ^ 64 = 18446744073709551616 := by norm_num
  rw [h64]
  split_ifs <;> omega

lemma asizeOf_ge24 (n : Nat) : 24 ≤ asizeOf n := by
  simp only [asizeOf]
  have h64 : (2 : Nat) ^ 64 = 18446744073709551616 := by norm_num
  rw [h64]
  split_ifs <;> omega

lemma asizeOf_ge (n : Nat) (hb : n + 15 < 2 ^ 64) :
    24 ≤ asizeOf n ∧ n + 8 ≤ asizeOf n := by
  simp only [asizeOf]
  have h64 : (2 : Nat) ^ 64 = 18446744073709551616 := by norm_num
  rw [h64] at hb ⊢
  split_ifs <;> omega

lemma addrOf_mod8 (bs : List Block) (h : ∀ b ∈ bs, b.size % 8 = 0) (j : Nat) :
    addrOf bs j % 8 = 0 := by
  unfold addrOf
  have h8 : (8 : Nat) ∣ ((bs.take j).map Block.size).sum := by
    apply List.dvd_sum
    intro x hx
    simp only [List.mem_map] at hx
    obtain ⟨b, hb, rfl⟩ := hx
    exact Nat.dvd_of_mod_eq_zero (h b (List.mem_of_mem_take hb))
  omega

section PolicyGeneric

variable {ι : Type} (ins rem : ι → Nat → Nat → ι)
variable (memIdx : ι → Nat → Prop) (inIdx : ι → Nat → Nat → Prop)
variable (nodupIdx : ι → Prop)
variable (h_in_mem : ∀ idx a sz, inIdx idx a sz → memIdx idx a)
variable (h_mem_ins : ∀ idx a sz x, memIdx (ins idx a sz) x ↔ x = a ∨ memIdx idx x)
variable (h_in_ins_self : ∀ idx a sz, inIdx (ins idx a sz) a sz)
variable (h_in_ins : ∀ idx a sz b szb, inIdx idx b szb → inIdx (ins idx a sz) b szb)
variable (h_nodup_ins : ∀ idx a sz, ¬memIdx idx a → nodupIdx idx →
    nodupIdx (ins idx a sz))
variable (h_mem_rem : ∀ idx a sz x, nodupIdx idx → (memIdx idx a → inIdx idx a sz) →
    (memIdx (rem idx a sz) x ↔ memIdx idx x ∧ x ≠ a))
variable (h_in_rem : ∀ idx a sz b szb, b ≠ a → inIdx idx b szb →
    inIdx (rem idx a sz) b szb)
variable (h_nodup_rem : ∀ idx a sz, nodupIdx idx → nodupIdx (rem idx a sz))

include h_mem_ins h_in_ins_self h_in_ins h_nodup_ins h_mem_rem h_in_rem h_nodup_rem in
lemma coalesce_consistentW (s : HState ι) (i : Nat)
    (hi : i < s.blocks.length) (hpos : sizesPos s.blocks)
    (hfree : (s.blocks.getD i dummyBlock).alloc = false)
    (hnodup : nodupIdx s.index)
    (hbmem : ∀ a, memIdx s.index a → ∃ j, j < s.blocks.length ∧
        addrOf s.blocks j = a ∧ (s.blocks.getD j dummyBlock).alloc = false ∧ j ≠ i)
    (hcin : ∀ j, j < s.blocks.length → (s.blocks.getD j dummyBlock).alloc = false →
        j ≠ i → inIdx s.index (addrOf s.blocks j) (s.blocks.getD j dummyBlock).size)
    (hnotin : ¬memIdx s.index (addrOf s.blocks i)) :
    consistentW memIdx inIdx nodupIdx
      (coalesce ins rem s (addrOf s.blocks i)).1.blocks
      (coalesce ins rem s (addrOf s.blocks i)).1.index := by
  by_cases hP : 0 < i ∧ (s.blocks.getD (i - 1) dummyBlock).alloc = false
  · by_cases hN : i + 1 < s.blocks.length ∧
        (s.blocks.getD (i + 1) dummyBlock).alloc = false
    · rw [coalesce_spec_both ins rem s i hi hpos hP hN]
      rw [show i + 2 = i - 1 + 3 by omega]
      set bs := s.blocks with hbs
      set m : Block :=
        ⟨(bs.getD (i - 1) dummyBlock).size + (bs.getD i dummyBlock).size +
            (bs.getD (i + 1) dummyBlock).size, false,
          ((bs.getD (i - 1) dummyBlock).data ++
              wbytes (bs.getD (i - 1) dummyBlock).size ++
              wbytes (bs.getD i dummyBlock).size ++ (bs.getD i dummyBlock).data) ++
            wbytes ((bs.getD (i - 1) dummyBlock).size + (bs.getD i dummyBlock).size) ++
            wbytes (bs.getD (i + 1) dummyBlock).size ++
            (bs.getD (i + 1) dummyBlock).data⟩ with hm
      have hk3 : i - 1 + 3 ≤ bs.length := by omega
      have hspan : (([m] : List Block).map Block.size).sum =
          (((bs.drop (i - 1)).take 3).map Block.size).sum := by
        rw [span_sum_three bs (i - 1) (by omega), show i - 1 + 1 = i by omega,
          show i - 1 + 2 = i + 1 by omega]
        simp [hm]
      have hlen3 : (bs.take (i - 1) ++ m :: bs.drop (i - 1 + 3)).length =
          i - 1 + 1 + (bs.length - (i - 1 + 3)) :=
        replace_length bs (i - 1) 3 [m] hk3
      have hA0 : ∀ j, j ≤ i - 1 →
          addrOf (bs.take (i - 1) ++ m :: bs.drop (i - 1 + 3)) j = addrOf bs j :=
        fun j hj => replace_addrOf_left bs (i - 1) 3 [m] hk3 j hj
      have hAr : ∀ t,
          addrOf (bs.take (i - 1) ++ m :: bs.drop (i - 1 + 3)) (i - 1 + 1 + t) =
            addrOf bs (i - 1 + 3 + t) := by
        intro t
        have h' : addrOf (bs.take (i - 1) ++ ([m] ++ bs.drop (i - 1 + 3)))
            (i - 1 + [m].length + t) = addrOf bs (i - 1 + 3 + t) :=
          replace_addrOf_right bs (i - 1) 3 [m] hk3 hspan t
        exact h'
      have hG0 : ∀ j, j < i - 1 →
          (bs.take (i - 1) ++ m :: bs.drop (i - 1 + 3)).getD j dummyBlock =
            bs.getD j dummyBlock :=
        fun j hj => replace_getD_left bs (i - 1) 3 [m] hk3 j hj
      have hGm : (bs.take (i - 1) ++ m :: bs.drop (i - 1 + 3)).getD (i - 1)
          dummyBlock = m := by
        have h' := replace_getD_mid bs (i - 1) 3 [m] hk3 0 (by simp)
        exact h'
      have hGr : ∀ t,
          (bs.take (i - 1) ++ m :: bs.drop (i - 1 + 3)).getD (i - 1 + 1 + t)
            dummyBlock = bs.getD (i - 1 + 3 + t) dummyBlock := by
        intro t
        have h' : (bs.take (i - 1) ++ ([m] ++ bs.drop (i - 1 + 3))).getD
            (i - 1 + [m].length + t) dummyBlock =
            bs.getD (i - 1 + 3 + t) dummyBlock :=
          replace_getD_right bs (i - 1) 3 [m] hk3 t
        exact h'
      have hsideP : memIdx s.index (addrOf bs (i - 1)) →
          inIdx s.index (addrOf bs (i - 1)) (bs.getD (i - 1) dummyBlock).size :=
        fun _ => hcin (i - 1) (by omega) hP.2 (by omega)
      have hne_np : addrOf bs (i + 1) ≠ addrOf bs (i - 1) := fun he =>
        absurd (addrOf_inj bs hpos (i + 1) (i - 1) hN.1 (by omega) he) (by omega)
      have hsideN : memIdx (rem s.index (addrOf bs (i - 1))
            (bs.getD (i - 1) dummyBlock).size) (addrOf bs (i + 1)) →
          inIdx (rem s.index (addrOf bs (i - 1)) (bs.getD (i - 1) dummyBlock).size)
            (addrOf bs (i + 1)) (bs.getD (i + 1) dummyBlock).size :=
        fun _ => h_in_rem _ _ _ _ _ hne_np (hcin (i + 1) hN.1 hN.2 (by omega))
      have hnodup1 : nodupIdx (rem s.index (addrOf bs (i - 1))
          (bs.getD (i - 1) dummyBlock).size) := h_nodup_rem _ _ _ hnodup
      have hmem2 : ∀ x, memIdx (rem (rem s.index (addrOf bs (i - 1))
            (bs.getD (i - 1) dummyBlock).size) (addrOf bs (i + 1))
            (bs.getD (i + 1) dummyBlock).size) x ↔
          memIdx s.index x ∧ x ≠ addrOf bs (i - 1) ∧ x ≠ addrOf bs (i + 1) := by
        intro x
        rw [h_mem_rem _ _ _ _ hnodup1 hsideN, h_mem_rem _ _ _ _ hnodup hsideP]
        tauto
      refine ⟨?_, ?_, ?_⟩
      · refine h_nodup_ins _ _ _ ?_ (h_nodup_rem _ _ _ hnodup1)
        intro hc
        rw [hmem2] at hc
        exact hc.2.1 rfl
      · intro a ha
        rcases (h_mem_ins _ _ _ a).mp ha with h | h
        · subst h
          refine ⟨i - 1, by rw [hlen3]; omega, hA0 (i - 1) (le_refl _), ?_⟩
          rw [hGm, hm]
        · rw [hmem2] at h
          obtain ⟨hmem', hnep, hnen⟩ := h
          obtain ⟨j, hj, haj, hf, hnei⟩ := hbmem a hmem'
          have hji1 : j ≠ i - 1 := fun he => hnep (he ▸ haj.symm ▸ rfl)
          have hji2 : j ≠ i + 1 := fun he => hnen (he ▸ haj.symm ▸ rfl)
          rcases Nat.lt_or_ge j (i - 1) with hlt | hge
          · exact ⟨j, by rw [hlen3]; omega, by rw [hA0 j (by omega)]; exact haj,
              by rw [hG0 j hlt]; exact hf⟩
          · have hjgt : i + 2 ≤ j := by omega
            refine ⟨i - 1 + 1 + (j - i - 2), by rw [hlen3]; omega, ?_, ?_⟩
            · rw [hAr (j - i - 2), show i - 1 + 3 + (j - i - 2) = j by omega]
              exact haj
            · rw [hGr (j - i - 2), show i - 1 + 3 + (j - i - 2) = j by omega]
              exact hf
      · intro j' hj' hf'
        rw [hlen3] at hj'
        rcases Nat.lt_trichotomy j' (i - 1) with hlt | heq | hgt
        · rw [hA0 j' (by omega), hG0 j' hlt]
          rw [hG0 j' hlt] at hf'
          have hin := hcin j' (by omega) hf' (by omega)
          have hne1 : addrOf bs j' ≠ addrOf bs (i - 1) := fun he =>
            absurd (addrOf_inj bs hpos j' (i - 1) (by omega) (by omega) he) (by omega)
          have hne2 : addrOf bs j' ≠ addrOf bs (i + 1) := fun he =>
            absurd (addrOf_inj bs hpos j' (i + 1) (by omega) (by omega) he) (by omega)
          exact h_in_ins _ _ _ _ _
            (h_in_rem _ _ _ _ _ hne2 (h_in_rem _ _ _ _ _ hne1 hin))
        · rw [heq, hA0 (i - 1) (le_refl _), hGm]
          exact h_in_ins_self _ _ _
        · have ht : j' = i - 1 + 1 + (j' - i) := by omega
          rw [ht, hAr (j' - i), hGr (j' - i)]
          rw [ht, hGr (j' - i)] at hf'
          have hjj : i - 1 + 3 + (j' - i) < bs.length := by omega
          have hin := hcin (i - 1 + 3 + (j' - i)) hjj hf' (by omega)
          have hne1 : addrOf bs (i - 1 + 3 + (j' - i)) ≠ addrOf bs (i - 1) := fun he =>
            absurd (addrOf_inj bs hpos _ _ hjj (by omega) he) (by omega)
          have hne2 : addrOf bs (i - 1 + 3 + (j' - i)) ≠ addrOf bs (i + 1) := fun he =>
            absurd (addrOf_inj bs hpos _ _ hjj hN.1 he) (by omega)
          exact h_in_ins _ _ _ _ _
            (h_in_rem _ _ _ _ _ hne2 (h_in_rem _ _ _ _ _ hne1 hin))
    · rw [coalesce_spec_prev ins rem s i hi hpos hP hN]
      rw [show i + 1 = i - 1 + 2 by omega]
      set bs := s.blocks with hbs
      set m : Block :=
        ⟨(bs.getD (i - 1) dummyBlock).size + (bs.getD i dummyBlock).size, false,
          (bs.getD (i - 1) dummyBlock).data ++
            wbytes (bs.getD (i - 1) dummyBlock).size ++
            wbytes (bs.getD i dummyBlock).size ++ (bs.getD i dummyBlock).data⟩ with hm
      have hk2 : i - 1 + 2 ≤ bs.length := by omega
      have hspan : (([m] : List Block).map Block.size).sum =
          (((bs.drop (i - 1)).take 2).map Block.size).sum := by
        rw [span_sum_two bs (i - 1) (by omega), show i - 1 + 1 = i by omega]
        simp [hm]
      have hlen2 : (bs.take (i - 1) ++ m :: bs.drop (i - 1 + 2)).length =
          i - 1 + 1 + (bs.length - (i - 1 + 2)) :=
        replace_length bs (i - 1) 2 [m] hk2
      have hA0 : ∀ j, j ≤ i - 1 →
          addrOf (bs.take (i - 1) ++ m :: bs.drop (i - 1 + 2)) j = addrOf bs j :=
        fun j hj => replace_addrOf_left bs (i - 1) 2 [m] hk2 j hj
      have hAr : ∀ t,
          addrOf (bs.take (i - 1) ++ m :: bs.drop (i - 1 + 2)) (i - 1 + 1 + t) =
            addrOf bs (i - 1 + 2 + t) := by
        intro t
        have h' : addrOf (bs.take (i - 1) ++ ([m] ++ bs.drop (i - 1 + 2)))
            (i - 1 + [m].length + t) = addrOf bs (i - 1 + 2 + t) :=
          replace_addrOf_right bs (i - 1) 2 [m] hk2 hspan t
        exact h'
      have hG0 : ∀ j, j < i - 1 →
          (bs.take (i - 1) ++ m :: bs.drop (i - 1 + 2)).getD j dummyBlock =
            bs.getD j dummyBlock :=
        fun j hj => replace_getD_left bs (i - 1) 2 [m] hk2 j hj
      have hGm : (bs.take (i - 1) ++ m :: bs.drop (i - 1 + 2)).getD (i - 1)
          dummyBlock = m := by
        have h' := replace_getD_mid bs (i - 1) 2 [m] hk2 0 (by simp)
        exact h'
      have hGr : ∀ t,
          (bs.take (i - 1) ++ m :: bs.drop (i - 1 + 2)).getD (i - 1 + 1 + t)
            dummyBlock = bs.getD (i - 1 + 2 + t) dummyBlock := by
        intro t
        have h' : (bs.take (i - 1) ++ ([m] ++ bs.drop (i - 1 + 2))).getD
            (i - 1 + [m].length + t) dummyBlock = bs.getD (i - 1 + 2 + t) dummyBlock :=
          replace_getD_right bs (i - 1) 2 [m] hk2 t
        exact h'
      have hside : memIdx s.index (addrOf bs (i - 1)) →
          inIdx s.index (addrOf bs (i - 1)) (bs.getD (i - 1) dummyBlock).size :=
        fun _ => hcin (i - 1) (by omega) hP.2 (by omega)
      refine ⟨?_, ?_, ?_⟩
      · refine h_nodup_ins _ _ _ ?_ (h_nodup_rem _ _ _ hnodup)
        intro hc
        rw [h_mem_rem _ _ _ _ hnodup hside] at hc
        exact hc.2 rfl
      · intro a ha
        rcases (h_mem_ins _ _ _ a).mp ha with h | h
        · subst h
          refine ⟨i - 1, by rw [hlen2]; omega, hA0 (i - 1) (le_refl _), ?_⟩
          rw [hGm, hm]
        · rw [h_mem_rem _ _ _ _ hnodup hside] at h
          obtain ⟨hmem', hne'⟩ := h
          obtain ⟨j, hj, haj, hf, hnei⟩ := hbmem a hmem'
          have hji1 : j ≠ i - 1 := by
            intro he
            subst he
            exact hne' haj.symm
          rcases Nat.lt_or_ge j (i - 1) with hlt | hge
          · exact ⟨j, by rw [hlen2]; omega, by rw [hA0 j (by omega)]; exact haj,
              by rw [hG0 j hlt]; exact hf⟩
          · have hjgt : i + 1 ≤ j := by omega
            refine ⟨i - 1 + 1 + (j - i - 1), by rw [hlen2]; omega, ?_, ?_⟩
            · rw [hAr (j - i - 1), show i - 1 + 2 + (j - i - 1) = j by omega]
              exact haj
            · rw [hGr (j - i - 1), show i - 1 + 2 + (j - i - 1) = j by omega]
              exact hf
      · intro j' hj' hf'
        rw [hlen2] at hj'
        rcases Nat.lt_trichotomy j' (i - 1) with hlt | heq | hgt
        · rw [hA0 j' (by omega), hG0 j' hlt]
          rw [hG0 j' hlt] at hf'
          have hin := hcin j' (by omega) hf' (by omega)
          have hne : addrOf bs j' ≠ addrOf bs (i - 1) := fun he =>
            absurd (addrOf_inj bs hpos j' (i - 1) (by omega) (by omega) he) (by omega)
          exact h_in_ins _ _ _ _ _ (h_in_rem _ _ _ _ _ hne hin)
        · rw [heq, hA0 (i - 1) (le_refl _), hGm]
          exact h_in_ins_self _ _ _
        · have ht : j' = i - 1 + 1 + (j' - i) := by omega
          rw [ht, hAr (j' - i), hGr (j' - i)]
          rw [ht, hGr (j' - i)] at hf'
          have hjj : i - 1 + 2 + (j' - i) < bs.length := by omega
          have hin := hcin (i - 1 + 2 + (j' - i)) hjj hf' (by omega)
          have hne : addrOf bs (i - 1 + 2 + (j' - i)) ≠ addrOf bs (i - 1) := fun he =>
            absurd (addrOf_inj bs hpos _ _ hjj (by omega) he) (by omega)
          exact h_in_ins _ _ _ _ _ (h_in_rem _ _ _ _ _ hne hin)
  · by_cases hN : i + 1 < s.blocks.length ∧
        (s.blocks.getD (i + 1) dummyBlock).alloc = false
    · rw [coalesce_spec_next ins rem s i hi hpos hP hN]
      set bs := s.blocks with hbs
      set m : Block :=
        ⟨(bs.getD i dummyBlock).size + (bs.getD (i + 1) dummyBlock).size, false,
          (bs.getD i dummyBlock).data ++ wbytes (bs.getD i dummyBlock).size ++
            wbytes (bs.getD (i + 1) dummyBlock).size ++
            (bs.getD (i + 1) dummyBlock).data⟩ with hm
      have hk2 : i + 2 ≤ bs.length := by omega
      have hspan : (([m] : List Block).map Block.size).sum =
          (((bs.drop i).take 2).map Block.size).sum := by
        rw [span_sum_two bs i (by omega)]
        simp [hm]
      have hk2' : i + 2 ≤ bs.length := hk2
      have hlen2 : (bs.take i ++ m :: bs.drop (i + 2)).length =
          i + 1 + (bs.length - (i + 2)) := by
        have h' := replace_length bs i 2 [m] (by omega)
        simpa using h'
      have hA0 : ∀ j, j ≤ i →
          addrOf (bs.take i ++ m :: bs.drop (i + 2)) j = addrOf bs j :=
        fun j hj => replace_addrOf_left bs i 2 [m] (by omega) j hj
      have hAr : ∀ t,
          addrOf (bs.take i ++ m :: bs.drop (i + 2)) (i + 1 + t) =
            addrOf bs (i + 2 + t) := by
        intro t
        have h' : addrOf (bs.take i ++ ([m] ++ bs.drop (i + 2)))
            (i + [m].length + t) = addrOf bs (i + 2 + t) :=
          replace_addrOf_right bs i 2 [m] (by omega) hspan t
        exact h'
      have hG0 : ∀ j, j < i →
          (bs.take i ++ m :: bs.drop (i + 2)).getD j dummyBlock =
            bs.getD j dummyBlock :=
        fun j hj => replace_getD_left bs i 2 [m] (by omega) j hj
      have hGm : (bs.take i ++ m :: bs.drop (i + 2)).getD i dummyBlock = m := by
        have h' := replace_getD_mid bs i 2 [m] (by omega) 0 (by simp)
        exact h'
      have hGr : ∀ t,
          (bs.take i ++ m :: bs.drop (i + 2)).getD (i + 1 + t) dummyBlock =
            bs.getD (i + 2 + t) dummyBlock := by
        intro t
        have h' : (bs.take i ++ ([m] ++ bs.drop (i + 2))).getD
            (i + [m].length + t) dummyBlock = bs.getD (i + 2 + t) dummyBlock :=
          replace_getD_right bs i 2 [m] (by omega) t
        exact h'
      have hside : memIdx s.index (addrOf bs (i + 1)) →
          inIdx s.index (addrOf bs (i + 1)) (bs.getD (i + 1) dummyBlock).size :=
        fun _ => hcin (i + 1) hN.1 hN.2 (by omega)
      refine ⟨?_, ?_, ?_⟩
      · refine h_nodup_ins _ _ _ ?_ (h_nodup_rem _ _ _ hnodup)
        intro hc
        rw [h_mem_rem _ _ _ _ hnodup hside] at hc
        exact hnotin hc.1
      · intro a ha
        rcases (h_mem_ins _ _ _ a).mp ha with h | h
        · subst h
          refine ⟨i, by rw [hlen2]; omega, hA0 i (le_refl _), ?_⟩
          rw [hGm, hm]
        · rw [h_mem_rem _ _ _ _ hnodup hside] at h
          obtain ⟨hmem', hne'⟩ := h
          obtain ⟨j, hj, haj, hf, hnei⟩ := hbmem a hmem'
          have hji1 : j ≠ i + 1 := by
            intro he
            subst he
            exact hne' haj.symm
          rcases Nat.lt_or_ge j i with hlt | hge
          · exact ⟨j, by rw [hlen2]; omega, by rw [hA0 j (by omega)]; exact haj,
              by rw [hG0 j hlt]; exact hf⟩
          · have hjgt : i + 2 ≤ j := by omega
            refine ⟨i + 1 + (j - i - 2), by rw [hlen2]; omega, ?_, ?_⟩
            · rw [hAr (j - i - 2), show i + 2 + (j - i - 2) = j by omega]
              exact haj
            · rw [hGr (j - i - 2), show i + 2 + (j - i - 2) = j by omega]
              exact hf
      · intro j' hj' hf'
        rw [hlen2] at hj'
        rcases Nat.lt_trichotomy j' i with hlt | heq | hgt
        · rw [hA0 j' (by omega), hG0 j' hlt]
          rw [hG0 j' hlt] at hf'
          have hin := hcin j' (by omega) hf' (by omega)
          have hne : addrOf bs j' ≠ addrOf bs (i + 1) := fun he =>
            absurd (addrOf_inj bs hpos j' (i + 1) (by omega) (by omega) he) (by omega)
          exact h_in_ins _ _ _ _ _ (h_in_rem _ _ _ _ _ hne hin)
        · rw [heq, hA0 i (le_refl _), hGm]
          exact h_in_ins_self _ _ _
        · have ht : j' = i + 1 + (j' - i - 1) := by omega
          rw [ht, hAr (j' - i - 1), hGr (j' - i - 1)]
          rw [ht, hGr (j' - i - 1)] at hf'
          have hjj : i + 2 + (j' - i - 1) < bs.length := by omega
          have hin := hcin (i + 2 + (j' - i - 1)) hjj hf' (by omega)
          have hne : addrOf bs (i + 2 + (j' - i - 1)) ≠ addrOf bs (i + 1) := fun he =>
            absurd (addrOf_inj bs hpos _ _ hjj (by omega) he) (by omega)
          exact h_in_ins _ _ _ _ _ (h_in_rem _ _ _ _ _ hne hin)
    · rw [coalesce_spec_nn ins rem s i hi hpos hP hN]
      refine ⟨?_, ?_, ?_⟩
      · exact h_nodup_ins _ _ _ hnotin hnodup
      · intro a ha
        rcases (h_mem_ins _ _ _ a).mp ha with h | h
        · subst h
          exact ⟨i, hi, rfl, hfree⟩
        · obtain ⟨j, hj, haj, hf, hne⟩ := hbmem a h
          exact ⟨j, hj, haj, hf⟩
      · intro j hj hf
        by_cases hji : j = i
        · subst hji
          exact h_in_ins_self _ _ _
        · exact h_in_ins _ _ _ _ _ (hcin j hj hf hji)

include h_mem_ins h_in_ins_self h_in_ins h_nodup_ins h_mem_rem h_in_rem h_nodup_rem in
lemma place_consistentW (s : HState ι) (i asize : Nat)
    (hi : i < s.blocks.length) (hpos : sizesPos s.blocks)
    (hfree : (s.blocks.getD i dummyBlock).alloc = false) (hasz : 0 < asize)
    (hc : consistentW memIdx inIdx nodupIdx s.blocks s.index) :
    consistentW memIdx inIdx nodupIdx
      (place ins rem s (addrOf s.blocks i) asize).blocks
      (place ins rem s (addrOf s.blocks i) asize).index := by
  obtain ⟨hnodup, hmem, hin⟩ := hc
  have hside : memIdx s.index (addrOf s.blocks i) →
      inIdx s.index (addrOf s.blocks i) (s.blocks.getD i dummyBlock).size :=
    fun _ => hin i hi hfree
  by_cases hs : 24 ≤ (s.blocks.getD i dummyBlock).size - asize
  · rw [place_spec_split ins rem s i asize hi hpos hs]
    set bs := s.blocks with hbs
    set front : Block := ⟨asize, true, (bs.getD i dummyBlock).data.take (asize - 8)⟩
      with hfront
    set rest : Block := ⟨(bs.getD i dummyBlock).size - asize, false,
        (bs.getD i dummyBlock).data.drop asize⟩ with hrest
    have hk : i + 1 ≤ bs.length := by omega
    have hspan : (([front, rest] : List Block).map Block.size).sum =
        (((bs.drop i).take 1).map Block.size).sum := by
      rw [span_sum_one bs i hi]
      simp only [List.map_cons, List.map_nil, List.sum_cons, List.sum_nil,
        hfront, hrest]
      omega
    have hlen2 : (bs.take i ++ front :: rest :: bs.drop (i + 1)).length =
        i + 2 + (bs.length - (i + 1)) := replace_length bs i 1 [front, rest] hk
    have hA0 : ∀ j, j ≤ i → addrOf (bs.take i ++ front :: rest :: bs.drop (i + 1)) j
        = addrOf bs j := fun j hj => replace_addrOf_left bs i 1 [front, rest] hk j hj
    have hAr : ∀ t, addrOf (bs.take i ++ front :: rest :: bs.drop (i + 1)) (i + 2 + t)
        = addrOf bs (i + 1 + t) :=
      fun t => replace_addrOf_right bs i 1 [front, rest] hk hspan t
    have hG0 : ∀ j, j < i → (bs.take i ++ front :: rest :: bs.drop (i + 1)).getD j
        dummyBlock = bs.getD j dummyBlock :=
      fun j hj => replace_getD_left bs i 1 [front, rest] hk j hj
    have hGf : (bs.take i ++ front :: rest :: bs.drop (i + 1)).getD i dummyBlock =
        front := by
      have h' : (bs.take i ++ ([front, rest] ++ bs.drop (i + 1))).getD (i + 0)
          dummyBlock = [front, rest].getD 0 dummyBlock :=
        replace_getD_mid bs i 1 [front, rest] hk 0 (by simp)
      simpa using h'
    have hGs : (bs.take i ++ front :: rest :: bs.drop (i + 1)).getD (i + 1)
        dummyBlock = rest := by
      have h' : (bs.take i ++ ([front, rest] ++ bs.drop (i + 1))).getD (i + 1)
          dummyBlock = [front, rest].getD 1 dummyBlock :=
        replace_getD_mid bs i 1 [front, rest] hk 1 (by simp)
      simpa using h'
    have hGr : ∀ t, (bs.take i ++ front :: rest :: bs.drop (i + 1)).getD (i + 2 + t)
        dummyBlock = bs.getD (i + 1 + t) dummyBlock :=
      fun t => replace_getD_right bs i 1 [front, rest] hk t
    have hAs : addrOf (bs.take i ++ front :: rest :: bs.drop (i + 1)) (i + 1) =
        addrOf bs i + asize := by
      rw [addrOf_succ, hA0 i (le_refl _), hGf, hfront]
    have hnotin2 : ¬memIdx s.index (addrOf bs i + asize) := by
      intro hcmem
      obtain ⟨j, hj, haj, hfj⟩ := hmem _ hcmem
      rcases Nat.lt_or_ge j (i + 1) with hji | hji
      · have := addrOf_mono bs j i (by omega)
        omega
      · have h2 := addrOf_mono bs (i + 1) j hji
        rw [addrOf_succ] at h2
        omega
    have hnotin2b : ¬memIdx (rem s.index (addrOf bs i)
        (bs.getD i dummyBlock).size) (addrOf bs i + asize) := by
      rw [h_mem_rem _ _ _ _ hnodup hside]
      intro hc2
      exact hnotin2 hc2.1
    refine ⟨?_, ?_, ?_⟩
    · exact h_nodup_ins _ _ _ hnotin2b (h_nodup_rem _ _ _ hnodup)
    · intro x hx
      rcases (h_mem_ins _ _ _ x).mp hx with h | h
      · subst h
        exact ⟨i + 1, by rw [hlen2]; omega, hAs, by rw [hGs, hrest]⟩
      · rw [h_mem_rem _ _ _ _ hnodup hside] at h
        obtain ⟨hmem2, hne⟩ := h
        obtain ⟨j, hj, haj, hfj⟩ := hmem _ hmem2
        have hji : j ≠ i := fun he => hne (by rw [← haj, he])
        rcases Nat.lt_or_ge j i with hlt | hge
        · exact ⟨j, by rw [hlen2]; omega, by rw [hA0 j (by omega)]; exact haj,
            by rw [hG0 j hlt]; exact hfj⟩
        · have hgt : i + 1 ≤ j := by omega
          refine ⟨i + 2 + (j - i - 1), by rw [hlen2]; omega, ?_, ?_⟩
          · rw [hAr (j - i - 1), show i + 1 + (j - i - 1) = j by omega]
            exact haj
          · rw [hGr (j - i - 1), show i + 1 + (j - i - 1) = j by omega]
            exact hfj
    · intro j' hj' hf'
      rw [hlen2] at hj'
      have htri : j' < i ∨ j' = i ∨ j' = i + 1 ∨ i + 2 ≤ j' := by omega
      rcases htri with hlt | heq | heq | hge
      · rw [hA0 j' (by omega), hG0 j' hlt]
        rw [hG0 j' hlt] at hf'
        have hne : addrOf bs j' ≠ addrOf bs i := fun he =>
          absurd (addrOf_inj bs hpos j' i (by omega) hi he) (by omega)
        exact h_in_ins _ _ _ _ _ (h_in_rem _ _ _ _ _ hne (hin j' (by omega) hf'))
      · rw [heq, hGf] at hf'
        simp [hfront] at hf'
      · rw [heq, hAs, hGs]
        exact h_in_ins_self _ _ _
      · rw [show j' = i + 2 + (j' - i - 2) by omega, hAr (j' - i - 2),
          hGr (j' - i - 2)]
        rw [show j' = i + 2 + (j' - i - 2) by omega, hGr (j' - i - 2)] at hf'
        have hjj : i + 1 + (j' - i - 2) < bs.length := by omega
        have hne : addrOf bs (i + 1 + (j' - i - 2)) ≠ addrOf bs i := fun he =>
          absurd (addrOf_inj bs hpos _ _ hjj hi he) (by omega)
        exact h_in_ins _ _ _ _ _ (h_in_rem _ _ _ _ _ hne (hin _ hjj hf'))
  · rw [place_spec_whole ins rem s i asize hi hpos hs]
    set bs := s.blocks with hbs
    set w : Block := ⟨(bs.getD i dummyBlock).size, true, (bs.getD i dummyBlock).data⟩
      with hw
    have hmap : (bs.set i w).map Block.size = bs.map Block.size :=
      map_size_set_of_eq bs i w (by rw [hw])
    have haddr : ∀ j, addrOf (bs.set i w) j = addrOf bs j :=
      fun j => addrOf_eq_of_map_size _ _ hmap j
    refine ⟨?_, ?_, ?_⟩
    · exact h_nodup_rem _ _ _ hnodup
    · intro x hx
      rw [h_mem_rem _ _ _ _ hnodup hside] at hx
      obtain ⟨hmem2, hne⟩ := hx
      obtain ⟨j, hj, haj, hfj⟩ := hmem _ hmem2
      have hji : j ≠ i := fun he => hne (by rw [← haj, he])
      exact ⟨j, by simpa using hj, by rw [haddr j]; exact haj,
        by rw [getD_set_ne bs i j w (Ne.symm hji)]; exact hfj⟩
    · intro j' hj' hf'
      have hj2 : j' < bs.length := by simpa using hj'
      have hji : j' ≠ i := by
        intro he
        rw [he, getD_set_self bs i w hi] at hf'
        simp [hw] at hf'
      rw [getD_set_ne bs i j' w (Ne.symm hji)] at hf'
      rw [haddr j', getD_set_ne bs i j' w (Ne.symm hji)]
      have hne : addrOf bs j' ≠ addrOf bs i := fun he =>
        absurd (addrOf_inj bs hpos j' i hj2 hi he) hji
      exact h_in_rem _ _ _ _ _ hne (hin j' hj2 hf')

include h_mem_ins h_in_ins_self h_in_ins h_nodup_ins h_mem_rem h_in_rem h_nodup_rem in
lemma free_consistentW (s : HState ι) (i : Nat)
    (hi : i < s.blocks.length) (hpos : sizesPos s.blocks)
    (halloc : (s.blocks.getD i dummyBlock).alloc = true)
    (hc : consistentW memIdx inIdx nodupIdx s.blocks s.index) :
    consistentW memIdx inIdx nodupIdx
      (mm_free ins rem s (some (addrOf s.blocks i))).blocks
      (mm_free ins rem s (some (addrOf s.blocks i))).index := by
  obtain ⟨hnodup, hmem, hin⟩ := hc
  rw [mm_free_spec ins rem s i hi hpos]
  set w : Block :=
    ⟨(s.blocks.getD i dummyBlock).size, false, (s.blocks.getD i dummyBlock).data⟩
    with hw
  set s1 : HState ι := ⟨s.blocks.set i w, s.index, s.mem⟩ with hs1
  have hmap : s1.blocks.map Block.size = s.blocks.map Block.size :=
    map_size_set_of_eq s.blocks i w (by rw [hw])
  have haddr : ∀ j, addrOf s1.blocks j = addrOf s.blocks j :=
    fun j => addrOf_eq_of_map_size _ _ hmap j
  have hpos1 : sizesPos s1.blocks := by
    apply sizesPos_set _ _ _ hpos
    rw [hw]
    dsimp only
    exact hpos _ (getD_mem s.blocks i hi)
  have hlen1 : s1.blocks.length = s.blocks.length := by
    rw [hs1]
    simp
  rw [show addrOf s.blocks i = addrOf s1.blocks i from (haddr i).symm]
  apply coalesce_consistentW ins rem memIdx inIdx nodupIdx h_mem_ins h_in_ins_self
    h_in_ins h_nodup_ins h_mem_rem h_in_rem h_nodup_rem s1 i (by omega) hpos1
  · rw [show s1.blocks = s.blocks.set i w from rfl, getD_set_self s.blocks i w hi]
  · exact hnodup
  · intro a ha
    obtain ⟨j, hj, haj, hfj⟩ := hmem a ha
    have hji : j ≠ i := by
      intro he
      rw [he, halloc] at hfj
      simp at hfj
    exact ⟨j, by omega, by rw [haddr j]; exact haj,
      by rw [show s1.blocks = s.blocks.set i w from rfl,
        getD_set_ne s.blocks i j w (Ne.symm hji)]; exact hfj, hji⟩
  · intro j hj hfj hji
    rw [show s1.blocks = s.blocks.set i w from rfl,
      getD_set_ne s.blocks i j w (Ne.symm hji)] at hfj
    rw [haddr j, show s1.blocks = s.blocks.set i w from rfl,
      getD_set_ne s.blocks i j w (Ne.symm hji)]
    exact hin j (by omega) hfj
  · intro hcmem
    obtain ⟨j, hj, haj, hfj⟩ := hmem _ hcmem
    rw [haddr i] at haj
    have hji : j = i := addrOf_inj s.blocks hpos j i hj hi haj
    rw [hji, halloc] at hfj
    simp at hfj

include h_mem_ins h_in_ins_self h_in_ins h_nodup_ins h_mem_rem h_in_rem h_nodup_rem in
lemma extend_consistentW (s : HState ι) (words : Nat)
    (hpos : sizesPos s.blocks) (hnbpos : 0 < extendBytes words)
    (hc : consistentW memIdx inIdx nodupIdx s.blocks s.index) :
    consistentW memIdx inIdx nodupIdx
      (extend_heap ins rem s words).1.blocks
      (extend_heap ins rem s words).1.index := by
  obtain ⟨hnodup, hmem, hin⟩ := hc
  by_cases hm : extendBytes words ≤ s.mem
  · set nb : Block :=
      ⟨extendBytes words, false, List.replicate (extendBytes words - 8) 0⟩ with hnb
    rw [extend_heap_spec_fst ins rem s words nb hnb hm]
    rw [show (s.blocks ++ [nb]).length - 1 = s.blocks.length by simp]
    set s1 : HState ι := ⟨s.blocks ++ [nb], s.index, s.mem - extendBytes words⟩
      with hs1
    rw [show s.blocks ++ [nb] = s1.blocks from rfl]
    have hlen1 : s1.blocks.length = s.blocks.length + 1 := by
      rw [hs1]
      simp
    have hpos1 : sizesPos s1.blocks := by
      intro b hb
      rw [hs1] at hb
      simp only [List.mem_append, List.mem_singleton] at hb
      rcases hb with hb | rfl
      · exact hpos b hb
      · rw [hnb]
        dsimp only
        omega
    have hgetnb : s1.blocks.getD s.blocks.length dummyBlock = nb := getD_append_nb _ _
    have hG0 : ∀ j, j < s.blocks.length →
        s1.blocks.getD j dummyBlock = s.blocks.getD j dummyBlock :=
      fun j hj => getD_append_left _ _ _ hj
    have hA0 : ∀ j, j ≤ s.blocks.length →
        addrOf s1.blocks j = addrOf s.blocks j :=
      fun j hj => addrOf_append_left _ _ _ hj
    apply coalesce_consistentW ins rem memIdx inIdx nodupIdx h_mem_ins h_in_ins_self
      h_in_ins h_nodup_ins h_mem_rem h_in_rem h_nodup_rem s1 s.blocks.length
      (by omega) hpos1
    · rw [hgetnb, hnb]
    · exact hnodup
    · intro a ha
      obtain ⟨j, hj, haj, hfj⟩ := hmem a ha
      exact ⟨j, by omega, by rw [hA0 j (by omega)]; exact haj,
        by rw [hG0 j hj]; exact hfj, by omega⟩
    · intro j hj hfj hji
      have hj2 : j < s.blocks.length := by omega
      rw [hG0 j hj2] at hfj
      rw [hA0 j (by omega), hG0 j hj2]
      exact hin j hj2 hfj
    · intro hcmem
      obtain ⟨j, hj, haj, hfj⟩ := hmem _ hcmem
      rw [← hA0 j (by omega)] at haj
      have hji : j = s.blocks.length :=
        addrOf_inj s1.blocks hpos1 j s.blocks.length (by omega) (by omega) haj
      omega
  · rw [extend_heap_fail ins rem s words (by omega)]
    exact ⟨hnodup, hmem, hin⟩


include h_mem_ins h_in_ins_self h_in_ins h_nodup_ins h_mem_rem h_in_rem h_nodup_rem in
lemma realloc_consistentW
    (malloc : HState ι → Nat → HState ι × Option Nat)
    (hmc : ∀ (u : HState ι) (n : Nat), wfBlocks u.blocks →
      consistentW memIdx inIdx nodupIdx u.blocks u.index →
      consistentW memIdx inIdx nodupIdx (malloc u n).1.blocks (malloc u n).1.index)
    (hmw : ∀ (u : HState ι) (n : Nat), wfBlocks u.blocks →
      wfBlocks (malloc u n).1.blocks)
    (hma : ∀ (u : HState ι) (n j : Nat), wfBlocks u.blocks →
      consistentW memIdx inIdx nodupIdx u.blocks u.index →
      j < u.blocks.length → (u.blocks.getD j dummyBlock).alloc = true →
      ∃ j', j' < (malloc u n).1.blocks.length ∧
        addrOf (malloc u n).1.blocks j' = addrOf u.blocks j ∧
        (malloc u n).1.blocks.getD j' dummyBlock = u.blocks.getD j dummyBlock)
    (s : HState ι) (i size : Nat)
    (hi : i < s.blocks.length) (hwf : wfBlocks s.blocks)
    (halloc : (s.blocks.getD i dummyBlock).alloc = true)
    (hc : consistentW memIdx inIdx nodupIdx s.blocks s.index) :
    consistentW memIdx inIdx nodupIdx
      (mm_realloc ins rem malloc s (some (addrOf s.blocks i)) size).1.blocks
      (mm_realloc ins rem malloc s (some (addrOf s.blocks i)) size).1.index := by
  have hpos := wfBlocks_sizesPos _ hwf
  obtain ⟨hnodup, hmem, hin⟩ := hc
  have hc' : consistentW memIdx inIdx nodupIdx s.blocks s.index := ⟨hnodup, hmem, hin⟩
  obtain ⟨hba, hbb, hbc⟩ := wf_getD _ hwf i hi
  have hage := asizeOf_ge24 size
  simp only [mm_realloc]
  by_cases hz : size = 0
  · rw [if_pos hz]
    dsimp only
    exact free_consistentW ins rem memIdx inIdx nodupIdx h_mem_ins h_in_ins_self
      h_in_ins h_nodup_ins h_mem_rem h_in_rem h_nodup_rem s i hi hpos halloc hc'
  rw [if_neg hz]
  simp only [idxOf_addrOf s.blocks hpos i hi]
  by_cases hle : asizeOf size ≤ (s.blocks.getD i dummyBlock).size
  · rw [if_pos hle]
    by_cases hrem : (s.blocks.getD i dummyBlock).size - asizeOf size ≥ 24
    · rw [if_pos hrem]
      dsimp only
      set A := asizeOf size with hA
      set bs := s.blocks with hbs
      set front : Block := ⟨A, true, (bs.getD i dummyBlock).data.take (A - 8)⟩
        with hfront
      set rest : Block := ⟨(bs.getD i dummyBlock).size - A, false,
          (bs.getD i dummyBlock).data.drop A⟩ with hrest
      set s1 : HState ι :=
        ⟨bs.take i ++ front :: rest :: bs.drop (i + 1), s.index, s.mem⟩ with hs1
      have hk : i + 1 ≤ bs.length := by omega
      have hspan : (([front, rest] : List Block).map Block.size).sum =
          (((bs.drop i).take 1).map Block.size).sum := by
        rw [span_sum_one bs i hi]
        simp only [List.map_cons, List.map_nil, List.sum_cons, List.sum_nil,
          hfront, hrest]
        omega
      have hlen2 : s1.blocks.length = i + 2 + (bs.length - (i + 1)) :=
        replace_length bs i 1 [front, rest] hk
      have hA0 : ∀ j, j ≤ i → addrOf s1.blocks j = addrOf bs j :=
        fun j hj => replace_addrOf_left bs i 1 [front, rest] hk j hj
      have hAr : ∀ t, addrOf s1.blocks (i + 2 + t) = addrOf bs (i + 1 + t) :=
        fun t => replace_addrOf_right bs i 1 [front, rest] hk hspan t
      have hG0 : ∀ j, j < i → s1.blocks.getD j dummyBlock = bs.getD j dummyBlock :=
        fun j hj => replace_getD_left bs i 1 [front, rest] hk j hj
      have hGf : s1.blocks.getD i dummyBlock = front := by
        have h' : (bs.take i ++ ([front, rest] ++ bs.drop (i + 1))).getD (i + 0)
            dummyBlock = [front, rest].getD 0 dummyBlock :=
          replace_getD_mid bs i 1 [front, rest] hk 0 (by simp)
        simpa using h'
      have hGs : s1.blocks.getD (i + 1) dummyBlock = rest := by
        have h' : (bs.take i ++ ([front, rest] ++ bs.drop (i + 1))).getD (i + 1)
            dummyBlock = [front, rest].getD 1 dummyBlock :=
          replace_getD_mid bs i 1 [front, rest] hk 1 (by simp)
        simpa using h'
      have hGr : ∀ t, s1.blocks.getD (i + 2 + t) dummyBlock =
          bs.getD (i + 1 + t) dummyBlock :=
        fun t => replace_getD_right bs i 1 [front, rest] hk t
      have hpos1 : sizesPos s1.blocks := by
        intro b hb
        rw [hs1] at hb
        simp only [List.mem_append, List.mem_cons] at hb
        rcases hb with hb | rfl | rfl | hb
        · exact hpos b (List.mem_of_mem_take hb)
        · rw [hfront]
          dsimp only
          omega
        · rw [hrest]
          dsimp only
          omega
        · exact hpos b (List.mem_of_mem_drop hb)
      have hAs : addrOf s1.blocks (i + 1) = addrOf bs i + A := by
        rw [addrOf_succ, hA0 i (le_refl _), hGf, hfront]
      rw [show addrOf bs i + A = addrOf s1.blocks (i + 1) from hAs.symm]
      apply coalesce_consistentW ins rem memIdx inIdx nodupIdx h_mem_ins
        h_in_ins_self h_in_ins h_nodup_ins h_mem_rem h_in_rem h_nodup_rem s1
        (i + 1) (by omega) hpos1
      · rw [hGs, hrest]
      · exact hnodup
      · intro a ha
        obtain ⟨j, hj, haj, hfj⟩ := hmem a ha
        have hji : j ≠ i := by
          intro he
          rw [he, halloc] at hfj
          simp at hfj
        rcases Nat.lt_or_ge j i with hlt | hge
        · exact ⟨j, by omega, by rw [hA0 j (by omega)]; exact haj,
            by rw [hG0 j hlt]; exact hfj, by omega⟩
        · have hgt : i + 1 ≤ j := by omega
          refine ⟨i + 2 + (j - i - 1), by omega, ?_, ?_, by omega⟩
          · rw [hAr (j - i - 1), show i + 1 + (j - i - 1) = j by omega]
            exact haj
          · rw [hGr (j - i - 1), show i + 1 + (j - i - 1) = j by omega]
            exact hfj
      · intro j hj hfj hji
        rw [hlen2] at hj
        have htri : j < i ∨ j = i ∨ i + 2 ≤ j := by omega
        rcases htri with hlt | heq | hge
        · rw [hG0 j hlt] at hfj
          rw [hA0 j (by omega), hG0 j hlt]
          exact hin j (by omega) hfj
        · rw [heq, hGf] at hfj
          simp [hfront] at hfj
        · rw [show j = i + 2 + (j - i - 2) by omega, hGr (j - i - 2)] at hfj
          rw [show j = i + 2 + (j - i - 2) by omega, hAr (j - i - 2),
            hGr (j - i - 2)]
          exact hin _ (by omega) hfj
      · intro hcmem
        obtain ⟨j, hj, haj, hfj⟩ := hmem _ hcmem
        rw [hAs] at haj
        have hji : j ≠ i := by
          intro he
          rw [he, halloc] at hfj
          simp at hfj
        rcases Nat.lt_or_ge j (i + 1) with hlt | hge
        · have := addrOf_mono bs j i (by omega)
          omega
        · have h2 := addrOf_mono bs (i + 1) j hge
          rw [addrOf_succ] at h2
          omega
    · rw [if_neg hrem]
      dsimp only
      exact hc'
  · rw [if_neg hle]
    have hmcq := hmc s size hwf hc'
    have hmwq := hmw s size hwf
    have hposq := wfBlocks_sizesPos _ hmwq
    obtain ⟨j1, hj1, haj1, hgj1⟩ := hma s size i hwf hc' hi halloc
    have hkey : ∀ (np : Nat) (src : List Nat),
        consistentW memIdx inIdx nodupIdx
          (mm_free ins rem
            (⟨writeData (malloc s size).1.blocks np src, (malloc s size).1.index,
              (malloc s size).1.mem⟩ : HState ι)
            (some (addrOf s.blocks i))).blocks
          (mm_free ins rem
            (⟨writeData (malloc s size).1.blocks np src, (malloc s size).1.index,
              (malloc s size).1.mem⟩ : HState ι)
            (some (addrOf s.blocks i))).index := by
      intro np src
      set s2 : HState ι := ⟨writeData (malloc s size).1.blocks np src,
        (malloc s size).1.index, (malloc s size).1.mem⟩ with hs2
      have hlenw : s2.blocks.length = (malloc s size).1.blocks.length :=
        writeData_length _ _ _
      have hmapw : s2.blocks.map Block.size = (malloc s size).1.blocks.map Block.size :=
        writeData_map_size _ _ _
      have halw := fun j => writeData_alloc_size (malloc s size).1.blocks np src j
      have hc2 : consistentW memIdx inIdx nodupIdx s2.blocks s2.index :=
        consistentW_congr memIdx inIdx nodupIdx _ _ _ hlenw hmapw
          (fun j hj => halw j) hmcq
      have hpos2 : sizesPos s2.blocks := sizesPos_of_map_size_eq _ _ hmapw hposq
      have haddrw : ∀ j, addrOf s2.blocks j = addrOf (malloc s size).1.blocks j :=
        addrOf_eq_of_map_size _ _ hmapw
      have haddr2 : addrOf s2.blocks j1 = addrOf s.blocks i := by
        rw [haddrw j1, haj1]
      have hal2 : (s2.blocks.getD j1 dummyBlock).alloc = true := by
        rw [(halw j1).1, hgj1]
        exact halloc
      rw [show addrOf s.blocks i = addrOf s2.blocks j1 from haddr2.symm]
      exact free_consistentW ins rem memIdx inIdx nodupIdx h_mem_ins h_in_ins_self
        h_in_ins h_nodup_ins h_mem_rem h_in_rem h_nodup_rem s2 j1 (by omega)
        hpos2 hal2 hc2
    by_cases hnext : i + 1 < s.blocks.length ∧
        (s.blocks.getD (i + 1) dummyBlock).alloc = false
    · rw [if_pos hnext]
      by_cases hcap : (s.blocks.getD i dummyBlock).size +
          (s.blocks.getD (i + 1) dummyBlock).size ≥ asizeOf size
      · rw [if_pos hcap]
        obtain ⟨hna, hnb, hnc⟩ := wf_getD _ hwf (i + 1) hnext.1
        have hside : memIdx s.index (addrOf s.blocks (i + 1)) →
            inIdx s.index (addrOf s.blocks (i + 1))
              (s.blocks.getD (i + 1) dummyBlock).size :=
          fun _ => hin (i + 1) hnext.1 hnext.2
        have hsucc1 : addrOf s.blocks (i + 1) =
            addrOf s.blocks i + (s.blocks.getD i dummyBlock).size := addrOf_succ _ _
        have hsucc2 : addrOf s.blocks (i + 2) =
            addrOf s.blocks i + ((s.blocks.getD i dummyBlock).size +
              (s.blocks.getD (i + 1) dummyBlock).size) := by
          rw [addrOf_succ, addrOf_succ]
          omega
        by_cases hrem2 : (s.blocks.getD i dummyBlock).size +
            (s.blocks.getD (i + 1) dummyBlock).size - asizeOf size ≥ 24
        · rw [if_pos hrem2]
          dsimp only
          set A := asizeOf size with hA
          set bs := s.blocks with hbs
          set cap := (bs.getD i dummyBlock).size + (bs.getD (i + 1) dummyBlock).size
            with hcapd
          set combined := (bs.getD i dummyBlock).data ++
              wbytes ((bs.getD i dummyBlock).size + 1) ++
              wbytes (bs.getD (i + 1) dummyBlock).size ++
              (bs.getD (i + 1) dummyBlock).data with hcomb
          set front : Block := ⟨A, true, combined.take (A - 8)⟩ with hfront
          set rest : Block := ⟨cap - A, false, combined.drop A⟩ with hrest
          have hk : i + 2 ≤ bs.length := by omega
          have hspan : (([front, rest] : List Block).map Block.size).sum =
              (((bs.drop i).take 2).map Block.size).sum := by
            rw [span_sum_two bs i (by omega)]
            simp only [List.map_cons, List.map_nil, List.sum_cons, List.sum_nil,
              hfront, hrest]
            omega
          have hlen2 : (bs.take i ++ front :: rest :: bs.drop (i + 2)).length =
              i + 2 + (bs.length - (i + 2)) :=
            replace_length bs i 2 [front, rest] hk
          have hA0 : ∀ j, j ≤ i →
              addrOf (bs.take i ++ front :: rest :: bs.drop (i + 2)) j =
                addrOf bs j :=
            fun j hj => replace_addrOf_left bs i 2 [front, rest] hk j hj
          have hAr : ∀ t,
              addrOf (bs.take i ++ front :: rest :: bs.drop (i + 2)) (i + 2 + t) =
                addrOf bs (i + 2 + t) :=
            fun t => replace_addrOf_right bs i 2 [front, rest] hk hspan t
          have hG0 : ∀ j, j < i →
              (bs.take i ++ front :: rest :: bs.drop (i + 2)).getD j dummyBlock =
                bs.getD j dummyBlock :=
            fun j hj => replace_getD_left bs i 2 [front, rest] hk j hj
          have hGf : (bs.take i ++ front :: rest :: bs.drop (i + 2)).getD i
              dummyBlock = front := by
            have h' : (bs.take i ++ ([front, rest] ++ bs.drop (i + 2))).getD (i + 0)
                dummyBlock = [front, rest].getD 0 dummyBlock :=
              replace_getD_mid bs i 2 [front, rest] hk 0 (by simp)
            simpa using h'
          have hGs : (bs.take i ++ front :: rest :: bs.drop (i + 2)).getD (i + 1)
              dummyBlock = rest := by
            have h' : (bs.take i ++ ([front, rest] ++ bs.drop (i + 2))).getD (i + 1)
                dummyBlock = [front, rest].getD 1 dummyBlock :=
              replace_getD_mid bs i 2 [front, rest] hk 1 (by simp)
            simpa using h'
          have hGr : ∀ t,
              (bs.take i ++ front :: rest :: bs.drop (i + 2)).getD (i + 2 + t)
                dummyBlock = bs.getD (i + 2 + t) dummyBlock :=
            fun t => replace_getD_right bs i 2 [front, rest] hk t
          have hAs : addrOf (bs.take i ++ front :: rest :: bs.drop (i + 2)) (i + 1) =
              addrOf bs i + A := by
            rw [addrOf_succ, hA0 i (le_refl _), hGf, hfront]
          have hnotin2 : ¬memIdx s.index (addrOf bs i + A) := by
            intro hcmem
            obtain ⟨j, hj, haj, hfj⟩ := hmem _ hcmem
            have hji : j ≠ i := by
              intro he
              rw [he, halloc] at hfj
              simp at hfj
            have htri : j < i ∨ j = i + 1 ∨ i + 2 ≤ j := by omega
            rcases htri with hlt | heq | hge
            · have := addrOf_mono bs j i (by omega)
              omega
            · rw [heq, hsucc1] at haj
              omega
            · have h2 := addrOf_mono bs (i + 2) j hge
              rw [hsucc2] at h2
              omega
          have hnotin2b : ¬memIdx (rem s.index (addrOf bs (i + 1))
              (bs.getD (i + 1) dummyBlock).size) (addrOf bs i + A) := by
            rw [h_mem_rem _ _ _ _ hnodup hside]
            intro hc2
            exact hnotin2 hc2.1
          refine ⟨?_, ?_, ?_⟩
          · exact h_nodup_ins _ _ _ hnotin2b (h_nodup_rem _ _ _ hnodup)
          · intro x hx
            rcases (h_mem_ins _ _ _ x).mp hx with h | h
            · subst h
              exact ⟨i + 1, by rw [hlen2]; omega, hAs, by rw [hGs, hrest]⟩
            · rw [h_mem_rem _ _ _ _ hnodup hside] at h
              obtain ⟨hmem2, hne⟩ := h
              obtain ⟨j, hj, haj, hfj⟩ := hmem _ hmem2
              have hji : j ≠ i := by
                intro he
                rw [he, halloc] at hfj
                simp at hfj
              have hjn : j ≠ i + 1 := fun he => hne (by rw [← haj, he])
              rcases Nat.lt_or_ge j i with hlt | hge
              · exact ⟨j, by rw [hlen2]; omega, by rw [hA0 j (by omega)]; exact haj,
                  by rw [hG0 j hlt]; exact hfj⟩
              · have hgt : i + 2 ≤ j := by omega
                refine ⟨j, by rw [hlen2]; omega, ?_, ?_⟩
                · rw [show j = i + 2 + (j - i - 2) by omega, hAr (j - i - 2),
                    show i + 2 + (j - i - 2) = j by omega]
                  exact haj
                · rw [show j = i + 2 + (j - i - 2) by omega, hGr (j - i - 2),
                    show i + 2 + (j - i - 2) = j by omega]
                  exact hfj
          · intro j' hj' hf'
            rw [hlen2] at hj'
            have htri : j' < i ∨ j' = i ∨ j' = i + 1 ∨ i + 2 ≤ j' := by omega
            rcases htri with hlt | heq | heq | hge
            · rw [hG0 j' hlt] at hf'
              rw [hA0 j' (by omega), hG0 j' hlt]
              have hne : addrOf bs j' ≠ addrOf bs (i + 1) := fun he =>
                absurd (addrOf_inj bs hpos j' (i + 1) (by omega) hnext.1 he)
                  (by omega)
              exact h_in_ins _ _ _ _ _
                (h_in_rem _ _ _ _ _ hne (hin j' (by omega) hf'))
            · rw [heq, hGf] at hf'
              simp [hfront] at hf'
            · rw [heq, hAs, hGs]
              exact h_in_ins_self _ _ _
            · rw [show j' = i + 2 + (j' - i - 2) by omega, hGr (j' - i - 2),
                show i + 2 + (j' - i - 2) = j' by omega] at hf'
              rw [show j' = i + 2 + (j' - i - 2) by omega, hAr (j' - i - 2),
                hGr (j' - i - 2), show i + 2 + (j' - i - 2) = j' by omega]
              have hne : addrOf bs j' ≠ addrOf bs (i + 1) := fun he =>
                absurd (addrOf_inj bs hpos j' (i + 1) (by omega) hnext.1 he)
                  (by omega)
              exact h_in_ins _ _ _ _ _
                (h_in_rem _ _ _ _ _ hne (hin j' (by omega) hf'))
        · rw [if_neg hrem2]
          dsimp only
          set A := asizeOf size with hA
          set bs := s.blocks with hbs
          set cap := (bs.getD i dummyBlock).size + (bs.getD (i + 1) dummyBlock).size
            with hcapd
          set combined := (bs.getD i dummyBlock).data ++
              wbytes ((bs.getD i dummyBlock).size + 1) ++
              wbytes (bs.getD (i + 1) dummyBlock).size ++
              (bs.getD (i + 1) dummyBlock).data with hcomb
          set w : Block := ⟨cap, true, combined⟩ with hw
          have hk : i + 2 ≤ bs.length := by omega
          have hspan : (([w] : List Block).map Block.size).sum =
              (((bs.drop i).take 2).map Block.size).sum := by
            rw [span_sum_two bs i (by omega)]
            simp only [List.map_cons, List.map_nil, List.sum_cons, List.sum_nil, hw]
            omega
          have hlen1 : (bs.take i ++ w :: bs.drop (i + 2)).length =
              i + 1 + (bs.length - (i + 2)) := replace_length bs i 2 [w] hk
          have hA0 : ∀ j, j ≤ i →
              addrOf (bs.take i ++ w :: bs.drop (i + 2)) j = addrOf bs j :=
            fun j hj => replace_addrOf_left bs i 2 [w] hk j hj
          have hAr : ∀ t, addrOf (bs.take i ++ w :: bs.drop (i + 2)) (i + 1 + t) =
              addrOf bs (i + 2 + t) :=
            fun t => replace_addrOf_right bs i 2 [w] hk hspan t
          have hG0 : ∀ j, j < i →
              (bs.take i ++ w :: bs.drop (i + 2)).getD j dummyBlock =
                bs.getD j dummyBlock :=
            fun j hj => replace_getD_left bs i 2 [w] hk j hj
          have hGw : (bs.take i ++ w :: bs.drop (i + 2)).getD i dummyBlock = w := by
            have h' : (bs.take i ++ ([w] ++ bs.drop (i + 2))).getD (i + 0)
                dummyBlock = [w].getD 0 dummyBlock :=
              replace_getD_mid bs i 2 [w] hk 0 (by simp)
            simpa using h'
          have hGr : ∀ t, (bs.take i ++ w :: bs.drop (i + 2)).getD (i + 1 + t)
              dummyBlock = bs.getD (i + 2 + t) dummyBlock :=
            fun t => replace_getD_right bs i 2 [w] hk t
          refine ⟨?_, ?_, ?_⟩
          · exact h_nodup_rem _ _ _ hnodup
          · intro x hx
            rw [h_mem_rem _ _ _ _ hnodup hside] at hx
            obtain ⟨hmem2, hne⟩ := hx
            obtain ⟨j, hj, haj, hfj⟩ := hmem _ hmem2
            have hji : j ≠ i := by
              intro he
              rw [he, halloc] at hfj
              simp at hfj
            have hjn : j ≠ i + 1 := fun he => hne (by rw [← haj, he])
            rcases Nat.lt_or_ge j i with hlt | hge
            · exact ⟨j, by rw [hlen1]; omega, by rw [hA0 j (by omega)]; exact haj,
                by rw [hG0 j hlt]; exact hfj⟩
            · have hgt : i + 2 ≤ j := by omega
              refine ⟨i + 1 + (j - i - 2), by rw [hlen1]; omega, ?_, ?_⟩
              · rw [hAr (j - i - 2), show i + 2 + (j - i - 2) = j by omega]
                exact haj
              · rw [hGr (j - i - 2), show i + 2 + (j - i - 2) = j by omega]
                exact hfj
          · intro j' hj' hf'
            rw [hlen1] at hj'
            have htri : j' < i ∨ j' = i ∨ i + 1 ≤ j' := by omega
            rcases htri with hlt | heq | hge
            · rw [hG0 j' hlt] at hf'
              rw [hA0 j' (by omega), hG0 j' hlt]
              have hne : addrOf bs j' ≠ addrOf bs (i + 1) := fun he =>
                absurd (addrOf_inj bs hpos j' (i + 1) (by omega) hnext.1 he)
                  (by omega)
              exact h_in_rem _ _ _ _ _ hne (hin j' (by omega) hf')
            · rw [heq, hGw] at hf'
              simp [hw] at hf'
            · rw [show j' = i + 1 + (j' - i - 1) by omega, hGr (j' - i - 1)] at hf'
              rw [show j' = i + 1 + (j' - i - 1) by omega, hAr (j' - i - 1),
                hGr (j' - i - 1)]
              have hjj : i + 2 + (j' - i - 1) < bs.length := by omega
              have hne : addrOf bs (i + 2 + (j' - i - 1)) ≠ addrOf bs (i + 1) :=
                fun he =>
                  absurd (addrOf_inj bs hpos _ (i + 1) hjj hnext.1 he) (by omega)
              exact h_in_rem _ _ _ _ _ hne (hin _ hjj hf')
      · rw [if_neg hcap]
        rcases hm2 : (malloc s size).2 with _ | np
        · simp only [hm2]
          exact hmcq
        · simp only [hm2]
          exact hkey np _
    · rw [if_neg hnext]
      rcases hm2 : (malloc s size).2 with _ | np
      · simp only [hm2]
        exact hmcq
      · simp only [hm2]
        exact hkey np _


end PolicyGeneric

lemma wfBlocks_cons_surgery (bs : List Block) (n1 n2 : Nat) (m : Block)
    (h : wfBlocks bs) (hm : wfBlock m) :
    wfBlocks (bs.take n1 ++ m :: bs.drop n2) := by
  intro b hb
  simp only [List.mem_append, List.mem_cons] at hb
  rcases hb with hb | rfl | hb
  · exact h b (List.mem_of_mem_take hb)
  · exact hm
  · exact h b (List.mem_of_mem_drop hb)

lemma wfBlocks_cons2_surgery (bs : List Block) (n1 n2 : Nat) (m1 m2 : Block)
    (h : wfBlocks bs) (hm1 : wfBlock m1) (hm2 : wfBlock m2) :
    wfBlocks (bs.take n1 ++ m1 :: m2 :: bs.drop n2) := by
  intro b hb
  simp only [List.mem_append, List.mem_cons] at hb
  rcases hb with hb | rfl | rfl | hb
  · exact h b (List.mem_of_mem_take hb)
  · exact hm1
  · exact hm2
  · exact h b (List.mem_of_mem_drop hb)

lemma wfBlocks_set (bs : List Block) (i : Nat) (x : Block) (h : wfBlocks bs)
    (hx : wfBlock x) : wfBlocks (bs.set i x) := by
  intro b hb
  rcases List.mem_or_eq_of_mem_set hb with hb | rfl
  · exact h b hb
  · exact hx

lemma wfBlocks_append_single (bs : List Block) (x : Block) (h : wfBlocks bs)
    (hx : wfBlock x) : wfBlocks (bs ++ [x]) := by
  intro b hb
  simp only [List.mem_append, List.mem_singleton] at hb
  rcases hb with hb | rfl
  · exact h b hb
  · exact hx

lemma coalesce_wf {ι : Type} (ins rem : ι → Nat → Nat → ι) (s : HState ι) (a : Nat)
    (h : wfBlocks s.blocks) :
    wfBlocks (coalesce ins rem s a).1.blocks := by
  have hpos := wfBlocks_sizesPos _ h
  rcases hidx : idxOf s.blocks a with _ | i
  · simp only [coalesce, hidx]
    exact h
  · obtain ⟨hi, ha⟩ := idxOf_some s.blocks a i hidx
    rw [← ha]
    by_cases hP : 0 < i ∧ (s.blocks.getD (i - 1) dummyBlock).alloc = false
    · by_cases hN : i + 1 < s.blocks.length ∧
          (s.blocks.getD (i + 1) dummyBlock).alloc = false
      · rw [coalesce_spec_both ins rem s i hi hpos hP hN]
        obtain ⟨h1a, h1b, h1c⟩ := wf_getD _ h (i - 1) (by omega)
        obtain ⟨h2a, h2b, h2c⟩ := wf_getD _ h i hi
        obtain ⟨h3a, h3b, h3c⟩ := wf_getD _ h (i + 1) hN.1
        refine wfBlocks_cons_surgery _ _ _ _ h ⟨?_, ?_, ?_⟩
        · dsimp only
          omega
        · dsimp only
          omega
        · dsimp only
          simp only [List.length_append, wbytes_length]
          omega
      · rw [coalesce_spec_prev ins rem s i hi hpos hP hN]
        obtain ⟨h1a, h1b, h1c⟩ := wf_getD _ h (i - 1) (by omega)
        obtain ⟨h2a, h2b, h2c⟩ := wf_getD _ h i hi
        refine wfBlocks_cons_surgery _ _ _ _ h ⟨?_, ?_, ?_⟩
        · dsimp only
          omega
        · dsimp only
          omega
        · dsimp only
          simp only [List.length_append, wbytes_length]
          omega
    · by_cases hN : i + 1 < s.blocks.length ∧
          (s.blocks.getD (i + 1) dummyBlock).alloc = false
      · rw [coalesce_spec_next ins rem s i hi hpos hP hN]
        obtain ⟨h2a, h2b, h2c⟩ := wf_getD _ h i hi
        obtain ⟨h3a, h3b, h3c⟩ := wf_getD _ h (i + 1) hN.1
        refine wfBlocks_cons_surgery _ _ _ _ h ⟨?_, ?_, ?_⟩
        · dsimp only
          omega
        · dsimp only
          omega
        · dsimp only
          simp only [List.length_append, wbytes_length]
          omega
      · rw [coalesce_spec_nn ins rem s i hi hpos hP hN]
        exact h

lemma extend_heap_wf {ι : Type} (ins rem : ι → Nat → Nat → ι) (s : HState ι)
    (words : Nat) (hw : 0 < words) (h : wfBlocks s.blocks) :
    wfBlocks (extend_heap ins rem s words).1.blocks := by
  by_cases hm : extendBytes words ≤ s.mem
  · rw [extend_heap_spec_fst ins rem s words _ rfl hm]
    apply coalesce_wf
    apply wfBlocks_append_single _ _ h
    refine ⟨extendBytes_mod8 words, extendBytes_ge8 words hw, ?_⟩
    have := extendBytes_ge8 words hw
    simp only [List.length_replicate]
    omega
  · rw [extend_heap_fail ins rem s words (by omega)]
    exact h

lemma place_wf {ι : Type} (ins rem : ι → Nat → Nat → ι) (s : HState ι)
    (a asize : Nat) (h : wfBlocks s.blocks) (ha8 : asize % 8 = 0)
    (ha : 8 ≤ asize) :
    wfBlocks (place ins rem s a asize).blocks := by
  rcases hidx : idxOf s.blocks a with _ | i
  · simp only [place, hidx]
    exact h
  · obtain ⟨hi, hai⟩ := idxOf_some s.blocks a i hidx
    simp only [place, hidx]
    obtain ⟨hba, hbb, hbc⟩ := wf_getD _ h i hi
    split_ifs with hs
    · refine wfBlocks_cons2_surgery _ _ _ _ _ h ⟨ha8, ha, ?_⟩ ⟨?_, ?_, ?_⟩
      · dsimp only
        simp only [List.length_take]
        omega
      · dsimp only
        omega
      · dsimp only
        omega
      · dsimp only
        simp only [List.length_drop]
        omega
    · apply wfBlocks_set _ _ _ h
      exact ⟨hba, hbb, hbc⟩

lemma mm_free_wf {ι : Type} (ins rem : ι → Nat → Nat → ι) (s : HState ι)
    (bp : Option Nat) (h : wfBlocks s.blocks) :
    wfBlocks (mm_free ins rem s bp).blocks := by
  rcases bp with _ | a
  · exact h
  · rcases hidx : idxOf s.blocks a with _ | i
    · simp only [mm_free, hidx]
      exact h
    · simp only [mm_free, hidx]
      apply coalesce_wf
      apply wfBlocks_set _ _ _ h
      have hi := (idxOf_some s.blocks a i hidx).1
      have hb := wf_getD _ h i hi
      exact ⟨hb.1, hb.2.1, hb.2.2⟩

lemma Exp_mm_malloc_wf (s : Exp.State) (n : Nat) (h : wfBlocks s.blocks) :
    wfBlocks (Exp.mm_malloc s n).1.blocks := by
  simp only [Exp.mm_malloc]
  split_ifs with h0
  · exact h
  · have ha8 := asizeOf_mod8 n
    have hage := asizeOf_ge24 n
    rcases hf : Exp.find_fit s (asizeOf n) with _ | bp
    · simp only
      rcases he : (extend_heap Exp.insert_node Exp.remove_node s
          (max (asizeOf n) 4096 / 4)).2 with _ | bp
      · simp only
        exact extend_heap_wf _ _ _ _ (by omega) h
      · simp only
        exact place_wf _ _ _ _ _ (extend_heap_wf _ _ _ _ (by omega) h) ha8
          (by omega)
    · simp only
      exact place_wf _ _ _ _ _ h ha8 (by omega)

lemma Seg_mm_malloc_wf (s : Seg.State) (n : Nat) (h : wfBlocks s.blocks) :
    wfBlocks (Seg.mm_malloc s n).1.blocks := by
  have ha8 := asizeOf_mod8 n
  have hage := asizeOf_ge24 n
  simp only [Seg.mm_malloc]
  by_cases h0 : n = 0
  · rw [if_pos h0]
    exact h
  rw [if_neg h0]
  rcases hf : Seg.find_fit s (asizeOf n) with _ | bp
  · simp only
    by_cases hl : asizeOf n > Seg.getFreeSizeOfTail s.blocks
    · rw [if_pos hl, if_pos (by omega)]
      rcases he : (extend_heap Seg.insert_node Seg.remove_node s
          ((asizeOf n - Seg.getFreeSizeOfTail s.blocks + (4 - 1)) / 4)).2
          with _ | bp
      · simp only [he]
        exact h
      · simp only [he]
        have hwf1 := extend_heap_wf Seg.insert_node Seg.remove_node s
          ((asizeOf n - Seg.getFreeSizeOfTail s.blocks + (4 - 1)) / 4)
          (by omega) h
        rcases hf2 : Seg.find_fit (extend_heap Seg.insert_node Seg.remove_node s
            ((asizeOf n - Seg.getFreeSizeOfTail s.blocks + (4 - 1)) / 4)).1
            (asizeOf n) with _ | bp2
        · simp only [hf2]
          exact hwf1
        · simp only [hf2]
          exact place_wf _ _ _ _ _ hwf1 ha8 (by omega)
    · rw [if_neg hl, if_neg (by omega)]
      simp only [hf]
      exact h
  · simp only
    exact place_wf _ _ _ _ _ h ha8 (by omega)

lemma get?_eq_getD (bs : List Block) (i : Nat) (h : i < bs.length) :
    bs.get? i = some (bs.getD i dummyBlock) := by
  rw [List.get?_eq_getElem?, List.getElem?_eq_getElem h, List.getD_eq_getElem?_getD,
    List.getElem?_eq_getElem h]
  rfl

lemma blockAt_addrOf (bs : List Block) (hpos : sizesPos bs) (i : Nat)
    (hi : i < bs.length) :
    blockAt bs (addrOf bs i) = some (bs.getD i dummyBlock) := by
  unfold blockAt
  rw [idxOf_addrOf bs hpos i hi, Option.some_bind, get?_eq_getD bs i hi]

lemma sizeAt_addrOf (bs : List Block) (hpos : sizesPos bs) (i : Nat)
    (hi : i < bs.length) :
    sizeAt bs (addrOf bs i) = (bs.getD i dummyBlock).size := by
  unfold sizeAt
  rw [blockAt_addrOf bs hpos i hi]

lemma sizeAt_pos_block (bs : List Block) (a : Nat) (h : 0 < sizeAt bs a) :
    ∃ i, i < bs.length ∧ addrOf bs i = a ∧
      sizeAt bs a = (bs.getD i dummyBlock).size := by
  unfold sizeAt blockAt at h ⊢
  rcases hidx : idxOf bs a with _ | i
  · rw [hidx] at h
    simp at h
  · obtain ⟨hi, ha⟩ := idxOf_some bs a i hidx
    refine ⟨i, hi, ha, ?_⟩
    simp only [Option.some_bind, get?_eq_getD bs i hi]

lemma sizeAt_lt_bound (bs : List Block) (B : Nat) (h : ∀ b ∈ bs, b.size < B)
    (hB : 0 < B) (a : Nat) : sizeAt bs a < B := by
  unfold sizeAt
  rcases hb : blockAt bs a with _ | b
  · exact hB
  · apply h
    unfold blockAt at hb
    rcases hidx : idxOf bs a with _ | i <;> rw [hidx] at hb
    · simp at hb
    · rw [Option.some_bind] at hb
      exact List.get?_mem hb

lemma Exp_find_fit_go_fits (sizeOf : Nat → Nat) (asize : Nat) :
    ∀ (l : List Nat) (best : Option Nat) (bsz m : Nat),
      (∀ b, best = some b → asize ≤ sizeOf b) →
      Exp.find_fit_go sizeOf asize l best bsz = some m → asize ≤ sizeOf m := by
  intro l
  induction l with
  | nil =>
    intro best bsz m hb h
    exact hb m h
  | cons a rest ih =>
    intro best bsz m hb h
    simp only [Exp.find_fit_go] at h
    by_cases ha : sizeOf a ≥ asize
    · rw [if_pos ha] at h
      by_cases h0 : sizeOf a = asize
      · rw [if_pos h0] at h
        exact (Option.some.inj h) ▸ ha
      · rw [if_neg h0] at h
        by_cases hlt : sizeOf a < bsz
        · rw [if_pos hlt] at h
          exact ih _ _ _ (fun b hb2 => (Option.some.inj hb2) ▸ ha) h
        · rw [if_neg hlt] at h
          exact ih _ _ _ hb h
    · rw [if_neg ha] at h
      exact ih _ _ _ hb h

lemma Exp_find_fit_go_mem (sizeOf : Nat → Nat) (asize : Nat) :
    ∀ (l : List Nat) (best : Option Nat) (bsz m : Nat),
      Exp.find_fit_go sizeOf asize l best bsz = some m → m ∈ l ∨ best = some m := by
  intro l
  induction l with
  | nil =>
    intro best bsz m h
    exact Or.inr h
  | cons a rest ih =>
    intro best bsz m h
    simp only [Exp.find_fit_go] at h
    by_cases ha : sizeOf a ≥ asize
    · rw [if_pos ha] at h
      by_cases h0 : sizeOf a = asize
      · rw [if_pos h0] at h
        exact Or.inl ((Option.some.inj h) ▸ List.mem_cons_self a rest)
      · rw [if_neg h0] at h
        by_cases hlt : sizeOf a < bsz
        · rw [if_pos hlt] at h
          rcases ih _ _ _ h with hm | hm
          · exact Or.inl (List.mem_cons_of_mem a hm)
          · exact Or.inl ((Option.some.inj hm) ▸ List.mem_cons_self a rest)
        · rw [if_neg hlt] at h
          rcases ih _ _ _ h with hm | hm
          · exact Or.inl (List.mem_cons_of_mem a hm)
          · exact Or.inr hm
    · rw [if_neg ha] at h
      rcases ih _ _ _ h with hm | hm
      · exact Or.inl (List.mem_cons_of_mem a hm)
      · exact Or.inr hm

lemma Seg_scanBest_fits (sizeOf : Nat → Nat) (asize : Nat) :
    ∀ (l : List Nat) (best : Option Nat) (bsw m : Nat),
      (∀ b, best = some b → asize ≤ sizeOf b) →
      Seg.scanBest sizeOf asize l best bsw = some m → asize ≤ sizeOf m := by
  intro l
  induction l with
  | nil =>
    intro best bsw m hb h
    exact hb m h
  | cons a rest ih =>
    intro best bsw m hb h
    simp only [Seg.scanBest] at h
    by_cases ha : sizeOf a ≥ asize
    · rw [if_pos ha] at h
      by_cases h0 : sizeOf a - asize = 0
      · rw [if_pos h0] at h
        exact (Option.some.inj h) ▸ ha
      · rw [if_neg h0] at h
        by_cases hlt : sizeOf a - asize < bsw
        · rw [if_pos hlt] at h
          exact ih _ _ _ (fun b hb2 => (Option.some.inj hb2) ▸ ha) h
        · rw [if_neg hlt] at h
          exact ih _ _ _ hb h
    · rw [if_neg ha] at h
      exact ih _ _ _ hb h

lemma Seg_scanBest_mem (sizeOf : Nat → Nat) (asize : Nat) :
    ∀ (l : List Nat) (best : Option Nat) (bsw m : Nat),
      Seg.scanBest sizeOf asize l best bsw = some m → m ∈ l ∨ best = some m := by
  intro l
  induction l with
  | nil =>
    intro best bsw m h
    exact Or.inr h
  | cons a rest ih =>
    intro best bsw m h
    simp only [Seg.scanBest] at h
    by_cases ha : sizeOf a ≥ asize
    · rw [if_pos ha] at h
      by_cases h0 : sizeOf a - asize = 0
      · rw [if_pos h0] at h
        exact Or.inl ((Option.some.inj h) ▸ List.mem_cons_self a rest)
      · rw [if_neg h0] at h
        by_cases hlt : sizeOf a - asize < bsw
        · rw [if_pos hlt] at h
          rcases ih _ _ _ h with hm | hm
          · exact Or.inl (List.mem_cons_of_mem a hm)
          · exact Or.inl ((Option.some.inj hm) ▸ List.mem_cons_self a rest)
        · rw [if_neg hlt] at h
          rcases ih _ _ _ h with hm | hm
          · exact Or.inl (List.mem_cons_of_mem a hm)
          · exact Or.inr hm
    · rw [if_neg ha] at h
      rcases ih _ _ _ h with hm | hm
      · exact Or.inl (List.mem_cons_of_mem a hm)
      · exact Or.inr hm

lemma Exp_find_fit_hit (s : Exp.State) (asize bp : Nat)
    (h : Exp.find_fit s asize = some bp) :
    bp ∈ s.index ∧ asize ≤ sizeAt s.blocks bp := by
  unfold Exp.find_fit at h
  constructor
  · rcases Exp_find_fit_go_mem _ _ _ _ _ _ h with hm | hm
    · exact hm
    · exact absurd hm (by simp)
  · exact Exp_find_fit_go_fits _ _ _ _ _ _ (fun b hb => by simp at hb) h

lemma Seg_find_fit_hit (s : Seg.State) (asize bp : Nat)
    (h : Seg.find_fit s asize = some bp) :
    bp ∈ Seg.visited s.index asize ∧ asize ≤ sizeAt s.blocks bp := by
  unfold Seg.find_fit at h
  constructor
  · rcases Seg_scanBest_mem _ _ _ _ _ _ h with hm | hm
    · exact hm
    · exact absurd hm (by simp)
  · exact Seg_scanBest_fits _ _ _ _ _ _ (fun b hb => by simp at hb) h

lemma Seg_find_fit001_hit (s : Seg.State) (asize bp : Nat)
    (h : Seg.find_fit001 s asize = some bp) :
    bp ∈ Seg.visited s.index asize ∧ asize ≤ sizeAt s.blocks bp := by
  unfold Seg.find_fit001 at h
  refine ⟨List.mem_of_find?_eq_some h, ?_⟩
  have := List.find?_some h
  simpa using this

lemma place_post {ι : Type} (ins rem : ι → Nat → Nat → ι) (s : HState ι)
    (i asize : Nat) (hi : i < s.blocks.length) (hwf : wfBlocks s.blocks)
    (hfit : asize ≤ (s.blocks.getD i dummyBlock).size)
    (h8 : 8 ≤ asize) (h8m : asize % 8 = 0) :
    ∃ b, blockAt (place ins rem s (addrOf s.blocks i) asize).blocks
        (addrOf s.blocks i) = some b ∧ b.alloc = true ∧ asize ≤ b.size ∧
        b.data.length + 8 = b.size := by
  have hpos := wfBlocks_sizesPos _ hwf
  obtain ⟨hba, hbb, hbc⟩ := wf_getD _ hwf i hi
  by_cases hs : 24 ≤ (s.blocks.getD i dummyBlock).size - asize
  · rw [place_spec_split ins rem s i asize hi hpos hs]
    set bs := s.blocks with hbs
    set front : Block :=
      ⟨asize, true, (bs.getD i dummyBlock).data.take (asize - 8)⟩ with hfront
    set rest : Block := ⟨(bs.getD i dummyBlock).size - asize, false,
        (bs.getD i dummyBlock).data.drop asize⟩ with hrest
    have hk : i + 1 ≤ bs.length := by omega
    have hwf' : wfBlocks (bs.take i ++ front :: rest :: bs.drop (i + 1)) := by
      refine wfBlocks_cons2_surgery _ _ _ _ _ hwf ⟨?_, ?_, ?_⟩ ⟨?_, ?_, ?_⟩ <;>
        (simp only [hfront, hrest, List.length_take, List.length_drop]
         omega)
    have hpos' := wfBlocks_sizesPos _ hwf'
    have haddr : addrOf (bs.take i ++ front :: rest :: bs.drop (i + 1)) i =
        addrOf bs i :=
      replace_addrOf_left bs i 1 [front, rest] hk i (le_refl _)
    have hlen : (bs.take i ++ front :: rest :: bs.drop (i + 1)).length =
        i + 2 + (bs.length - (i + 1)) :=
      replace_length bs i 1 [front, rest] hk
    have hget : (bs.take i ++ front :: rest :: bs.drop (i + 1)).getD i dummyBlock =
        front := by
      have h' : (bs.take i ++ front :: rest :: bs.drop (i + 1)).getD (i + 0)
          dummyBlock = [front, rest].getD 0 dummyBlock :=
        replace_getD_mid bs i 1 [front, rest] hk 0 (by simp)
      simpa using h'
    refine ⟨front, ?_, rfl, le_refl _, ?_⟩
    · rw [← haddr, blockAt_addrOf _ hpos' i (by omega), hget]
    · simp only [hfront, List.length_take]
      omega
  · rw [place_spec_whole ins rem s i asize hi hpos hs]
    set bs := s.blocks with hbs
    set w : Block :=
      ⟨(bs.getD i dummyBlock).size, true, (bs.getD i dummyBlock).data⟩ with hw
    have hpos' : sizesPos (bs.set i w) :=
      sizesPos_set bs i w hpos (by rw [hw]; dsimp only; omega)
    have haddr : addrOf (bs.set i w) i = addrOf bs i :=
      addrOf_eq_of_map_size _ _ (map_size_set_of_eq bs i w (by rw [hw])) i
    refine ⟨w, ?_, rfl, hfit, hbc⟩
    rw [← haddr, blockAt_addrOf _ hpos' i (by simpa using hi),
      getD_set_self bs i w hi]

lemma extend_heap_post {ι : Type} (ins rem : ι → Nat → Nat → ι) (s : HState ι)
    (words a2 : Nat) (hwf : wfBlocks s.blocks) (hw : 0 < words)
    (hsucc : (extend_heap ins rem s words).2 = some a2) :
    ∃ j, j < (extend_heap ins rem s words).1.blocks.length ∧
      addrOf (extend_heap ins rem s words).1.blocks j = a2 ∧
      ((extend_heap ins rem s words).1.blocks.getD j dummyBlock).alloc = false ∧
      extendBytes words ≤
        ((extend_heap ins rem s words).1.blocks.getD j dummyBlock).size := by
  have hpos := wfBlocks_sizesPos _ hwf
  by_cases hm : extendBytes words ≤ s.mem
  · set nb : Block :=
      ⟨extendBytes words, false, List.replicate (extendBytes words - 8) 0⟩ with hnb
    rw [extend_heap_spec ins rem s words nb hnb hm] at hsucc ⊢
    rw [show (s.blocks ++ [nb]).length - 1 = s.blocks.length by simp] at hsucc ⊢
    set s1 : HState ι := ⟨s.blocks ++ [nb], s.index, s.mem - extendBytes words⟩
      with hs1
    rw [show s.blocks ++ [nb] = s1.blocks from rfl] at hsucc ⊢
    have hlen1 : s1.blocks.length = s.blocks.length + 1 := by
      rw [hs1]
      simp
    have hi : s.blocks.length < s1.blocks.length := by omega
    have hpos1 : sizesPos s1.blocks := by
      intro b hb
      rw [hs1] at hb
      simp only [List.mem_append, List.mem_singleton] at hb
      rcases hb with hb | rfl
      · exact hpos b hb
      · rw [hnb]
        dsimp only
        have := extendBytes_ge8 words hw
        omega
    have hgetnb : s1.blocks.getD s.blocks.length dummyBlock = nb := getD_append_nb _ _
    set i := s.blocks.length with hidef
    have hN : ¬(i + 1 < s1.blocks.length ∧
        (s1.blocks.getD (i + 1) dummyBlock).alloc = false) := by
      intro hc
      omega
    by_cases hP : 0 < i ∧ (s1.blocks.getD (i - 1) dummyBlock).alloc = false
    · rw [coalesce_spec_prev ins rem s1 i hi hpos1 hP hN] at hsucc ⊢
      simp only at hsucc
      replace hsucc := Option.some.inj hsucc
      set m : Block :=
        ⟨(s1.blocks.getD (i - 1) dummyBlock).size + (s1.blocks.getD i dummyBlock).size,
          false,
          (s1.blocks.getD (i - 1) dummyBlock).data ++
            wbytes (s1.blocks.getD (i - 1) dummyBlock).size ++
            wbytes (s1.blocks.getD i dummyBlock).size ++
            (s1.blocks.getD i dummyBlock).data⟩ with hm2
      have hk : i - 1 + 2 ≤ s1.blocks.length := by omega
      have hlen' : (s1.blocks.take (i - 1) ++ m :: s1.blocks.drop (i + 1)).length =
          i - 1 + 1 + (s1.blocks.length - (i + 1)) := by
        have h'' := replace_length s1.blocks (i - 1) 2 [m] hk
        rw [show i - 1 + 2 = i + 1 by omega] at h''
        exact h''
      have haddr' : addrOf (s1.blocks.take (i - 1) ++ m :: s1.blocks.drop (i + 1))
          (i - 1) = addrOf s1.blocks (i - 1) := by
        have h'' := replace_addrOf_left s1.blocks (i - 1) 2 [m] hk (i - 1) (le_refl _)
        rw [show i - 1 + 2 = i + 1 by omega] at h''
        exact h''
      have hget' : (s1.blocks.take (i - 1) ++ m :: s1.blocks.drop (i + 1)).getD
          (i - 1) dummyBlock = m := by
        have h'' : (s1.blocks.take (i - 1) ++
            ([m] ++ s1.blocks.drop (i - 1 + 2))).getD (i - 1 + 0) dummyBlock =
            [m].getD 0 dummyBlock :=
          replace_getD_mid s1.blocks (i - 1) 2 [m] hk 0 (by simp)
        rw [show i - 1 + 2 = i + 1 by omega] at h''
        simpa using h''
      refine ⟨i - 1, ?_, ?_, ?_, ?_⟩
      · simp only
        rw [hlen']
        omega
      · simp only
        rw [haddr']
        exact hsucc
      · simp only
        rw [hget']
      · simp only
        rw [hget', hm2]
        dsimp only
        rw [hgetnb, hnb]
        dsimp only
        omega
    · rw [coalesce_spec_nn ins rem s1 i hi hpos1 hP hN] at hsucc ⊢
      simp only at hsucc
      replace hsucc := Option.some.inj hsucc
      refine ⟨i, by simp only; exact hi, by simp only; exact hsucc, ?_, ?_⟩
      · simp only
        rw [hgetnb, hnb]
      · simp only
        rw [hgetnb, hnb]
  · rw [extend_heap_fail ins rem s words (by omega)] at hsucc
    simp at hsucc

lemma place_post_at {ι : Type} (ins rem : ι → Nat → Nat → ι) (s : HState ι)
    (bp asize : Nat) (hwf : wfBlocks s.blocks)
    (hfit : asize ≤ sizeAt s.blocks bp) (h8 : 8 ≤ asize) (h8m : asize % 8 = 0) :
    bp % 8 = 0 ∧
    ∃ b, blockAt (place ins rem s bp asize).blocks bp = some b ∧
      b.alloc = true ∧ asize ≤ b.size ∧ b.data.length + 8 = b.size := by
  have hp : 0 < sizeAt s.blocks bp := by omega
  obtain ⟨i, hi, ha, hsz⟩ := sizeAt_pos_block s.blocks bp hp
  rw [hsz] at hfit
  rw [← ha]
  refine ⟨addrOf_mod8 _ (fun b hb => (hwf b hb).1) i, ?_⟩
  exact place_post ins rem s i asize hi hwf hfit h8 h8m

lemma extendBytes_exact (E : Nat) (h : E % 8 = 0) : extendBytes (E / 4) = E := by
  unfold extendBytes
  split_ifs with h2 <;> omega

lemma Exp_mm_malloc_post (s : Exp.State) (n bp : Nat) (hwf : wfBlocks s.blocks)
    (hn : n ≠ 0) (hbn : n + 15 < 2 ^ 64) (hr : (Exp.mm_malloc s n).2 = some bp) :
    bp % 8 = 0 ∧
    ∃ b, blockAt (Exp.mm_malloc s n).1.blocks bp = some b ∧ b.alloc = true ∧
      n ≤ b.data.length := by
  have hage2 := (asizeOf_ge n hbn).2
  have hage := asizeOf_ge24 n
  have ha8 := asizeOf_mod8 n
  simp only [Exp.mm_malloc] at hr ⊢
  rw [if_neg hn] at hr ⊢
  rcases hf : Exp.find_fit s (asizeOf n) with _ | bp0
  · simp only [hf] at hr ⊢
    rcases he : (extend_heap Exp.insert_node Exp.remove_node s
        (max (asizeOf n) 4096 / 4)).2 with _ | bp2
    · simp only [he] at hr
      exact absurd hr (by simp)
    · simp only [he] at hr ⊢
      obtain rfl := Option.some.inj hr
      have hwf1 : wfBlocks (extend_heap Exp.insert_node Exp.remove_node s
          (max (asizeOf n) 4096 / 4)).1.blocks :=
        extend_heap_wf _ _ _ _ (by omega) hwf
      obtain ⟨j, hj, haj, _, hjsz⟩ :=
        extend_heap_post Exp.insert_node Exp.remove_node s _ bp2 hwf (by omega) he
      have hEB : extendBytes (max (asizeOf n) 4096 / 4) = max (asizeOf n) 4096 :=
        extendBytes_exact _ (by omega)
      have hfit : asizeOf n ≤ sizeAt (extend_heap Exp.insert_node Exp.remove_node s
          (max (asizeOf n) 4096 / 4)).1.blocks bp2 := by
        rw [← haj, sizeAt_addrOf _ (wfBlocks_sizesPos _ hwf1) j hj]
        omega
      obtain ⟨hmod, b, hb, hal, hsz, hdl⟩ :=
        place_post_at Exp.insert_node Exp.remove_node _ bp2 (asizeOf n) hwf1 hfit
          (by omega) ha8
      exact ⟨hmod, b, hb, hal, by omega⟩
  · simp only [hf] at hr ⊢
    obtain rfl := Option.some.inj hr
    have hfit := (Exp_find_fit_hit s _ _ hf).2
    obtain ⟨hmod, b, hb, hal, hsz, hdl⟩ :=
      place_post_at Exp.insert_node Exp.remove_node s bp0 (asizeOf n) hwf hfit
        (by omega) ha8
    exact ⟨hmod, b, hb, hal, by omega⟩

lemma Seg_mm_malloc001_post (t : Seg.State) (n bq : Nat) (hwf : wfBlocks t.blocks)
    (hn : n ≠ 0) (hbn : n + 15 < 2 ^ 64) (hr : (Seg.mm_malloc001 t n).2 = some bq) :
    bq % 8 = 0 ∧
    ∃ b, blockAt (Seg.mm_malloc001 t n).1.blocks bq = some b ∧ b.alloc = true ∧
      n ≤ b.data.length := by
  have hage2 := (asizeOf_ge n hbn).2
  have hage := asizeOf_ge24 n
  have ha8 := asizeOf_mod8 n
  simp only [Seg.mm_malloc001] at hr ⊢
  rw [if_neg hn] at hr ⊢
  rcases hf : Seg.find_fit001 t (asizeOf n) with _ | bp0
  · simp only [hf] at hr ⊢
    by_cases hl : asizeOf n > Seg.getFreeSizeOfTail t.blocks
    · rw [if_pos hl, if_pos (by omega)] at hr ⊢
      rcases he : (extend_heap Seg.insert_node Seg.remove_node t
          ((asizeOf n - Seg.getFreeSizeOfTail t.blocks + (4 - 1)) / 4)).2
          with _ | bp2
      · simp only [he] at hr
        exact absurd hr (by simp)
      · simp only [he] at hr ⊢
        rcases hf2 : Seg.find_fit001 (extend_heap Seg.insert_node Seg.remove_node t
            ((asizeOf n - Seg.getFreeSizeOfTail t.blocks + (4 - 1)) / 4)).1
            (asizeOf n) with _ | bp3
        · simp only [hf2] at hr
          exact absurd hr (by simp)
        · simp only [hf2] at hr ⊢
          obtain rfl := Option.some.inj hr
          have hwf1 : wfBlocks (extend_heap Seg.insert_node Seg.remove_node t
              ((asizeOf n - Seg.getFreeSizeOfTail t.blocks + (4 - 1)) / 4)).1.blocks :=
            extend_heap_wf _ _ _ _ (by omega) hwf
          have hfit := (Seg_find_fit001_hit _ _ _ hf2).2
          obtain ⟨hmod, b, hb, hal, hsz, hdl⟩ :=
            place_post_at Seg.insert_node Seg.remove_node _ bp3 (asizeOf n) hwf1
              hfit (by omega) ha8
          exact ⟨hmod, b, hb, hal, by omega⟩
    · rw [if_neg hl, if_neg (by omega)] at hr
      simp only [hf] at hr
      exact absurd hr (by simp)
  · simp only [hf] at hr ⊢
    obtain rfl := Option.some.inj hr
    have hfit := (Seg_find_fit001_hit t _ _ hf).2
    obtain ⟨hmod, b, hb, hal, hsz, hdl⟩ :=
      place_post_at Seg.insert_node Seg.remove_node t bp0 (asizeOf n) hwf hfit
        (by omega) ha8
    exact ⟨hmod, b, hb, hal, by omega⟩
/-- `part_000` analogue of `Seg_mm_malloc001_post`: the best-fit
`mm_malloc` also returns an aligned allocated block with enough payload. -/
lemma Seg_mm_malloc_post (t : Seg.State) (n bq : Nat) (hwf : wfBlocks t.blocks)
    (hn : n ≠ 0) (hbn : n + 15 < 2 ^ 64) (hr : (Seg.mm_malloc t n).2 = some bq) :
    bq % 8 = 0 ∧
    ∃ b, blockAt (Seg.mm_malloc t n).1.blocks bq = some b ∧ b.alloc = true ∧
      n ≤ b.data.length := by
  have hage2 := (asizeOf_ge n hbn).2
  have hage := asizeOf_ge24 n
  have ha8 := asizeOf_mod8 n
  simp only [Seg.mm_malloc] at hr ⊢
  rw [if_neg hn] at hr ⊢
  rcases hf : Seg.find_fit t (asizeOf n) with _ | bp0
  · simp only [hf] at hr ⊢
    by_cases hl : asizeOf n > Seg.getFreeSizeOfTail t.blocks
    · rw [if_pos hl, if_pos (by omega)] at hr ⊢
      rcases he : (extend_heap Seg.insert_node Seg.remove_node t
          ((asizeOf n - Seg.getFreeSizeOfTail t.blocks + (4 - 1)) / 4)).2
          with _ | bp2
      · simp only [he] at hr
        exact absurd hr (by simp)
      · simp only [he] at hr ⊢
        rcases hf2 : Seg.find_fit (extend_heap Seg.insert_node Seg.remove_node t
            ((asizeOf n - Seg.getFreeSizeOfTail t.blocks + (4 - 1)) / 4)).1
            (asizeOf n) with _ | bp3
        · simp only [hf2] at hr
          exact absurd hr (by simp)
        · simp only [hf2] at hr ⊢
          obtain rfl := Option.some.inj hr
          have hwf1 : wfBlocks (extend_heap Seg.insert_node Seg.remove_node t
              ((asizeOf n - Seg.getFreeSizeOfTail t.blocks + (4 - 1)) / 4)).1.blocks :=
            extend_heap_wf _ _ _ _ (by omega) hwf
          have hfit := (Seg_find_fit_hit _ _ _ hf2).2
          obtain ⟨hmod, b, hb, hal, hsz, hdl⟩ :=
            place_post_at Seg.insert_node Seg.remove_node _ bp3 (asizeOf n) hwf1
              hfit (by omega) ha8
          exact ⟨hmod, b, hb, hal, by omega⟩
    · rw [if_neg hl, if_neg (by omega)] at hr
      simp only [hf] at hr
      exact absurd hr (by simp)
  · simp only [hf] at hr ⊢
    obtain rfl := Option.some.inj hr
    have hfit := (Seg_find_fit_hit t _ _ hf).2
    obtain ⟨hmod, b, hb, hal, hsz, hdl⟩ :=
      place_post_at Seg.insert_node Seg.remove_node t bp0 (asizeOf n) hwf hfit
        (by omega) ha8
    exact ⟨hmod, b, hb, hal, by omega⟩


/-- C2 (amended): for every `allocate(n)` with `n > 0` whose adjusted-size
computation does not overflow `size_t` (`n + 15 < 2^64`), on a structurally
well-formed heap a non-null returned payload address is 8-aligned, and the
returned block is allocated with a usable payload region of at least `n`
bytes.  Stated for the explicit variant (`mm.c` `mm_malloc`) and the
segregated first-fit variant (`part_001` `mm_malloc`).  Without the bound
the property fails: at `n = 2^64 - 1` the code's `size + DSIZE + (DSIZE-1)`
wraps, the adjusted size collapses to 24, and the allocator hands out an
undersized block (`C2_counterexample`). -/
theorem C2_allocate_aligned_payload (s : Exp.State) (t : Seg.State)
    (n bp bq : Nat) (hn : 0 < n) (hb : n + 15 < 2 ^ 64)
    (hs : wfBlocks s.blocks) (ht : wfBlocks t.blocks) :
    ((Exp.mm_malloc s n).2 = some bp → bp % 8 = 0 ∧
      ∃ b, blockAt (Exp.mm_malloc s n).1.blocks bp = some b ∧ b.alloc = true ∧
        n ≤ b.data.length) ∧
    ((Seg.mm_malloc001 t n).2 = some bq → bq % 8 = 0 ∧
      ∃ b, blockAt (Seg.mm_malloc001 t n).1.blocks bq = some b ∧ b.alloc = true ∧
        n ≤ b.data.length) :=
  ⟨fun h => Exp_mm_malloc_post s n bp hs (by omega) hb h,
   fun h => Seg_mm_malloc001_post t n bq ht (by omega) hb h⟩

/-- Witness for C2 at concrete inputs: a heap with one free 32-byte block
satisfies a 24-byte request exactly, in both variants. -/
theorem C2_witness :
    (16 % 8 = 0 ∧
      ∃ b, blockAt (Exp.mm_malloc ⟨[⟨32, false, List.replicate 24 0⟩], [16], 0⟩
          24).1.blocks 16 = some b ∧ b.alloc = true ∧ 24 ≤ b.data.length) ∧
    (16 % 8 = 0 ∧
      ∃ b, blockAt (Seg.mm_malloc001 ⟨[⟨32, false, List.replicate 24 0⟩],
          fun g => if g = 0 then [16] else [], 0⟩ 24).1.blocks 16 = some b ∧
        b.alloc = true ∧ 24 ≤ b.data.length) :=
  ⟨(C2_allocate_aligned_payload ⟨[⟨32, false, List.replicate 24 0⟩], [16], 0⟩
      ⟨[⟨32, false, List.replicate 24 0⟩], fun g => if g = 0 then [16] else [], 0⟩
      24 16 16 (by decide) (by decide) (by unfold wfBlocks; decide)
      (by unfold wfBlocks; decide)).1 (by decide),
   (C2_allocate_aligned_payload ⟨[⟨32, false, List.replicate 24 0⟩], [16], 0⟩
      ⟨[⟨32, false, List.replicate 24 0⟩], fun g => if g = 0 then [16] else [], 0⟩
      24 16 16 (by decide) (by decide) (by unfold wfBlocks; decide)
      (by unfold wfBlocks; decide)).2 (by decide)⟩

/-- Counterexample to the unamended C2: at `n = 2^64 - 1` the code's
`size + DSIZE + (DSIZE - 1)` wraps in `size_t`, the adjusted size
collapses to 24, and on a well-formed heap with one free 32-byte block
`mm_malloc` returns the non-null address 16 of an allocated block whose
payload is only 24 bytes — far fewer than the requested `n`. -/
theorem C2_counterexample :
    0 < 2 ^ 64 - 1 ∧ wfBlocks exampleExpHuge.blocks ∧
    (Exp.mm_malloc exampleExpHuge (2 ^ 64 - 1)).2 = some 16 ∧
    blockAt (Exp.mm_malloc exampleExpHuge (2 ^ 64 - 1)).1.blocks 16 =
      some ⟨32, true, List.replicate 24 0⟩ ∧
    ¬ 2 ^ 64 - 1 ≤ (List.replicate 24 (0 : Nat)).length :=
  ⟨by decide, by unfold wfBlocks; decide, by decide, by decide, by decide⟩

lemma Seg_scanBest_some_ne_none (sizeOf : Nat → Nat) (asize : Nat) :
    ∀ (l : List Nat) (b bsw : Nat),
      Seg.scanBest sizeOf asize l (some b) bsw ≠ none := by
  intro l
  induction l with
  | nil =>
    intro b bsw h
    simp [Seg.scanBest] at h
  | cons a rest ih =>
    intro b bsw h
    simp only [Seg.scanBest] at h
    by_cases ha : sizeOf a ≥ asize
    · rw [if_pos ha] at h
      by_cases h0 : sizeOf a - asize = 0
      · rw [if_pos h0] at h
        simp at h
      · rw [if_neg h0] at h
        by_cases hlt : sizeOf a - asize < bsw
        · rw [if_pos hlt] at h
          exact ih _ _ h
        · rw [if_neg hlt] at h
          exact ih _ _ h
    · rw [if_neg ha] at h
      exact ih _ _ h

lemma Seg_scanBest_none_unfit (sizeOf : Nat → Nat) (asize : Nat) :
    ∀ (l : List Nat) (bsw : Nat),
      Seg.scanBest sizeOf asize l none bsw = none →
      ∀ a ∈ l, ¬(asize ≤ sizeOf a ∧ sizeOf a - asize < bsw) := by
  intro l
  induction l with
  | nil =>
    intro bsw h a ha
    simp at ha
  | cons x rest ih =>
    intro bsw h a ha
    simp only [Seg.scanBest] at h
    by_cases hx : sizeOf x ≥ asize
    · rw [if_pos hx] at h
      by_cases h0 : sizeOf x - asize = 0
      · rw [if_pos h0] at h
        simp at h
      · rw [if_neg h0] at h
        by_cases hlt : sizeOf x - asize < bsw
        · rw [if_pos hlt] at h
          exact absurd h (Seg_scanBest_some_ne_none sizeOf asize rest x _)
        · rw [if_neg hlt] at h
          rcases List.mem_cons.mp ha with rfl | ha'
          · intro hc
            exact hlt hc.2
          · exact ih _ h a ha'
    · rw [if_neg hx] at h
      rcases List.mem_cons.mp ha with rfl | ha'
      · intro hc
        exact hx hc.1
      · exact ih _ h a ha'

lemma Seg_scanBest_exact (sizeOf : Nat → Nat) (asize : Nat) :
    ∀ (l : List Nat) (best : Option Nat) (bsw : Nat),
      (∃ a ∈ l, sizeOf a = asize) →
      Seg.scanBest sizeOf asize l best bsw ≠ none := by
  intro l
  induction l with
  | nil =>
    intro best bsw hex
    simp at hex
  | cons x rest ih =>
    intro best bsw hex h
    simp only [Seg.scanBest] at h
    by_cases hx : sizeOf x ≥ asize
    · rw [if_pos hx] at h
      by_cases h0 : sizeOf x - asize = 0
      · rw [if_pos h0] at h
        simp at h
      · rw [if_neg h0] at h
        obtain ⟨a, ha, hae⟩ := hex
        rcases List.mem_cons.mp ha with rfl | ha'
        · omega
        · by_cases hlt : sizeOf x - asize < bsw
          · rw [if_pos hlt] at h
            exact ih _ _ ⟨a, ha', hae⟩ h
          · rw [if_neg hlt] at h
            exact ih _ _ ⟨a, ha', hae⟩ h
    · rw [if_neg hx] at h
      obtain ⟨a, ha, hae⟩ := hex
      rcases List.mem_cons.mp ha with rfl | ha'
      · omega
      · exact ih _ _ ⟨a, ha', hae⟩ h

lemma size_to_group_mono (a b : Nat) (h : a ≤ b) :
    Seg.size_to_group a ≤ Seg.size_to_group b := by
  unfold Seg.size_to_group
  by_cases hb0 : b ≤ 32
  · rw [if_pos hb0]
    rw [if_pos (show a ≤ 32 by omega)]
  · rw [if_neg hb0]
    by_cases hb1 : b ≤ 48
    · rw [if_pos hb1]
      by_cases ha0 : a ≤ 32
      · rw [if_pos ha0]
        decide
      · rw [if_neg ha0]
        rw [if_pos (show a ≤ 48 by omega)]
    · rw [if_neg hb1]
      by_cases hb2 : b ≤ 64
      · rw [if_pos hb2]
        by_cases ha0 : a ≤ 32
        · rw [if_pos ha0]
          decide
        · rw [if_neg ha0]
          by_cases ha1 : a ≤ 48
          · rw [if_pos ha1]
            decide
          · rw [if_neg ha1]
            rw [if_pos (show a ≤ 64 by omega)]
      · rw [if_neg hb2]
        by_cases hb3 : b ≤ 96
        · rw [if_pos hb3]
          by_cases ha0 : a ≤ 32
          · rw [if_pos ha0]
            decide
          · rw [if_neg ha0]
            by_cases ha1 : a ≤ 48
            · rw [if_pos ha1]
              decide
            · rw [if_neg ha1]
              by_cases ha2 : a ≤ 64
              · rw [if_pos ha2]
                decide
              · rw [if_neg ha2]
                rw [if_pos (show a ≤ 96 by omega)]
        · rw [if_neg hb3]
          by_cases hb4 : b ≤ 128
          · rw [if_pos hb4]
            by_cases ha0 : a ≤ 32
            · rw [if_pos ha0]
              decide
            · rw [if_neg ha0]
              by_cases ha1 : a ≤ 48
              · rw [if_pos ha1]
                decide
              · rw [if_neg ha1]
                by_cases ha2 : a ≤ 64
                · rw [if_pos ha2]
                  decide
                · rw [if_neg ha2]
                  by_cases ha3 : a ≤ 96
                  · rw [if_pos ha3]
                    decide
                  · rw [if_neg ha3]
                    rw [if_pos (show a ≤ 128 by omega)]
          · rw [if_neg hb4]
            by_cases hb5 : b ≤ 192
            · rw [if_pos hb5]
              by_cases ha0 : a ≤ 32
              · rw [if_pos ha0]
                decide
              · rw [if_neg ha0]
                by_cases ha1 : a ≤ 48
                · rw [if_pos ha1]
                  decide
                · rw [if_neg ha1]
                  by_cases ha2 : a ≤ 64
                  · rw [if_pos ha2]
                    decide
                  · rw [if_neg ha2]
                    by_cases ha3 : a ≤ 96
                    · rw [if_pos ha3]
                      decide
                    · rw [if_neg ha3]
                      by_cases ha4 : a ≤ 128
                      · rw [if_pos ha4]
                        decide
                      · rw [if_neg ha4]
                        rw [if_pos (show a ≤ 192 by omega)]
            · rw [if_neg hb5]
              by_cases hb6 : b ≤ 256
              · rw [if_pos hb6]
                by_cases ha0 : a ≤ 32
                · rw [if_pos ha0]
                  decide
                · rw [if_neg ha0]
                  by_cases ha1 : a ≤ 48
                  · rw [if_pos ha1]
                    decide
                  · rw [if_neg ha1]
                    by_cases ha2 : a ≤ 64
                    · rw [if_pos ha2]
                      decide
                    · rw [if_neg ha2]
                      by_cases ha3 : a ≤ 96
                      · rw [if_pos ha3]
                        decide
                      · rw [if_neg ha3]
                        by_cases ha4 : a ≤ 128
                        · rw [if_pos ha4]
                          decide
                        · rw [if_neg ha4]
                          by_cases ha5 : a ≤ 192
                          · rw [if_pos ha5]
                            decide
                          · rw [if_neg ha5]
                            rw [if_pos (show a ≤ 256 by omega)]
              · rw [if_neg hb6]
                by_cases hb7 : b ≤ 384
                · rw [if_pos hb7]
                  by_cases ha0 : a ≤ 32
                  · rw [if_pos ha0]
                    decide
                  · rw [if_neg ha0]
                    by_cases ha1 : a ≤ 48
                    · rw [if_pos ha1]
                      decide
                    · rw [if_neg ha1]
                      by_cases ha2 : a ≤ 64
                      · rw [if_pos ha2]
                        decide
                      · rw [if_neg ha2]
                        by_cases ha3 : a ≤ 96
                        · rw [if_pos ha3]
                          decide
                        · rw [if_neg ha3]
                          by_cases ha4 : a ≤ 128
                          · rw [if_pos ha4]
                            decide
                          · rw [if_neg ha4]
                            by_cases ha5 : a ≤ 192
                            · rw [if_pos ha5]
                              decide
                            · rw [if_neg ha5]
                              by_cases ha6 : a ≤ 256
                              · rw [if_pos ha6]
                                decide
                              · rw [if_neg ha6]
                                rw [if_pos (show a ≤ 384 by omega)]
                · rw [if_neg hb7]
                  by_cases hb8 : b ≤ 512
                  · rw [if_pos hb8]
                    by_cases ha0 : a ≤ 32
                    · rw [if_pos ha0]
                      decide
                    · rw [if_neg ha0]
                      by_cases ha1 : a ≤ 48
                      · rw [if_pos ha1]
                        decide
                      · rw [if_neg ha1]
                        by_cases ha2 : a ≤ 64
                        · rw [if_pos ha2]
                          decide
                        · rw [if_neg ha2]
                          by_cases ha3 : a ≤ 96
                          · rw [if_pos ha3]
                            decide
                          · rw [if_neg ha3]
                            by_cases ha4 : a ≤ 128
                            · rw [if_pos ha4]
                              decide
                            · rw [if_neg ha4]
                              by_cases ha5 : a ≤ 192
                              · rw [if_pos ha5]
                                decide
                              · rw [if_neg ha5]
                                by_cases ha6 : a ≤ 256
                                · rw [if_pos ha6]
                                  decide
                                · rw [if_neg ha6]
                                  by_cases ha7 : a ≤ 384
                                  · rw [if_pos ha7]
                                    decide
                                  · rw [if_neg ha7]
                                    rw [if_pos (show a ≤ 512 by omega)]
                  · rw [if_neg hb8]
                    by_cases hb9 : b ≤ 768
                    · rw [if_pos hb9]
                      by_cases ha0 : a ≤ 32
                      · rw [if_pos ha0]
                        decide
                      · rw [if_neg ha0]
                        by_cases ha1 : a ≤ 48
                        · rw [if_pos ha1]
                          decide
                        · rw [if_neg ha1]
                          by_cases ha2 : a ≤ 64
                          · rw [if_pos ha2]
                            decide
                          · rw [if_neg ha2]
                            by_cases ha3 : a ≤ 96
                            · rw [if_pos ha3]
                              decide
                            · rw [if_neg ha3]
                              by_cases ha4 : a ≤ 128
                              · rw [if_pos ha4]
                                decide
                              · rw [if_neg ha4]
                                by_cases ha5 : a ≤ 192
                                · rw [if_pos ha5]
                                  decide
                                · rw [if_neg ha5]
                                  by_cases ha6 : a ≤ 256
                                  · rw [if_pos ha6]
                                    decide
                                  · rw [if_neg ha6]
                                    by_cases ha7 : a ≤ 384
                                    · rw [if_pos ha7]
                                      decide
                                    · rw [if_neg ha7]
                                      by_cases ha8 : a ≤ 512
                                      · rw [if_pos ha8]
                                        decide
                                      · rw [if_neg ha8]
                                        rw [if_pos (show a ≤ 768 by omega)]
                    · rw [if_neg hb9]
                      by_cases hb10 : b ≤ 1024
                      · rw [if_pos hb10]
                        by_cases ha0 : a ≤ 32
                        · rw [if_pos ha0]
                          decide
                        · rw [if_neg ha0]
                          by_cases ha1 : a ≤ 48
                          · rw [if_pos ha1]
                            decide
                          · rw [if_neg ha1]
                            by_cases ha2 : a ≤ 64
                            · rw [if_pos ha2]
                              decide
                            · rw [if_neg ha2]
                              by_cases ha3 : a ≤ 96
                              · rw [if_pos ha3]
                                decide
                              · rw [if_neg ha3]
                                by_cases ha4 : a ≤ 128
                                · rw [if_pos ha4]
                                  decide
                                · rw [if_neg ha4]
                                  by_cases ha5 : a ≤ 192
                                  · rw [if_pos ha5]
                                    decide
                                  · rw [if_neg ha5]
                                    by_cases ha6 : a ≤ 256
                                    · rw [if_pos ha6]
                                      decide
                                    · rw [if_neg ha6]
                                      by_cases ha7 : a ≤ 384
                                      · rw [if_pos ha7]
                                        decide
                                      · rw [if_neg ha7]
                                        by_cases ha8 : a ≤ 512
                                        · rw [if_pos ha8]
                                          decide
                                        · rw [if_neg ha8]
                                          by_cases ha9 : a ≤ 768
                                          · rw [if_pos ha9]
                                            decide
                                          · rw [if_neg ha9]
                                            rw [if_pos (show a ≤ 1024 by omega)]
                      · rw [if_neg hb10]
                        by_cases hb11 : b ≤ 1536
                        · rw [if_pos hb11]
                          by_cases ha0 : a ≤ 32
                          · rw [if_pos ha0]
                            decide
                          · rw [if_neg ha0]
                            by_cases ha1 : a ≤ 48
                            · rw [if_pos ha1]
                              decide
                            · rw [if_neg ha1]
                              by_cases ha2 : a ≤ 64
                              · rw [if_pos ha2]
                                decide
                              · rw [if_neg ha2]
                                by_cases ha3 : a ≤ 96
                                · rw [if_pos ha3]
                                  decide
                                · rw [if_neg ha3]
                                  by_cases ha4 : a ≤ 128
                                  · rw [if_pos ha4]
                                    decide
                                  · rw [if_neg ha4]
                                    by_cases ha5 : a ≤ 192
                                    · rw [if_pos ha5]
                                      decide
                                    · rw [if_neg ha5]
                                      by_cases ha6 : a ≤ 256
                                      · rw [if_pos ha6]
                                        decide
                                      · rw [if_neg ha6]
                                        by_cases ha7 : a ≤ 384
                                        · rw [if_pos ha7]
                                          decide
                                        · rw [if_neg ha7]
                                          by_cases ha8 : a ≤ 512
                                          · rw [if_pos ha8]
                                            decide
                                          · rw [if_neg ha8]
                                            by_cases ha9 : a ≤ 768
                                            · rw [if_pos ha9]
                                              decide
                                            · rw [if_neg ha9]
                                              by_cases ha10 : a ≤ 1024
                                              · rw [if_pos ha10]
                                                decide
                                              · rw [if_neg ha10]
                                                rw [if_pos (show a ≤ 1536 by omega)]
                        · rw [if_neg hb11]
                          by_cases hb12 : b ≤ 2048
                          · rw [if_pos hb12]
                            by_cases ha0 : a ≤ 32
                            · rw [if_pos ha0]
                              decide
                            · rw [if_neg ha0]
                              by_cases ha1 : a ≤ 48
                              · rw [if_pos ha1]
                                decide
                              · rw [if_neg ha1]
                                by_cases ha2 : a ≤ 64
                                · rw [if_pos ha2]
                                  decide
                                · rw [if_neg ha2]
                                  by_cases ha3 : a ≤ 96
                                  · rw [if_pos ha3]
                                    decide
                                  · rw [if_neg ha3]
                                    by_cases ha4 : a ≤ 128
                                    · rw [if_pos ha4]
                                      decide
                                    · rw [if_neg ha4]
                                      by_cases ha5 : a ≤ 192
                                      · rw [if_pos ha5]
                                        decide
                                      · rw [if_neg ha5]
                                        by_cases ha6 : a ≤ 256
                                        · rw [if_pos ha6]
                                          decide
                                        · rw [if_neg ha6]
                                          by_cases ha7 : a ≤ 384
                                          · rw [if_pos ha7]
                                            decide
                                          · rw [if_neg ha7]
                                            by_cases ha8 : a ≤ 512
                                            · rw [if_pos ha8]
                                              decide
                                            · rw [if_neg ha8]
                                              by_cases ha9 : a ≤ 768
                                              · rw [if_pos ha9]
                                                decide
                                              · rw [if_neg ha9]
                                                by_cases ha10 : a ≤ 1024
                                                · rw [if_pos ha10]
                                                  decide
                                                · rw [if_neg ha10]
                                                  by_cases ha11 : a ≤ 1536
                                                  · rw [if_pos ha11]
                                                    decide
                                                  · rw [if_neg ha11]
                                                    rw [if_pos (show a ≤ 2048 by omega)]
                          · rw [if_neg hb12]
                            by_cases hb13 : b ≤ 4096
                            · rw [if_pos hb13]
                              by_cases ha0 : a ≤ 32
                              · rw [if_pos ha0]
                                decide
                              · rw [if_neg ha0]
                                by_cases ha1 : a ≤ 48
                                · rw [if_pos ha1]
                                  decide
                                · rw [if_neg ha1]
                                  by_cases ha2 : a ≤ 64
                                  · rw [if_pos ha2]
                                    decide
                                  · rw [if_neg ha2]
                                    by_cases ha3 : a ≤ 96
                                    · rw [if_pos ha3]
                                      decide
                                    · rw [if_neg ha3]
                                      by_cases ha4 : a ≤ 128
                                      · rw [if_pos ha4]
                                        decide
                                      · rw [if_neg ha4]
                                        by_cases ha5 : a ≤ 192
                                        · rw [if_pos ha5]
                                          decide
                                        · rw [if_neg ha5]
                                          by_cases ha6 : a ≤ 256
                                          · rw [if_pos ha6]
                                            decide
                                          · rw [if_neg ha6]
                                            by_cases ha7 : a ≤ 384
                                            · rw [if_pos ha7]
                                              decide
                                            · rw [if_neg ha7]
                                              by_cases ha8 : a ≤ 512
                                              · rw [if_pos ha8]
                                                decide
                                              · rw [if_neg ha8]
                                                by_cases ha9 : a ≤ 768
                                                · rw [if_pos ha9]
                                                  decide
                                                · rw [if_neg ha9]
                                                  by_cases ha10 : a ≤ 1024
                                                  · rw [if_pos ha10]
                                                    decide
                                                  · rw [if_neg ha10]
                                                    by_cases ha11 : a ≤ 1536
                                                    · rw [if_pos ha11]
                                                      decide
                                                    · rw [if_neg ha11]
                                                      by_cases ha12 : a ≤ 2048
                                                      · rw [if_pos ha12]
                                                        decide
                                                      · rw [if_neg ha12]
                                                        rw [if_pos (show a ≤ 4096 by omega)]
                            · rw [if_neg hb13]
                              by_cases hb14 : b ≤ 8192
                              · rw [if_pos hb14]
                                by_cases ha0 : a ≤ 32
                                · rw [if_pos ha0]
                                  decide
                                · rw [if_neg ha0]
                                  by_cases ha1 : a ≤ 48
                                  · rw [if_pos ha1]
                                    decide
                                  · rw [if_neg ha1]
                                    by_cases ha2 : a ≤ 64
                                    · rw [if_pos ha2]
                                      decide
                                    · rw [if_neg ha2]
                                      by_cases ha3 : a ≤ 96
                                      · rw [if_pos ha3]
                                        decide
                                      · rw [if_neg ha3]
                                        by_cases ha4 : a ≤ 128
                                        · rw [if_pos ha4]
                                          decide
                                        · rw [if_neg ha4]
                                          by_cases ha5 : a ≤ 192
                                          · rw [if_pos ha5]
                                            decide
                                          · rw [if_neg ha5]
                                            by_cases ha6 : a ≤ 256
                                            · rw [if_pos ha6]
                                              decide
                                            · rw [if_neg ha6]
                                              by_cases ha7 : a ≤ 384
                                              · rw [if_pos ha7]
                                                decide
                                              · rw [if_neg ha7]
                                                by_cases ha8 : a ≤ 512
                                                · rw [if_pos ha8]
                                                  decide
                                                · rw [if_neg ha8]
                                                  by_cases ha9 : a ≤ 768
                                                  · rw [if_pos ha9]
                                                    decide
                                                  · rw [if_neg ha9]
                                                    by_cases ha10 : a ≤ 1024
                                                    · rw [if_pos ha10]
                                                      decide
                                                    · rw [if_neg ha10]
                                                      by_cases ha11 : a ≤ 1536
                                                      · rw [if_pos ha11]
                                                        decide
                                                      · rw [if_neg ha11]
                                                        by_cases ha12 : a ≤ 2048
                                                        · rw [if_pos ha12]
                                                          decide
                                                        · rw [if_neg ha12]
                                                          by_cases ha13 : a ≤ 4096
                                                          · rw [if_pos ha13]
                                                            decide
                                                          · rw [if_neg ha13]
                                                            rw [if_pos (show a ≤ 8192 by omega)]
                              · rw [if_neg hb14]
                                by_cases ha0 : a ≤ 32
                                · rw [if_pos ha0]
                                  decide
                                · rw [if_neg ha0]
                                  by_cases ha1 : a ≤ 48
                                  · rw [if_pos ha1]
                                    decide
                                  · rw [if_neg ha1]
                                    by_cases ha2 : a ≤ 64
                                    · rw [if_pos ha2]
                                      decide
                                    · rw [if_neg ha2]
                                      by_cases ha3 : a ≤ 96
                                      · rw [if_pos ha3]
                                        decide
                                      · rw [if_neg ha3]
                                        by_cases ha4 : a ≤ 128
                                        · rw [if_pos ha4]
                                          decide
                                        · rw [if_neg ha4]
                                          by_cases ha5 : a ≤ 192
                                          · rw [if_pos ha5]
                                            decide
                                          · rw [if_neg ha5]
                                            by_cases ha6 : a ≤ 256
                                            · rw [if_pos ha6]
                                              decide
                                            · rw [if_neg ha6]
                                              by_cases ha7 : a ≤ 384
                                              · rw [if_pos ha7]
                                                decide
                                              · rw [if_neg ha7]
                                                by_cases ha8 : a ≤ 512
                                                · rw [if_pos ha8]
                                                  decide
                                                · rw [if_neg ha8]
                                                  by_cases ha9 : a ≤ 768
                                                  · rw [if_pos ha9]
                                                    decide
                                                  · rw [if_neg ha9]
                                                    by_cases ha10 : a ≤ 1024
                                                    · rw [if_pos ha10]
                                                      decide
                                                    · rw [if_neg ha10]
                                                      by_cases ha11 : a ≤ 1536
                                                      · rw [if_pos ha11]
                                                        decide
                                                      · rw [if_neg ha11]
                                                        by_cases ha12 : a ≤ 2048
                                                        · rw [if_pos ha12]
                                                          decide
                                                        · rw [if_neg ha12]
                                                          by_cases ha13 : a ≤ 4096
                                                          · rw [if_pos ha13]
                                                            decide
                                                          · rw [if_neg ha13]
                                                            by_cases ha14 : a ≤ 8192
                                                            · rw [if_pos ha14]
                                                              decide
                                                            · rw [if_neg ha14]

lemma le_mem_finRange_drop :
    ∀ (k x : Fin 16), k ≤ x → x ∈ (List.finRange 16).drop k.val := by decide

lemma Seg_mem_visited (idx : Seg.Index) (asize : Nat) (g : Fin 16) (a : Nat)
    (hg : Seg.size_to_group asize ≤ g) (ha : a ∈ idx g) :
    a ∈ Seg.visited idx asize := by
  unfold Seg.visited
  rw [List.mem_flatten]
  exact ⟨idx g,
    List.mem_map_of_mem idx (le_mem_finRange_drop (Seg.size_to_group asize) g hg),
    ha⟩

lemma getFreeSizeOfTail_getD (bs : List Block) (h : bs ≠ []) :
    Seg.getFreeSizeOfTail bs =
      if (bs.getD (bs.length - 1) dummyBlock).alloc then 0
      else (bs.getD (bs.length - 1) dummyBlock).size := by
  unfold Seg.getFreeSizeOfTail
  have hl : 0 < bs.length := List.length_pos.mpr h
  rw [List.getLast?_eq_getElem?, List.getElem?_eq_getElem (by omega),
    List.getD_eq_getElem?_getD, List.getElem?_eq_getElem (by omega)]
  rfl

lemma getFreeSizeOfTail_mod8 (bs : List Block) (hwf : wfBlocks bs) :
    Seg.getFreeSizeOfTail bs % 8 = 0 := by
  by_cases h : bs = []
  · subst h
    rfl
  · rw [getFreeSizeOfTail_getD bs h]
    have hl : 0 < bs.length := List.length_pos.mpr h
    obtain ⟨h1, h2, h3⟩ := wf_getD bs hwf (bs.length - 1) (by omega)
    split_ifs <;> omega

lemma Seg_tail_lt_of_miss (t : Seg.State) (A : Nat) (hwf : wfBlocks t.blocks)
    (hcons : Seg.consistent t) (hbound : ∀ b ∈ t.blocks, b.size < 2 ^ 64 - 1)
    (hA : 0 < A) (hmiss : Seg.find_fit t A = none) :
    Seg.getFreeSizeOfTail t.blocks < A := by
  have hpos := wfBlocks_sizesPos _ hwf
  by_contra hc
  push_neg at hc
  have hne : t.blocks ≠ [] := by
    intro he
    rw [he] at hc
    have h0 : Seg.getFreeSizeOfTail ([] : List Block) = 0 := rfl
    omega
  have hl : 0 < t.blocks.length := List.length_pos.mpr hne
  rw [getFreeSizeOfTail_getD t.blocks hne] at hc
  set L := t.blocks.length - 1 with hLdef
  have hfree : (t.blocks.getD L dummyBlock).alloc = false := by
    by_contra hcc
    rw [if_pos (by revert hcc; intro h; exact Bool.not_eq_false _ ▸ h)] at hc
    omega
  rw [if_neg (by rw [hfree]; intro h; exact Bool.false_ne_true h)] at hc
  have hin := hcons.2.2 L (by omega) hfree
  have hvis : addrOf t.blocks L ∈ Seg.visited t.index A :=
    Seg_mem_visited t.index A _ _
      (size_to_group_mono A _ hc) hin
  unfold Seg.find_fit at hmiss
  have hunfit := Seg_scanBest_none_unfit (sizeAt t.blocks) A _ _ hmiss _ hvis
  have hsz : sizeAt t.blocks (addrOf t.blocks L) = (t.blocks.getD L dummyBlock).size :=
    sizeAt_addrOf t.blocks hpos L (by omega)
  have hbd := hbound _ (getD_mem t.blocks L (by omega))
  rw [hsz] at hunfit
  exact hunfit ⟨hc, by omega⟩

lemma Seg_tail_lt_of_miss001 (t : Seg.State) (A : Nat) (hwf : wfBlocks t.blocks)
    (hcons : Seg.consistent t) (hA : 0 < A)
    (hmiss : Seg.find_fit001 t A = none) :
    Seg.getFreeSizeOfTail t.blocks < A := by
  have hpos := wfBlocks_sizesPos _ hwf
  by_contra hc
  push_neg at hc
  have hne : t.blocks ≠ [] := by
    intro he
    rw [he] at hc
    have h0 : Seg.getFreeSizeOfTail ([] : List Block) = 0 := rfl
    omega
  have hl : 0 < t.blocks.length := List.length_pos.mpr hne
  rw [getFreeSizeOfTail_getD t.blocks hne] at hc
  set L := t.blocks.length - 1 with hLdef
  have hfree : (t.blocks.getD L dummyBlock).alloc = false := by
    by_contra hcc
    rw [if_pos (by revert hcc; intro h; exact Bool.not_eq_false _ ▸ h)] at hc
    omega
  rw [if_neg (by rw [hfree]; intro h; exact Bool.false_ne_true h)] at hc
  have hin := hcons.2.2 L (by omega) hfree
  have hvis : addrOf t.blocks L ∈ Seg.visited t.index A :=
    Seg_mem_visited t.index A _ _
      (size_to_group_mono A _ hc) hin
  unfold Seg.find_fit001 at hmiss
  have hunfit := List.find?_eq_none.mp hmiss _ hvis
  have hsz : sizeAt t.blocks (addrOf t.blocks L) = (t.blocks.getD L dummyBlock).size :=
    sizeAt_addrOf t.blocks hpos L (by omega)
  rw [hsz] at hunfit
  simp only [decide_eq_true_eq] at hunfit
  omega

lemma Seg_extend_exact (t : Seg.State) (A : Nat) (hwf : wfBlocks t.blocks)
    (hA8 : A % 8 = 0) (hA : 24 ≤ A)
    (hfsz : Seg.getFreeSizeOfTail t.blocks < A)
    (hbud : A - Seg.getFreeSizeOfTail t.blocks ≤ t.mem) :
    ∃ s1 a2,
      extend_heap Seg.insert_node Seg.remove_node t
          ((A - Seg.getFreeSizeOfTail t.blocks + (4 - 1)) / 4) = (s1, some a2) ∧
      sizeAt s1.blocks a2 = A ∧ a2 ∈ s1.index (Seg.size_to_group A) := by
  have hpos := wfBlocks_sizesPos _ hwf
  have hf8 : Seg.getFreeSizeOfTail t.blocks % 8 = 0 := getFreeSizeOfTail_mod8 _ hwf
  set fsz := Seg.getFreeSizeOfTail t.blocks with hfszdef
  have hlk8 : (A - fsz) % 8 = 0 := by omega
  have hlkpos : 0 < A - fsz := by omega
  have hEB : extendBytes ((A - fsz + (4 - 1)) / 4) = A - fsz := by
    rw [show (A - fsz + (4 - 1)) / 4 = (A - fsz) / 4 by omega]
    exact extendBytes_exact _ hlk8
  set nb : Block := ⟨A - fsz, false, List.replicate (A - fsz - 8) 0⟩ with hnb
  have hnb' : nb = ⟨extendBytes ((A - fsz + (4 - 1)) / 4), false,
      List.replicate (extendBytes ((A - fsz + (4 - 1)) / 4) - 8) 0⟩ := by
    rw [hEB]
  rw [extend_heap_spec Seg.insert_node Seg.remove_node t _ nb hnb'
    (by rw [hEB]; omega)]
  rw [show (t.blocks ++ [nb]).length - 1 = t.blocks.length by simp]
  set s1 : HState Seg.Index :=
    ⟨t.blocks ++ [nb], t.index, t.mem - extendBytes ((A - fsz + (4 - 1)) / 4)⟩
    with hs1
  rw [show t.blocks ++ [nb] = s1.blocks from rfl]
  have hlen1 : s1.blocks.length = t.blocks.length + 1 := by
    rw [hs1]
    simp
  have hi : t.blocks.length < s1.blocks.length := by omega
  have hpos1 : sizesPos s1.blocks := by
    intro b hb
    rw [hs1] at hb
    simp only [List.mem_append, List.mem_singleton] at hb
    rcases hb with hb | rfl
    · exact hpos b hb
    · rw [hnb]
      dsimp only
      omega
  have hgetnb : s1.blocks.getD t.blocks.length dummyBlock = nb := getD_append_nb _ _
  set i := t.blocks.length with hidef
  have hN : ¬(i + 1 < s1.blocks.length ∧
      (s1.blocks.getD (i + 1) dummyBlock).alloc = false) := by
    intro hc
    omega
  by_cases hP : 0 < i ∧ (s1.blocks.getD (i - 1) dummyBlock).alloc = false
  · have hi1 : i - 1 < t.blocks.length := by omega
    have hgp : s1.blocks.getD (i - 1) dummyBlock =
        t.blocks.getD (i - 1) dummyBlock := getD_append_left _ _ _ hi1
    have hne : t.blocks ≠ [] := List.length_pos.mp (by omega)
    have hfv : fsz = (t.blocks.getD (i - 1) dummyBlock).size := by
      rw [hfszdef, getFreeSizeOfTail_getD t.blocks hne,
        show t.blocks.length - 1 = i - 1 by omega,
        if_neg (by rw [← hgp, hP.2]; exact Bool.false_ne_true)]
    rw [coalesce_spec_prev Seg.insert_node Seg.remove_node s1 i hi hpos1 hP hN]
    set m : Block :=
      ⟨(s1.blocks.getD (i - 1) dummyBlock).size + (s1.blocks.getD i dummyBlock).size,
        false,
        (s1.blocks.getD (i - 1) dummyBlock).data ++
          wbytes (s1.blocks.getD (i - 1) dummyBlock).size ++
          wbytes (s1.blocks.getD i dummyBlock).size ++
          (s1.blocks.getD i dummyBlock).data⟩ with hm
    have hmA : m.size = A := by
      rw [hm]
      dsimp only
      rw [hgp, hgetnb, ← hfv, hnb]
      dsimp only
      omega
    have hk : i - 1 + 2 ≤ s1.blocks.length := by omega
    have hlen' : (s1.blocks.take (i - 1) ++ m :: s1.blocks.drop (i + 1)).length =
        i - 1 + 1 + (s1.blocks.length - (i + 1)) := by
      have h'' := replace_length s1.blocks (i - 1) 2 [m] hk
      rw [show i - 1 + 2 = i + 1 by omega] at h''
      exact h''
    have haddr' : addrOf (s1.blocks.take (i - 1) ++ m :: s1.blocks.drop (i + 1))
        (i - 1) = addrOf s1.blocks (i - 1) := by
      have h'' := replace_addrOf_left s1.blocks (i - 1) 2 [m] hk (i - 1) (le_refl _)
      rw [show i - 1 + 2 = i + 1 by omega] at h''
      exact h''
    have hget' : (s1.blocks.take (i - 1) ++ m :: s1.blocks.drop (i + 1)).getD
        (i - 1) dummyBlock = m := by
      have h'' : (s1.blocks.take (i - 1) ++
          ([m] ++ s1.blocks.drop (i - 1 + 2))).getD (i - 1 + 0) dummyBlock =
          [m].getD 0 dummyBlock :=
        replace_getD_mid s1.blocks (i - 1) 2 [m] hk 0 (by simp)
      rw [show i - 1 + 2 = i + 1 by omega] at h''
      simpa using h''
    have hposB : sizesPos (s1.blocks.take (i - 1) ++ m :: s1.blocks.drop (i + 1)) := by
      intro b hb
      simp only [List.mem_append, List.mem_cons] at hb
      rcases hb with hb | rfl | hb
      · exact hpos1 b (List.mem_of_mem_take hb)
      · omega
      · exact hpos1 b (List.mem_of_mem_drop hb)
    refine ⟨_, _, rfl, ?_, ?_⟩
    · dsimp only
      rw [← haddr', sizeAt_addrOf _ hposB (i - 1) (by rw [hlen']; omega), hget', hmA]
    · dsimp only
      rw [show (s1.blocks.getD (i - 1) dummyBlock).size +
          (s1.blocks.getD i dummyBlock).size = A from hmA]
      simp only [Seg.insert_node]
      rw [Function.update_same]
      exact List.mem_cons_self _ _
  · have hfz : fsz = 0 := by
      rcases Nat.eq_zero_or_pos i with hi0 | hip
      · have he : t.blocks = [] := List.length_eq_zero.mp (by omega)
        rw [hfszdef, he]
        rfl
      · have hi1 : i - 1 < t.blocks.length := by omega
        have hgp : s1.blocks.getD (i - 1) dummyBlock =
            t.blocks.getD (i - 1) dummyBlock := getD_append_left _ _ _ hi1
        have hne : t.blocks ≠ [] := List.length_pos.mp (by omega)
        cases hb : (t.blocks.getD (i - 1) dummyBlock).alloc
        · exact absurd ⟨hip, by rw [hgp]; exact hb⟩ hP
        · rw [hfszdef, getFreeSizeOfTail_getD t.blocks hne,
            show t.blocks.length - 1 = i - 1 by omega, if_pos hb]
    rw [coalesce_spec_nn Seg.insert_node Seg.remove_node s1 i hi hpos1 hP hN]
    refine ⟨_, _, rfl, ?_, ?_⟩
    · dsimp only
      rw [sizeAt_addrOf s1.blocks hpos1 i hi, hgetnb, hnb]
      dsimp only
      omega
    · dsimp only
      rw [hgetnb, show nb.size = A by rw [hnb]; dsimp only; omega]
      simp only [Seg.insert_node]
      rw [Function.update_same]
      exact List.mem_cons_self _ _

lemma extend_heap_budget {ι : Type} (ins rem : ι → Nat → Nat → ι) (s : HState ι)
    (words bp : Nat) (he : (extend_heap ins rem s words).2 = some bp) :
    extendBytes words ≤ s.mem := by
  by_contra hc
  rw [extend_heap_fail ins rem s words (by omega)] at he
  simp at he

lemma extend_heap_none {ι : Type} (ins rem : ι → Nat → Nat → ι) (s : HState ι)
    (words : Nat) (he : (extend_heap ins rem s words).2 = none) :
    s.mem < extendBytes words := by
  by_contra hc
  push_neg at hc
  rw [extend_heap_spec ins rem s words _ rfl hc] at he
  simp at he

lemma Exp_mm_malloc_hit (s : Exp.State) (n bp : Nat) (hn : n ≠ 0)
    (hf : Exp.find_fit s (asizeOf n) = some bp) :
    Exp.mm_malloc s n =
      (place Exp.insert_node Exp.remove_node s bp (asizeOf n), some bp) := by
  simp only [Exp.mm_malloc]
  rw [if_neg hn, hf]

lemma Exp_mm_malloc_extend (s : Exp.State) (n bp : Nat) (hn : n ≠ 0)
    (hmiss : Exp.find_fit s (asizeOf n) = none)
    (he : (extend_heap Exp.insert_node Exp.remove_node s
        (max (asizeOf n) 4096 / 4)).2 = some bp) :
    Exp.mm_malloc s n =
      (place Exp.insert_node Exp.remove_node
        (extend_heap Exp.insert_node Exp.remove_node s
          (max (asizeOf n) 4096 / 4)).1 bp (asizeOf n), some bp) := by
  simp only [Exp.mm_malloc]
  rw [if_neg hn, hmiss]
  simp only [he]

lemma Seg_mm_malloc_hit (t : Seg.State) (n bp : Nat) (hn : n ≠ 0)
    (hf : Seg.find_fit t (asizeOf n) = some bp) :
    Seg.mm_malloc t n =
      (place Seg.insert_node Seg.remove_node t bp (asizeOf n), some bp) := by
  simp only [Seg.mm_malloc]
  rw [if_neg hn, hf]

lemma Seg_mm_malloc_miss_succeeds (t : Seg.State) (n : Nat)
    (hwf : wfBlocks t.blocks) (hn : n ≠ 0)
    (hmiss : Seg.find_fit t (asizeOf n) = none)
    (htail : Seg.getFreeSizeOfTail t.blocks < asizeOf n)
    (hbud : asizeOf n - Seg.getFreeSizeOfTail t.blocks ≤ t.mem) :
    ∃ bp, (Seg.mm_malloc t n).2 = some bp := by
  have hage := asizeOf_ge24 n
  obtain ⟨s1, a2, hext, hsa, hmem⟩ := Seg_extend_exact t (asizeOf n) hwf
    (asizeOf_mod8 n) hage htail hbud
  simp only [Seg.mm_malloc]
  rw [if_neg hn, hmiss]
  rw [if_pos (by omega : asizeOf n > Seg.getFreeSizeOfTail t.blocks)]
  rw [if_pos (by omega : 0 < asizeOf n - Seg.getFreeSizeOfTail t.blocks)]
  rw [hext]
  dsimp only
  rcases hf2 : Seg.find_fit s1 (asizeOf n) with _ | bp
  · exfalso
    unfold Seg.find_fit at hf2
    exact Seg_scanBest_exact (sizeAt s1.blocks) (asizeOf n) _ _ _
      ⟨a2, Seg_mem_visited s1.index (asizeOf n) _ a2 (le_refl _) hmem, hsa⟩ hf2
  · simp only [hf2]
    exact ⟨bp, rfl⟩

lemma Seg_mm_malloc001_miss_succeeds (t : Seg.State) (n : Nat)
    (hwf : wfBlocks t.blocks) (hn : n ≠ 0)
    (hmiss : Seg.find_fit001 t (asizeOf n) = none)
    (htail : Seg.getFreeSizeOfTail t.blocks < asizeOf n)
    (hbud : asizeOf n - Seg.getFreeSizeOfTail t.blocks ≤ t.mem) :
    ∃ bp, (Seg.mm_malloc001 t n).2 = some bp := by
  have hage := asizeOf_ge24 n
  obtain ⟨s1, a2, hext, hsa, hmem⟩ := Seg_extend_exact t (asizeOf n) hwf
    (asizeOf_mod8 n) hage htail hbud
  simp only [Seg.mm_malloc001]
  rw [if_neg hn, hmiss]
  rw [if_pos (by omega : asizeOf n > Seg.getFreeSizeOfTail t.blocks)]
  rw [if_pos (by omega : 0 < asizeOf n - Seg.getFreeSizeOfTail t.blocks)]
  rw [hext]
  dsimp only
  rcases hf2 : Seg.find_fit001 s1 (asizeOf n) with _ | bp
  · exfalso
    unfold Seg.find_fit001 at hf2
    have := List.find?_eq_none.mp hf2 a2
      (Seg_mem_visited s1.index (asizeOf n) _ a2 (le_refl _) hmem)
    rw [hsa] at this
    simp at this
  · simp only [hf2]
    exact ⟨bp, rfl⟩

/-- C5: in the segregated variant, when `mm_malloc` misses in the class
lists on a well-formed heap, the free tail block is strictly smaller than
the adjusted size; the extension request is for exactly the shortfall
(adjusted size minus tail free size, a positive number of bytes); and
whenever the provider can supply that shortfall, the same call re-queries,
finds a fit and places it, returning non-null.  Stated for `part_000`
(best-fit `find_fit`) and `part_001` (first-fit `find_fit`); the bound on
block sizes is the `(size_t)-1` scan sentinel of the best-fit loop. -/
theorem C5_segregated_shortfall_extension (t : Seg.State) (n : Nat)
    (hWF : Seg.WF t) (hbound : ∀ b ∈ t.blocks, b.size < 2 ^ 64 - 1)
    (hn : n ≠ 0) :
    (Seg.find_fit t (asizeOf n) = none →
      Seg.getFreeSizeOfTail t.blocks < asizeOf n ∧
      0 < asizeOf n - Seg.getFreeSizeOfTail t.blocks ∧
      extendBytes ((asizeOf n - Seg.getFreeSizeOfTail t.blocks + (4 - 1)) / 4) =
        asizeOf n - Seg.getFreeSizeOfTail t.blocks ∧
      (asizeOf n - Seg.getFreeSizeOfTail t.blocks ≤ t.mem →
        ∃ bp, (Seg.mm_malloc t n).2 = some bp)) ∧
    (Seg.find_fit001 t (asizeOf n) = none →
      Seg.getFreeSizeOfTail t.blocks < asizeOf n ∧
      0 < asizeOf n - Seg.getFreeSizeOfTail t.blocks ∧
      extendBytes ((asizeOf n - Seg.getFreeSizeOfTail t.blocks + (4 - 1)) / 4) =
        asizeOf n - Seg.getFreeSizeOfTail t.blocks ∧
      (asizeOf n - Seg.getFreeSizeOfTail t.blocks ≤ t.mem →
        ∃ bp, (Seg.mm_malloc001 t n).2 = some bp)) := by
  obtain ⟨hwf, hnadj, hcons⟩ := hWF
  have hage := asizeOf_ge24 n
  have ha8 := asizeOf_mod8 n
  have hf8 := getFreeSizeOfTail_mod8 t.blocks hwf
  constructor
  · intro hmiss
    have htail := Seg_tail_lt_of_miss t (asizeOf n) hwf hcons hbound (by omega) hmiss
    refine ⟨htail, by omega, ?_,
      fun hbud => Seg_mm_malloc_miss_succeeds t n hwf hn hmiss htail hbud⟩
    rw [show (asizeOf n - Seg.getFreeSizeOfTail t.blocks + (4 - 1)) / 4 =
        (asizeOf n - Seg.getFreeSizeOfTail t.blocks) / 4 by omega]
    exact extendBytes_exact _ (by omega)
  · intro hmiss
    have htail := Seg_tail_lt_of_miss001 t (asizeOf n) hwf hcons (by omega) hmiss
    refine ⟨htail, by omega, ?_,
      fun hbud => Seg_mm_malloc001_miss_succeeds t n hwf hn hmiss htail hbud⟩
    rw [show (asizeOf n - Seg.getFreeSizeOfTail t.blocks + (4 - 1)) / 4 =
        (asizeOf n - Seg.getFreeSizeOfTail t.blocks) / 4 by omega]
    exact extendBytes_exact _ (by omega)

lemma exampleSegWF : Seg.WF exampleSegState := by
  refine ⟨by unfold wfBlocks; decide, by unfold noAdjFree; decide, ?_, ?_, ?_⟩
  · intro g
    fin_cases g <;> decide
  · intro g a ha
    by_cases hg : g = 0
    · subst hg
      simp [exampleSegState] at ha
      subst ha
      exact ⟨0, by decide, by decide, by decide, by decide⟩
    · simp [exampleSegState, hg] at ha
  · intro j hj hf2
    simp [exampleSegState] at hj
    have hj0 : j = 0 := by omega
    subst hj0
    decide

lemma exampleExpWF : Exp.WF exampleExpState := by
  refine ⟨by unfold wfBlocks; decide, by unfold noAdjFree; decide, by decide, ?_, ?_⟩
  · intro a ha
    simp [exampleExpState] at ha
    subst ha
    exact ⟨0, by decide, by decide, by decide⟩
  · intro j hj hf2
    simp [exampleExpState] at hj
    have hj0 : j = 0 := by omega
    subst hj0
    decide

/-- Witness for C5 at concrete inputs: the example segregated heap (one
free 8-byte block) and a 100-byte request, which misses in both fit
policies and needs a 104-byte shortfall extension. -/
theorem C5_witness :
    Seg.getFreeSizeOfTail exampleSegState.blocks < asizeOf 100 ∧
    0 < asizeOf 100 - Seg.getFreeSizeOfTail exampleSegState.blocks ∧
    extendBytes ((asizeOf 100 - Seg.getFreeSizeOfTail exampleSegState.blocks +
        (4 - 1)) / 4) =
      asizeOf 100 - Seg.getFreeSizeOfTail exampleSegState.blocks ∧
    (asizeOf 100 - Seg.getFreeSizeOfTail exampleSegState.blocks ≤
        exampleSegState.mem →
      ∃ bp, (Seg.mm_malloc exampleSegState 100).2 = some bp) :=
  (C5_segregated_shortfall_extension exampleSegState 100 exampleSegWF
    (by decide) (by decide)).1 (by decide)

/-- C3: `allocate` returns null exactly when the requested size is 0 or
the heap-growth request made by that call fails; in every other case it
returns a non-null payload address.  For the explicit variant (`mm.c`)
this is unconditional: null iff the size is 0 or the free list misses and
the `max(asize, CHUNKSIZE)` extension fails.  For the segregated variant
(`part_000`) on a well-formed heap: null iff the size is 0 or the class
lists miss and the shortfall extension fails — in particular, a miss with
a successful extension always produces a non-null address. -/
theorem C3_allocate_null_iff (s : Exp.State) (t : Seg.State) (n : Nat)
    (hWF : Seg.WF t) (hbound : ∀ b ∈ t.blocks, b.size < 2 ^ 64 - 1) :
    ((Exp.mm_malloc s n).2 = none ↔
      n = 0 ∨ (Exp.find_fit s (asizeOf n) = none ∧
        (extend_heap Exp.insert_node Exp.remove_node s
          (max (asizeOf n) 4096 / 4)).2 = none)) ∧
    ((Seg.mm_malloc t n).2 = none ↔
      n = 0 ∨ (Seg.find_fit t (asizeOf n) = none ∧
        (extend_heap Seg.insert_node Seg.remove_node t
          ((asizeOf n - Seg.getFreeSizeOfTail t.blocks + (4 - 1)) / 4)).2 =
            none)) := by
  obtain ⟨hwf, hnadj, hcons⟩ := hWF
  have hage := asizeOf_ge24 n
  have ha8 := asizeOf_mod8 n
  have hf8 := getFreeSizeOfTail_mod8 t.blocks hwf
  constructor
  · by_cases hn : n = 0
    · subst hn
      simp [Exp.mm_malloc]
    · rcases hf : Exp.find_fit s (asizeOf n) with _ | bp
      · rcases he : (extend_heap Exp.insert_node Exp.remove_node s
            (max (asizeOf n) 4096 / 4)).2 with _ | bp2
        · have hmem := extend_heap_none _ _ _ _ he
          rw [Exp_mm_malloc_fail s n hn hf hmem]
          simp [hn, hf, he]
        · rw [Exp_mm_malloc_extend s n bp2 hn hf he]
          simp [hn, hf, he]
      · rw [Exp_mm_malloc_hit s n bp hn hf]
        simp [hn, hf]
  · by_cases hn : n = 0
    · subst hn
      simp [Seg.mm_malloc]
    · rcases hf : Seg.find_fit t (asizeOf n) with _ | bp
      · have htail := Seg_tail_lt_of_miss t (asizeOf n) hwf hcons hbound
          (by omega) hf
        rcases he : (extend_heap Seg.insert_node Seg.remove_node t
            ((asizeOf n - Seg.getFreeSizeOfTail t.blocks + (4 - 1)) / 4)).2
            with _ | bp2
        · have hmem := extend_heap_none _ _ _ _ he
          rw [Seg_mm_malloc_fail t n hn hf htail hmem]
          simp [hn, hf, he]
        · have hbud := extend_heap_budget _ _ _ _ _ he
          rw [show (asizeOf n - Seg.getFreeSizeOfTail t.blocks + (4 - 1)) / 4 =
              (asizeOf n - Seg.getFreeSizeOfTail t.blocks) / 4 by omega,
            extendBytes_exact _ (by omega)] at hbud
          obtain ⟨bp, hsome⟩ :=
            Seg_mm_malloc_miss_succeeds t n hwf hn hf htail hbud
          rw [hsome]
          simp [hn, hf, he]
      · rw [Seg_mm_malloc_hit t n bp hn hf]
        simp [hn, hf]

/-- Witness for C3 at concrete inputs: the example heaps and a 100-byte
request; the explicit heap's 200-byte budget covers the 4096-byte
`CHUNKSIZE` floor in no case, while the segregated variant's shortfall
request of 104 bytes fits the budget, so the two variants diverge exactly
as the two sides of the theorem describe. -/
theorem C3_witness :
    ((Exp.mm_malloc exampleExpState 100).2 = none ↔
      100 = 0 ∨ (Exp.find_fit exampleExpState (asizeOf 100) = none ∧
        (extend_heap Exp.insert_node Exp.remove_node exampleExpState
          (max (asizeOf 100) 4096 / 4)).2 = none)) ∧
    ((Seg.mm_malloc exampleSegState 100).2 = none ↔
      100 = 0 ∨ (Seg.find_fit exampleSegState (asizeOf 100) = none ∧
        (extend_heap Seg.insert_node Seg.remove_node exampleSegState
          ((asizeOf 100 - Seg.getFreeSizeOfTail exampleSegState.blocks +
            (4 - 1)) / 4)).2 = none)) :=
  C3_allocate_null_iff exampleExpState exampleSegState 100 exampleSegWF (by decide)

lemma Exp_mem_ins (idx : Exp.Index) (a sz x : Nat) :
    x ∈ Exp.insert_node idx a sz ↔ x = a ∨ x ∈ idx := by
  simp [Exp.insert_node]

lemma Exp_nodup_ins (idx : Exp.Index) (a sz : Nat) (h1 : ¬a ∈ idx)
    (h2 : idx.Nodup) : (Exp.insert_node idx a sz).Nodup :=
  List.nodup_cons.mpr ⟨h1, h2⟩

lemma Exp_mem_rem (idx : Exp.Index) (a sz x : Nat) (h : idx.Nodup) :
    x ∈ Exp.remove_node idx a sz ↔ x ∈ idx ∧ x ≠ a :=
  Iff.trans (List.Nodup.mem_erase_iff h) and_comm

lemma Exp_in_rem (idx : Exp.Index) (a sz b szb : Nat) (hne : b ≠ a)
    (hb : b ∈ idx) : b ∈ Exp.remove_node idx a sz :=
  (List.mem_erase_of_ne hne).mpr hb

lemma Seg_insert_node_apply (idx : Seg.Index) (a sz : Nat) (g : Fin 16) :
    Seg.insert_node idx a sz g =
      if g = Seg.size_to_group sz then a :: idx (Seg.size_to_group sz)
      else idx g := by
  simp only [Seg.insert_node]
  by_cases hg : g = Seg.size_to_group sz
  · subst hg
    rw [if_pos rfl, Function.update_same]
  · rw [if_neg hg, Function.update_noteq hg]

lemma Seg_remove_node_apply (idx : Seg.Index) (a sz : Nat) (g : Fin 16) :
    Seg.remove_node idx a sz g =
      if g = Seg.size_to_group sz then (idx (Seg.size_to_group sz)).erase a
      else idx g := by
  simp only [Seg.remove_node]
  by_cases hg : g = Seg.size_to_group sz
  · subst hg
    rw [if_pos rfl, Function.update_same]
  · rw [if_neg hg, Function.update_noteq hg]

lemma Seg_mem_ins (idx : Seg.Index) (a sz x : Nat) :
    Seg.memIdx (Seg.insert_node idx a sz) x ↔ x = a ∨ Seg.memIdx idx x := by
  unfold Seg.memIdx
  constructor
  · rintro ⟨g, hg⟩
    rw [Seg_insert_node_apply] at hg
    split_ifs at hg with hgg
    · rcases List.mem_cons.mp hg with rfl | hg2
      · exact Or.inl rfl
      · exact Or.inr ⟨_, hg2⟩
    · exact Or.inr ⟨g, hg⟩
  · rintro (rfl | ⟨g, hg⟩)
    · exact ⟨Seg.size_to_group sz,
        by rw [Seg_insert_node_apply, if_pos rfl]; exact List.mem_cons_self _ _⟩
    · by_cases hgg : g = Seg.size_to_group sz
      · subst hgg
        refine ⟨Seg.size_to_group sz, ?_⟩
        rw [Seg_insert_node_apply, if_pos rfl]
        exact List.mem_cons_of_mem _ hg
      · exact ⟨g, by rw [Seg_insert_node_apply, if_neg hgg]; exact hg⟩

lemma Seg_in_ins_self (idx : Seg.Index) (a sz : Nat) :
    Seg.inIdx (Seg.insert_node idx a sz) a sz := by
  unfold Seg.inIdx
  rw [Seg_insert_node_apply, if_pos rfl]
  exact List.mem_cons_self _ _

lemma Seg_in_ins (idx : Seg.Index) (a sz b szb : Nat)
    (hb : Seg.inIdx idx b szb) : Seg.inIdx (Seg.insert_node idx a sz) b szb := by
  unfold Seg.inIdx at hb ⊢
  rw [Seg_insert_node_apply]
  split_ifs with hgg
  · rw [hgg] at hb
    exact List.mem_cons_of_mem _ hb
  · exact hb

lemma Seg_nodup_ins (idx : Seg.Index) (a sz : Nat) (hna : ¬Seg.memIdx idx a)
    (h : Seg.nodupIdx idx) : Seg.nodupIdx (Seg.insert_node idx a sz) := by
  obtain ⟨h1, h2⟩ := h
  constructor
  · intro g
    rw [Seg_insert_node_apply]
    split_ifs with hgg
    · exact List.nodup_cons.mpr ⟨fun hc => hna ⟨_, hc⟩, h1 _⟩
    · exact h1 g
  · intro g g' x hx hx'
    rw [Seg_insert_node_apply] at hx
    rw [Seg_insert_node_apply] at hx'
    by_cases hgg : g = Seg.size_to_group sz
    · rw [if_pos hgg] at hx
      by_cases hgg' : g' = Seg.size_to_group sz
      · rw [hgg, hgg']
      · rw [if_neg hgg'] at hx'
        rcases List.mem_cons.mp hx with rfl | hx2
        · exact absurd ⟨g', hx'⟩ hna
        · rw [hgg]
          exact h2 _ _ _ hx2 hx'
    · rw [if_neg hgg] at hx
      by_cases hgg' : g' = Seg.size_to_group sz
      · rw [if_pos hgg'] at hx'
        rcases List.mem_cons.mp hx' with rfl | hx2
        · exact absurd ⟨g, hx⟩ hna
        · rw [hgg']
          exact h2 _ _ _ hx hx2
      · rw [if_neg hgg'] at hx'
        exact h2 _ _ _ hx hx'

lemma Seg_mem_rem (idx : Seg.Index) (a sz x : Nat) (h : Seg.nodupIdx idx)
    (hside : Seg.memIdx idx a → Seg.inIdx idx a sz) :
    Seg.memIdx (Seg.remove_node idx a sz) x ↔ Seg.memIdx idx x ∧ x ≠ a := by
  obtain ⟨h1, h2⟩ := h
  unfold Seg.memIdx
  constructor
  · rintro ⟨g, hg⟩
    rw [Seg_remove_node_apply] at hg
    split_ifs at hg with hgg
    · rw [List.Nodup.mem_erase_iff (h1 _)] at hg
      exact ⟨⟨_, hg.2⟩, hg.1⟩
    · refine ⟨⟨g, hg⟩, ?_⟩
      rintro rfl
      have hin := hside ⟨g, hg⟩
      unfold Seg.inIdx at hin
      exact hgg (h2 _ _ _ hg hin)
  · rintro ⟨⟨g, hg⟩, hne⟩
    by_cases hgg : g = Seg.size_to_group sz
    · subst hgg
      refine ⟨Seg.size_to_group sz, ?_⟩
      rw [Seg_remove_node_apply, if_pos rfl]
      exact (List.mem_erase_of_ne hne).mpr hg
    · exact ⟨g, by rw [Seg_remove_node_apply, if_neg hgg]; exact hg⟩

lemma Seg_in_rem (idx : Seg.Index) (a sz b szb : Nat) (hne : b ≠ a)
    (hb : Seg.inIdx idx b szb) : Seg.inIdx (Seg.remove_node idx a sz) b szb := by
  unfold Seg.inIdx at hb ⊢
  rw [Seg_remove_node_apply]
  split_ifs with hgg
  · rw [hgg] at hb
    exact (List.mem_erase_of_ne hne).mpr hb
  · exact hb

lemma Seg_nodup_rem (idx : Seg.Index) (a sz : Nat) (h : Seg.nodupIdx idx) :
    Seg.nodupIdx (Seg.remove_node idx a sz) := by
  obtain ⟨h1, h2⟩ := h
  constructor
  · intro g
    rw [Seg_remove_node_apply]
    split_ifs with hgg
    · exact (h1 _).erase a
    · exact h1 g
  · intro g g' x hx hx'
    rw [Seg_remove_node_apply] at hx
    rw [Seg_remove_node_apply] at hx'
    by_cases hgg : g = Seg.size_to_group sz
    · rw [if_pos hgg] at hx
      by_cases hgg' : g' = Seg.size_to_group sz
      · rw [hgg, hgg']
      · rw [if_neg hgg'] at hx'
        rw [hgg]
        exact h2 _ _ _ (List.mem_of_mem_erase hx) hx'
    · rw [if_neg hgg] at hx
      by_cases hgg' : g' = Seg.size_to_group sz
      · rw [if_pos hgg'] at hx'
        rw [hgg']
        exact h2 _ _ _ hx (List.mem_of_mem_erase hx')
      · rw [if_neg hgg'] at hx'
        exact h2 _ _ _ hx hx'

lemma Exp_consistent_iff (s : Exp.State) :
    Exp.consistent s ↔
      consistentW (fun idx a => a ∈ idx) (fun idx a _ => a ∈ idx) List.Nodup
        s.blocks s.index :=
  Iff.rfl

lemma Seg_consistent_iff (t : Seg.State) (hpos : sizesPos t.blocks) :
    Seg.consistent t ↔
      consistentW Seg.memIdx Seg.inIdx Seg.nodupIdx t.blocks t.index := by
  constructor
  · rintro ⟨h1, h2, h3⟩
    refine ⟨⟨h1, ?_⟩, ?_, ?_⟩
    · intro g g' x hx hx'
      obtain ⟨j, hj, haj, hfj, hgj⟩ := h2 g x hx
      obtain ⟨j', hj', haj', hfj', hgj'⟩ := h2 g' x hx'
      have hjj : j = j' := addrOf_inj t.blocks hpos j j' hj hj' (by rw [haj, haj'])
      rw [← hgj, ← hgj', hjj]
    · rintro a ⟨g, hg⟩
      obtain ⟨j, hj, haj, hfj, hgj⟩ := h2 g a hg
      exact ⟨j, hj, haj, hfj⟩
    · intro j hj hfj
      exact h3 j hj hfj
  · rintro ⟨⟨h1, hdisj⟩, h2, h3⟩
    refine ⟨h1, ?_, ?_⟩
    · intro g a hg
      obtain ⟨j, hj, haj, hfj⟩ := h2 a ⟨g, hg⟩
      refine ⟨j, hj, haj, hfj, ?_⟩
      have hin := h3 j hj hfj
      unfold Seg.inIdx at hin
      rw [haj] at hin
      exact hdisj _ _ _ hin hg
    · intro j hj hfj
      exact h3 j hj hfj

lemma coalesce_sizesPos {ι : Type} (ins rem : ι → Nat → Nat → ι) (s : HState ι)
    (a : Nat) (hpos : sizesPos s.blocks) :
    sizesPos (coalesce ins rem s a).1.blocks := by
  rcases hidx : idxOf s.blocks a with _ | i
  · simp only [coalesce, hidx]
    exact hpos
  · obtain ⟨hi, ha⟩ := idxOf_some s.blocks a i hidx
    rw [← ha]
    have hip := hpos _ (getD_mem s.blocks i hi)
    by_cases hP : 0 < i ∧ (s.blocks.getD (i - 1) dummyBlock).alloc = false
    · by_cases hN : i + 1 < s.blocks.length ∧
          (s.blocks.getD (i + 1) dummyBlock).alloc = false
      · rw [coalesce_spec_both ins rem s i hi hpos hP hN]
        intro b hb
        simp only [List.mem_append, List.mem_cons] at hb
        rcases hb with hb | rfl | hb
        · exact hpos b (List.mem_of_mem_take hb)
        · dsimp only
          omega
        · exact hpos b (List.mem_of_mem_drop hb)
      · rw [coalesce_spec_prev ins rem s i hi hpos hP hN]
        intro b hb
        simp only [List.mem_append, List.mem_cons] at hb
        rcases hb with hb | rfl | hb
        · exact hpos b (List.mem_of_mem_take hb)
        · dsimp only
          omega
        · exact hpos b (List.mem_of_mem_drop hb)
    · by_cases hN : i + 1 < s.blocks.length ∧
          (s.blocks.getD (i + 1) dummyBlock).alloc = false
      · rw [coalesce_spec_next ins rem s i hi hpos hP hN]
        intro b hb
        simp only [List.mem_append, List.mem_cons] at hb
        rcases hb with hb | rfl | hb
        · exact hpos b (List.mem_of_mem_take hb)
        · dsimp only
          omega
        · exact hpos b (List.mem_of_mem_drop hb)
      · rw [coalesce_spec_nn ins rem s i hi hpos hP hN]
        exact hpos

lemma place_sizesPos {ι : Type} (ins rem : ι → Nat → Nat → ι) (s : HState ι)
    (a asize : Nat) (hpos : sizesPos s.blocks) (hasz : 0 < asize) :
    sizesPos (place ins rem s a asize).blocks := by
  rcases hidx : idxOf s.blocks a with _ | i
  · simp only [place, hidx]
    exact hpos
  · simp only [place, hidx]
    split_ifs with hs
    · intro b hb
      simp only [List.mem_append, List.mem_cons] at hb
      rcases hb with hb | rfl | rfl | hb
      · exact hpos b (List.mem_of_mem_take hb)
      · exact hasz
      · dsimp only
        omega
      · exact hpos b (List.mem_of_mem_drop hb)
    · apply sizesPos_set _ _ _ hpos
      dsimp only
      exact hpos _ (getD_mem s.blocks i (idxOf_some s.blocks a i hidx).1)

lemma mm_free_sizesPos {ι : Type} (ins rem : ι → Nat → Nat → ι) (s : HState ι)
    (bp : Option Nat) (hpos : sizesPos s.blocks) :
    sizesPos (mm_free ins rem s bp).blocks := by
  rcases bp with _ | a
  · exact hpos
  · rcases hidx : idxOf s.blocks a with _ | i
    · simp only [mm_free, hidx]
      exact hpos
    · simp only [mm_free, hidx]
      apply coalesce_sizesPos
      apply sizesPos_set _ _ _ hpos
      dsimp only
      exact hpos _ (getD_mem s.blocks i (idxOf_some s.blocks a i hidx).1)

lemma extend_heap_sizesPos {ι : Type} (ins rem : ι → Nat → Nat → ι) (s : HState ι)
    (words : Nat) (hpos : sizesPos s.blocks) (hnbpos : 0 < extendBytes words) :
    sizesPos (extend_heap ins rem s words).1.blocks := by
  by_cases hm : extendBytes words ≤ s.mem
  · rw [extend_heap_spec_fst ins rem s words _ rfl hm]
    apply coalesce_sizesPos
    intro b hb
    simp only [List.mem_append, List.mem_singleton] at hb
    rcases hb with hb | rfl
    · exact hpos b hb
    · exact hnbpos
  · rw [extend_heap_fail ins rem s words (by omega)]
    exact hpos

lemma Seg_visited_mem (idx : Seg.Index) (asize a : Nat)
    (h : a ∈ Seg.visited idx asize) : ∃ g, a ∈ idx g := by
  unfold Seg.visited at h
  rw [List.mem_flatten] at h
  obtain ⟨l, hl, hal⟩ := h
  rw [List.mem_map] at hl
  obtain ⟨g, hg, rfl⟩ := hl
  exact ⟨g, hal⟩

lemma Exp_place_consistent (s : Exp.State) (i asize : Nat)
    (hi : i < s.blocks.length) (hpos : sizesPos s.blocks)
    (hfree : (s.blocks.getD i dummyBlock).alloc = false) (hasz : 0 < asize)
    (hc : Exp.consistent s) :
    Exp.consistent
      (place Exp.insert_node Exp.remove_node s (addrOf s.blocks i) asize) := by
  rw [Exp_consistent_iff] at hc ⊢
  exact place_consistentW Exp.insert_node Exp.remove_node
    (fun idx a => a ∈ idx) (fun idx a _ => a ∈ idx) List.Nodup
    Exp_mem_ins (fun _ _ _ => List.mem_cons_self _ _)
    (fun _ _ _ _ _ hb => List.mem_cons_of_mem _ hb) Exp_nodup_ins
    (fun idx a sz x h _ => Exp_mem_rem idx a sz x h) Exp_in_rem
    (fun _ a _ h => h.erase a) s i asize hi hpos hfree hasz hc

lemma Exp_free_consistent (s : Exp.State) (i : Nat)
    (hi : i < s.blocks.length) (hpos : sizesPos s.blocks)
    (halloc : (s.blocks.getD i dummyBlock).alloc = true)
    (hc : Exp.consistent s) :
    Exp.consistent
      (mm_free Exp.insert_node Exp.remove_node s (some (addrOf s.blocks i))) := by
  rw [Exp_consistent_iff] at hc ⊢
  exact free_consistentW Exp.insert_node Exp.remove_node
    (fun idx a => a ∈ idx) (fun idx a _ => a ∈ idx) List.Nodup
    Exp_mem_ins (fun _ _ _ => List.mem_cons_self _ _)
    (fun _ _ _ _ _ hb => List.mem_cons_of_mem _ hb) Exp_nodup_ins
    (fun idx a sz x h _ => Exp_mem_rem idx a sz x h) Exp_in_rem
    (fun _ a _ h => h.erase a) s i hi hpos halloc hc

lemma Exp_extend_consistent (s : Exp.State) (words : Nat)
    (hpos : sizesPos s.blocks) (hnbpos : 0 < extendBytes words)
    (hc : Exp.consistent s) :
    Exp.consistent (extend_heap Exp.insert_node Exp.remove_node s words).1 := by
  rw [Exp_consistent_iff] at hc ⊢
  exact extend_consistentW Exp.insert_node Exp.remove_node
    (fun idx a => a ∈ idx) (fun idx a _ => a ∈ idx) List.Nodup
    Exp_mem_ins (fun _ _ _ => List.mem_cons_self _ _)
    (fun _ _ _ _ _ hb => List.mem_cons_of_mem _ hb) Exp_nodup_ins
    (fun idx a sz x h _ => Exp_mem_rem idx a sz x h) Exp_in_rem
    (fun _ a _ h => h.erase a) s words hpos hnbpos hc

lemma Seg_place_consistent (t : Seg.State) (i asize : Nat)
    (hi : i < t.blocks.length) (hpos : sizesPos t.blocks)
    (hfree : (t.blocks.getD i dummyBlock).alloc = false) (hasz : 0 < asize)
    (hc : Seg.consistent t) :
    Seg.consistent
      (place Seg.insert_node Seg.remove_node t (addrOf t.blocks i) asize) := by
  rw [Seg_consistent_iff _ hpos] at hc
  rw [Seg_consistent_iff _ (place_sizesPos _ _ _ _ _ hpos hasz)]
  exact place_consistentW Seg.insert_node Seg.remove_node
    Seg.memIdx Seg.inIdx Seg.nodupIdx
    Seg_mem_ins Seg_in_ins_self Seg_in_ins Seg_nodup_ins
    Seg_mem_rem Seg_in_rem Seg_nodup_rem t i asize hi hpos hfree hasz hc

lemma Seg_free_consistent (t : Seg.State) (i : Nat)
    (hi : i < t.blocks.length) (hpos : sizesPos t.blocks)
    (halloc : (t.blocks.getD i dummyBlock).alloc = true)
    (hc : Seg.consistent t) :
    Seg.consistent
      (mm_free Seg.insert_node Seg.remove_node t (some (addrOf t.blocks i))) := by
  rw [Seg_consistent_iff _ hpos] at hc
  rw [Seg_consistent_iff _ (mm_free_sizesPos _ _ _ _ hpos)]
  exact free_consistentW Seg.insert_node Seg.remove_node
    Seg.memIdx Seg.inIdx Seg.nodupIdx
    Seg_mem_ins Seg_in_ins_self Seg_in_ins Seg_nodup_ins
    Seg_mem_rem Seg_in_rem Seg_nodup_rem t i hi hpos halloc hc

lemma Seg_extend_consistent (t : Seg.State) (words : Nat)
    (hpos : sizesPos t.blocks) (hnbpos : 0 < extendBytes words)
    (hc : Seg.consistent t) :
    Seg.consistent (extend_heap Seg.insert_node Seg.remove_node t words).1 := by
  rw [Seg_consistent_iff _ hpos] at hc
  rw [Seg_consistent_iff _ (extend_heap_sizesPos _ _ _ _ hpos hnbpos)]
  exact extend_consistentW Seg.insert_node Seg.remove_node
    Seg.memIdx Seg.inIdx Seg.nodupIdx
    Seg_mem_ins Seg_in_ins_self Seg_in_ins Seg_nodup_ins
    Seg_mem_rem Seg_in_rem Seg_nodup_rem t words hpos hnbpos hc

lemma Exp_mm_malloc_consistent (s : Exp.State) (n : Nat) (hwf : wfBlocks s.blocks)
    (hc : Exp.consistent s) : Exp.consistent (Exp.mm_malloc s n).1 := by
  have hpos := wfBlocks_sizesPos _ hwf
  have hage := asizeOf_ge24 n
  by_cases hn : n = 0
  · rw [show Exp.mm_malloc s n = (s, none) by simp [Exp.mm_malloc, hn]]
    exact hc
  rcases hf : Exp.find_fit s (asizeOf n) with _ | bp
  · rcases he : (extend_heap Exp.insert_node Exp.remove_node s
        (max (asizeOf n) 4096 / 4)).2 with _ | bp2
    · rw [Exp_mm_malloc_fail s n hn hf (extend_heap_none _ _ _ _ he)]
      exact hc
    · rw [Exp_mm_malloc_extend s n bp2 hn hf he]
      dsimp only
      have hnbp : 0 < extendBytes (max (asizeOf n) 4096 / 4) := by
        have := extendBytes_ge8 (max (asizeOf n) 4096 / 4) (by omega)
        omega
      have hce := Exp_extend_consistent s (max (asizeOf n) 4096 / 4) hpos hnbp hc
      have hwfe := extend_heap_wf Exp.insert_node Exp.remove_node s
        (max (asizeOf n) 4096 / 4) (by omega) hwf
      obtain ⟨j, hj, haj, hfrj, hszj⟩ :=
        extend_heap_post Exp.insert_node Exp.remove_node s _ bp2 hwf (by omega) he
      rw [← haj]
      exact Exp_place_consistent _ j (asizeOf n) hj (wfBlocks_sizesPos _ hwfe)
        hfrj (by omega) hce
  · rw [Exp_mm_malloc_hit s n bp hn hf]
    dsimp only
    obtain ⟨hmemf, hfits⟩ := Exp_find_fit_hit s _ _ hf
    obtain ⟨j, hj, haj, hfrj⟩ := hc.2.1 bp hmemf
    rw [← haj]
    exact Exp_place_consistent s j (asizeOf n) hj hpos hfrj (by omega) hc

lemma Seg_mm_malloc_consistent (t : Seg.State) (n : Nat) (hwf : wfBlocks t.blocks)
    (hc : Seg.consistent t) : Seg.consistent (Seg.mm_malloc t n).1 := by
  have hpos := wfBlocks_sizesPos _ hwf
  have hage := asizeOf_ge24 n
  simp only [Seg.mm_malloc]
  by_cases hn : n = 0
  · rw [if_pos hn]
    exact hc
  rw [if_neg hn]
  rcases hf : Seg.find_fit t (asizeOf n) with _ | bp
  · simp only
    by_cases hl : asizeOf n > Seg.getFreeSizeOfTail t.blocks
    · rw [if_pos hl, if_pos (by omega)]
      rcases he : (extend_heap Seg.insert_node Seg.remove_node t
          ((asizeOf n - Seg.getFreeSizeOfTail t.blocks + (4 - 1)) / 4)).2
          with _ | bp2
      · simp only [he]
        exact hc
      · simp only [he]
        have hwords : 0 < (asizeOf n - Seg.getFreeSizeOfTail t.blocks + (4 - 1)) / 4 := by
          omega
        have hnbp : 0 < extendBytes
            ((asizeOf n - Seg.getFreeSizeOfTail t.blocks + (4 - 1)) / 4) := by
          have := extendBytes_ge8 _ hwords
          omega
        have hce := Seg_extend_consistent t _ hpos hnbp hc
        have hwfe := extend_heap_wf Seg.insert_node Seg.remove_node t
          ((asizeOf n - Seg.getFreeSizeOfTail t.blocks + (4 - 1)) / 4) hwords hwf
        have hpose := wfBlocks_sizesPos _ hwfe
        rcases hf2 : Seg.find_fit (extend_heap Seg.insert_node Seg.remove_node t
            ((asizeOf n - Seg.getFreeSizeOfTail t.blocks + (4 - 1)) / 4)).1
            (asizeOf n) with _ | bp3
        · simp only [hf2]
          exact hce
        · simp only [hf2]
          obtain ⟨hvis, hfits⟩ := Seg_find_fit_hit _ _ _ hf2
          obtain ⟨g, hg⟩ := Seg_visited_mem _ _ _ hvis
          obtain ⟨j, hj, haj, hfrj, hgj⟩ := hce.2.1 g bp3 hg
          rw [← haj]
          exact Seg_place_consistent _ j (asizeOf n) hj hpose hfrj (by omega) hce
    · rw [if_neg hl, if_neg (by omega)]
      simp only [hf]
      exact hc
  · simp only
    obtain ⟨hvis, hfits⟩ := Seg_find_fit_hit t _ _ hf
    obtain ⟨g, hg⟩ := Seg_visited_mem _ _ _ hvis
    obtain ⟨j, hj, haj, hfrj, hgj⟩ := hc.2.1 g bp hg
    rw [← haj]
    exact Seg_place_consistent t j (asizeOf n) hj hpos hfrj (by omega) hc

lemma Exp_mm_init_consistent (mem : Nat) (s0 : Exp.State)
    (h : Exp.mmInit mem = some s0) : Exp.consistent s0 := by
  simp only [Exp.mmInit, mm_init] at h
  split_ifs at h with h16
  · rcases he : (extend_heap Exp.insert_node Exp.remove_node
        ⟨[], ([] : Exp.Index), mem - 16⟩ 1024).2 with _ | a
    · rw [he] at h
      simp at h
    · rw [he] at h
      obtain rfl := Option.some.inj h
      apply Exp_extend_consistent _ 1024 (by intro b hb; simp at hb)
        (by have := extendBytes_ge8 1024 (by omega); omega)
      refine ⟨List.nodup_nil, ?_, ?_⟩
      · intro a ha
        simp at ha
      · intro j hj
        simp at hj

lemma Seg_mm_init_consistent (mem : Nat) (t0 : Seg.State)
    (h : Seg.mmInit mem = some t0) : Seg.consistent t0 := by
  simp only [Seg.mmInit, mm_init] at h
  split_ifs at h with h16
  · rcases he : (extend_heap Seg.insert_node Seg.remove_node
        ⟨[], Seg.emptyHeaders, mem - 16⟩ 1024).2 with _ | a
    · rw [he] at h
      simp at h
    · rw [he] at h
      obtain rfl := Option.some.inj h
      apply Seg_extend_consistent _ 1024 (by intro b hb; simp at hb)
        (by have := extendBytes_ge8 1024 (by omega); omega)
      refine ⟨fun g => List.nodup_nil, ?_, ?_⟩
      · intro g a ha
        simp [Seg.emptyHeaders] at ha
      · intro j hj
        simp at hj

lemma coalesce_alloc_preserved {ι : Type} (ins rem : ι → Nat → Nat → ι)
    (s : HState ι) (a j : Nat) (hpos : sizesPos s.blocks)
    (hj : j < s.blocks.length)
    (halloc : (s.blocks.getD j dummyBlock).alloc = true)
    (hfree : ∀ k, k < s.blocks.length → addrOf s.blocks k = a →
      (s.blocks.getD k dummyBlock).alloc = false) :
    ∃ j', j' < (coalesce ins rem s a).1.blocks.length ∧
      addrOf (coalesce ins rem s a).1.blocks j' = addrOf s.blocks j ∧
      (coalesce ins rem s a).1.blocks.getD j' dummyBlock =
        s.blocks.getD j dummyBlock := by
  rcases hidx : idxOf s.blocks a with _ | i
  · simp only [coalesce, hidx]
    exact ⟨j, hj, rfl, rfl⟩
  · obtain ⟨hi, ha⟩ := idxOf_some s.blocks a i hidx
    have hfi : (s.blocks.getD i dummyBlock).alloc = false := hfree i hi ha
    have hji : j ≠ i := by
      intro he
      rw [he, hfi] at halloc
      simp at halloc
    rw [← ha]
    set bs := s.blocks with hbs
    by_cases hP : 0 < i ∧ (bs.getD (i - 1) dummyBlock).alloc = false
    · by_cases hN : i + 1 < bs.length ∧ (bs.getD (i + 1) dummyBlock).alloc = false
      · rw [coalesce_spec_both ins rem s i hi hpos hP hN]
        rw [show i + 2 = i - 1 + 3 by omega]
        set m : Block :=
          ⟨(bs.getD (i - 1) dummyBlock).size + (bs.getD i dummyBlock).size +
              (bs.getD (i + 1) dummyBlock).size, false,
            ((bs.getD (i - 1) dummyBlock).data ++
                wbytes (bs.getD (i - 1) dummyBlock).size ++
                wbytes (bs.getD i dummyBlock).size ++
                (bs.getD i dummyBlock).data) ++
              wbytes ((bs.getD (i - 1) dummyBlock).size +
                (bs.getD i dummyBlock).size) ++
              wbytes (bs.getD (i + 1) dummyBlock).size ++
              (bs.getD (i + 1) dummyBlock).data⟩ with hm
        have hk : i - 1 + 3 ≤ bs.length := by omega
        have hspan : (([m] : List Block).map Block.size).sum =
            (((bs.drop (i - 1)).take 3).map Block.size).sum := by
          rw [span_sum_three bs (i - 1) (by omega), show i - 1 + 1 = i by omega,
            show i - 1 + 2 = i + 1 by omega]
          simp [hm]
        have hlen3 : (bs.take (i - 1) ++ m :: bs.drop (i - 1 + 3)).length =
            i - 1 + 1 + (bs.length - (i - 1 + 3)) :=
          replace_length bs (i - 1) 3 [m] hk
        have hj1 : j ≠ i - 1 := by
          intro he
          rw [he, hP.2] at halloc
          simp at halloc
        have hj2 : j ≠ i + 1 := by
          intro he
          rw [he, hN.2] at halloc
          simp at halloc
        rcases Nat.lt_or_ge j (i - 1) with hlt | hge
        · refine ⟨j, by rw [hlen3]; omega, ?_, ?_⟩
          · exact replace_addrOf_left bs (i - 1) 3 [m] hk j (by omega)
          · exact replace_getD_left bs (i - 1) 3 [m] hk j hlt
        · have hgt : i + 2 ≤ j := by omega
          refine ⟨i - 1 + 1 + (j - i - 2), by rw [hlen3]; omega, ?_, ?_⟩
          · have h' : addrOf (bs.take (i - 1) ++ m :: bs.drop (i - 1 + 3))
                (i - 1 + 1 + (j - i - 2)) = addrOf bs (i - 1 + 3 + (j - i - 2)) :=
              replace_addrOf_right bs (i - 1) 3 [m] hk hspan (j - i - 2)
            rw [h', show i - 1 + 3 + (j - i - 2) = j by omega]
          · have h' : (bs.take (i - 1) ++ m :: bs.drop (i - 1 + 3)).getD
                (i - 1 + 1 + (j - i - 2)) dummyBlock =
                bs.getD (i - 1 + 3 + (j - i - 2)) dummyBlock :=
              replace_getD_right bs (i - 1) 3 [m] hk (j - i - 2)
            rw [h', show i - 1 + 3 + (j - i - 2) = j by omega]
      · rw [coalesce_spec_prev ins rem s i hi hpos hP hN]
        rw [show i + 1 = i - 1 + 2 by omega]
        set m : Block :=
          ⟨(bs.getD (i - 1) dummyBlock).size + (bs.getD i dummyBlock).size, false,
            (bs.getD (i - 1) dummyBlock).data ++
              wbytes (bs.getD (i - 1) dummyBlock).size ++
              wbytes (bs.getD i dummyBlock).size ++ (bs.getD i dummyBlock).data⟩
          with hm
        have hk : i - 1 + 2 ≤ bs.length := by omega
        have hspan : (([m] : List Block).map Block.size).sum =
            (((bs.drop (i - 1)).take 2).map Block.size).sum := by
          rw [span_sum_two bs (i - 1) (by omega), show i - 1 + 1 = i by omega]
          simp [hm]
        have hlen2 : (bs.take (i - 1) ++ m :: bs.drop (i - 1 + 2)).length =
            i - 1 + 1 + (bs.length - (i - 1 + 2)) :=
          replace_length bs (i - 1) 2 [m] hk
        have hj1 : j ≠ i - 1 := by
          intro he
          rw [he, hP.2] at halloc
          simp at halloc
        rcases Nat.lt_or_ge j (i - 1) with hlt | hge
        · refine ⟨j, by rw [hlen2]; omega, ?_, ?_⟩
          · exact replace_addrOf_left bs (i - 1) 2 [m] hk j (by omega)
          · exact replace_getD_left bs (i - 1) 2 [m] hk j hlt
        · have hgt : i + 1 ≤ j := by omega
          refine ⟨i - 1 + 1 + (j - i - 1), by rw [hlen2]; omega, ?_, ?_⟩
          · have h' : addrOf (bs.take (i - 1) ++ m :: bs.drop (i - 1 + 2))
                (i - 1 + 1 + (j - i - 1)) = addrOf bs (i - 1 + 2 + (j - i - 1)) :=
              replace_addrOf_right bs (i - 1) 2 [m] hk hspan (j - i - 1)
            rw [h', show i - 1 + 2 + (j - i - 1) = j by omega]
          · have h' : (bs.take (i - 1) ++ m :: bs.drop (i - 1 + 2)).getD
                (i - 1 + 1 + (j - i - 1)) dummyBlock =
                bs.getD (i - 1 + 2 + (j - i - 1)) dummyBlock :=
              replace_getD_right bs (i - 1) 2 [m] hk (j - i - 1)
            rw [h', show i - 1 + 2 + (j - i - 1) = j by omega]
    · by_cases hN : i + 1 < bs.length ∧ (bs.getD (i + 1) dummyBlock).alloc = false
      · rw [coalesce_spec_next ins rem s i hi hpos hP hN]
        set m : Block :=
          ⟨(bs.getD i dummyBlock).size + (bs.getD (i + 1) dummyBlock).size, false,
            (bs.getD i dummyBlock).data ++ wbytes (bs.getD i dummyBlock).size ++
              wbytes (bs.getD (i + 1) dummyBlock).size ++
              (bs.getD (i + 1) dummyBlock).data⟩ with hm
        have hk : i + 2 ≤ bs.length := by omega
        have hspan : (([m] : List Block).map Block.size).sum =
            (((bs.drop i).take 2).map Block.size).sum := by
          rw [span_sum_two bs i (by omega)]
          simp [hm]
        have hlen2 : (bs.take i ++ m :: bs.drop (i + 2)).length =
            i + 1 + (bs.length - (i + 2)) := replace_length bs i 2 [m] hk
        have hj2 : j ≠ i + 1 := by
          intro he
          rw [he, hN.2] at halloc
          simp at halloc
        rcases Nat.lt_or_ge j i with hlt | hge
        · refine ⟨j, by rw [hlen2]; omega, ?_, ?_⟩
          · exact replace_addrOf_left bs i 2 [m] hk j (by omega)
          · exact replace_getD_left bs i 2 [m] hk j hlt
        · have hgt : i + 2 ≤ j := by omega
          refine ⟨i + 1 + (j - i - 2), by rw [hlen2]; omega, ?_, ?_⟩
          · have h' : addrOf (bs.take i ++ m :: bs.drop (i + 2))
                (i + 1 + (j - i - 2)) = addrOf bs (i + 2 + (j - i - 2)) :=
              replace_addrOf_right bs i 2 [m] hk hspan (j - i - 2)
            rw [h', show i + 2 + (j - i - 2) = j by omega]
          · have h' : (bs.take i ++ m :: bs.drop (i + 2)).getD
                (i + 1 + (j - i - 2)) dummyBlock =
                bs.getD (i + 2 + (j - i - 2)) dummyBlock :=
              replace_getD_right bs i 2 [m] hk (j - i - 2)
            rw [h', show i + 2 + (j - i - 2) = j by omega]
      · rw [coalesce_spec_nn ins rem s i hi hpos hP hN]
        exact ⟨j, hj, rfl, rfl⟩

lemma place_alloc_preserved {ι : Type} (ins rem : ι → Nat → Nat → ι)
    (s : HState ι) (a asize j : Nat) (hpos : sizesPos s.blocks)
    (hj : j < s.blocks.length)
    (halloc : (s.blocks.getD j dummyBlock).alloc = true)
    (hfree : ∀ k, k < s.blocks.length → addrOf s.blocks k = a →
      (s.blocks.getD k dummyBlock).alloc = false)
    (hasz : 0 < asize) :
    ∃ j', j' < (place ins rem s a asize).blocks.length ∧
      addrOf (place ins rem s a asize).blocks j' = addrOf s.blocks j ∧
      (place ins rem s a asize).blocks.getD j' dummyBlock =
        s.blocks.getD j dummyBlock := by
  rcases hidx : idxOf s.blocks a with _ | i
  · simp only [place, hidx]
    exact ⟨j, hj, rfl, rfl⟩
  · obtain ⟨hi, ha⟩ := idxOf_some s.blocks a i hidx
    have hfi : (s.blocks.getD i dummyBlock).alloc = false := hfree i hi ha
    have hji : j ≠ i := by
      intro he
      rw [he, hfi] at halloc
      simp at halloc
    simp only [place, hidx]
    set bs := s.blocks with hbs
    split_ifs with hs
    · set front : Block := ⟨asize, true, (bs.getD i dummyBlock).data.take (asize - 8)⟩
        with hfront
      set rest : Block := ⟨(bs.getD i dummyBlock).size - asize, false,
          (bs.getD i dummyBlock).data.drop asize⟩ with hrest
      have hk : i + 1 ≤ bs.length := by omega
      have hspan : (([front, rest] : List Block).map Block.size).sum =
          (((bs.drop i).take 1).map Block.size).sum := by
        rw [span_sum_one bs i hi]
        simp only [List.map_cons, List.map_nil, List.sum_cons, List.sum_nil,
          hfront, hrest]
        omega
      have hlen2 : (bs.take i ++ front :: rest :: bs.drop (i + 1)).length =
          i + 2 + (bs.length - (i + 1)) := replace_length bs i 1 [front, rest] hk
      rcases Nat.lt_or_ge j i with hlt | hge
      · refine ⟨j, by rw [hlen2]; omega, ?_, ?_⟩
        · exact replace_addrOf_left bs i 1 [front, rest] hk j (by omega)
        · exact replace_getD_left bs i 1 [front, rest] hk j hlt
      · have hgt : i + 1 ≤ j := by omega
        refine ⟨i + 2 + (j - i - 1), by rw [hlen2]; omega, ?_, ?_⟩
        · have h' : addrOf (bs.take i ++ front :: rest :: bs.drop (i + 1))
              (i + 2 + (j - i - 1)) = addrOf bs (i + 1 + (j - i - 1)) :=
            replace_addrOf_right bs i 1 [front, rest] hk hspan (j - i - 1)
          rw [h', show i + 1 + (j - i - 1) = j by omega]
        · have h' : (bs.take i ++ front :: rest :: bs.drop (i + 1)).getD
              (i + 2 + (j - i - 1)) dummyBlock =
              bs.getD (i + 1 + (j - i - 1)) dummyBlock :=
            replace_getD_right bs i 1 [front, rest] hk (j - i - 1)
          rw [h', show i + 1 + (j - i - 1) = j by omega]
    · set w : Block := ⟨(bs.getD i dummyBlock).size, true, (bs.getD i dummyBlock).data⟩
        with hw
      refine ⟨j, by simpa using hj, ?_, ?_⟩
      · exact addrOf_eq_of_map_size _ _ (map_size_set_of_eq bs i w (by rw [hw])) j
      · exact getD_set_ne bs i j w (Ne.symm hji)

lemma extend_alloc_preserved {ι : Type} (ins rem : ι → Nat → Nat → ι)
    (s : HState ι) (words j : Nat) (hpos : sizesPos s.blocks)
    (hnbpos : 0 < extendBytes words)
    (hj : j < s.blocks.length)
    (halloc : (s.blocks.getD j dummyBlock).alloc = true) :
    ∃ j', j' < (extend_heap ins rem s words).1.blocks.length ∧
      addrOf (extend_heap ins rem s words).1.blocks j' = addrOf s.blocks j ∧
      (extend_heap ins rem s words).1.blocks.getD j' dummyBlock =
        s.blocks.getD j dummyBlock := by
  by_cases hm : extendBytes words ≤ s.mem
  · set nb : Block :=
      ⟨extendBytes words, false, List.replicate (extendBytes words - 8) 0⟩ with hnb
    rw [extend_heap_spec_fst ins rem s words nb hnb hm]
    rw [show (s.blocks ++ [nb]).length - 1 = s.blocks.length by simp]
    set s1 : HState ι := ⟨s.blocks ++ [nb], s.index, s.mem - extendBytes words⟩
      with hs1
    rw [show s.blocks ++ [nb] = s1.blocks from rfl]
    have hlen1 : s1.blocks.length = s.blocks.length + 1 := by
      rw [hs1]
      simp
    have hpos1 : sizesPos s1.blocks := by
      intro b hb
      rw [hs1] at hb
      simp only [List.mem_append, List.mem_singleton] at hb
      rcases hb with hb | rfl
      · exact hpos b hb
      · rw [hnb]
        dsimp only
        omega
    have hgetnb : s1.blocks.getD s.blocks.length dummyBlock = nb := getD_append_nb _ _
    have hG0 : s1.blocks.getD j dummyBlock = s.blocks.getD j dummyBlock :=
      getD_append_left _ _ _ hj
    have hA0 : ∀ k, k ≤ s.blocks.length → addrOf s1.blocks k = addrOf s.blocks k :=
      fun k hk => addrOf_append_left _ _ _ hk
    obtain ⟨j', hj', haj', hgj'⟩ := coalesce_alloc_preserved ins rem s1
      (addrOf s1.blocks s.blocks.length) j hpos1 (by omega)
      (by rw [hG0]; exact halloc)
      (by
        intro k hk hak
        have hkk : k = s.blocks.length :=
          addrOf_inj s1.blocks hpos1 k s.blocks.length (by omega) (by omega) hak
        rw [hkk, hgetnb, hnb])
    refine ⟨j', hj', ?_, ?_⟩
    · rw [haj', hA0 j (by omega)]
    · rw [hgj', hG0]
  · rw [extend_heap_fail ins rem s words (by omega)]
    exact ⟨j, hj, rfl, rfl⟩

lemma free_alloc_preserved {ι : Type} (ins rem : ι → Nat → Nat → ι)
    (s : HState ι) (i j : Nat) (hpos : sizesPos s.blocks)
    (hi : i < s.blocks.length) (hj : j < s.blocks.length) (hji : j ≠ i)
    (halloc : (s.blocks.getD j dummyBlock).alloc = true) :
    ∃ j', j' < (mm_free ins rem s (some (addrOf s.blocks i))).blocks.length ∧
      addrOf (mm_free ins rem s (some (addrOf s.blocks i))).blocks j' =
        addrOf s.blocks j ∧
      (mm_free ins rem s (some (addrOf s.blocks i))).blocks.getD j' dummyBlock =
        s.blocks.getD j dummyBlock := by
  rw [mm_free_spec ins rem s i hi hpos]
  set w : Block :=
    ⟨(s.blocks.getD i dummyBlock).size, false, (s.blocks.getD i dummyBlock).data⟩
    with hw
  set s1 : HState ι := ⟨s.blocks.set i w, s.index, s.mem⟩ with hs1
  have hpos1 : sizesPos s1.blocks := by
    apply sizesPos_set _ _ _ hpos
    rw [hw]
    dsimp only
    exact hpos _ (getD_mem s.blocks i hi)
  have hlen1 : s1.blocks.length = s.blocks.length := by
    rw [hs1]
    simp
  have haddr : ∀ k, addrOf s1.blocks k = addrOf s.blocks k :=
    fun k => addrOf_eq_of_map_size _ _ (map_size_set_of_eq s.blocks i w (by rw [hw])) k
  have hG : s1.blocks.getD j dummyBlock = s.blocks.getD j dummyBlock :=
    getD_set_ne s.blocks i j w (Ne.symm hji)
  obtain ⟨j', hj', haj', hgj'⟩ := coalesce_alloc_preserved ins rem s1
    (addrOf s.blocks i) j hpos1 (by omega) (by rw [hG]; exact halloc)
    (by
      intro k hk hak
      rw [haddr k] at hak
      have hkk : k = i := addrOf_inj s.blocks hpos k i (by omega) hi hak
      rw [hkk]
      rw [show s1.blocks = s.blocks.set i w from rfl, getD_set_self s.blocks i w hi]
    )
  refine ⟨j', hj', ?_, ?_⟩
  · rw [haj', haddr j]
  · rw [hgj', hG]

lemma Exp_malloc_alloc_preserved (s : Exp.State) (n j : Nat)
    (hwf : wfBlocks s.blocks) (hc : Exp.consistent s)
    (hj : j < s.blocks.length)
    (halloc : (s.blocks.getD j dummyBlock).alloc = true) :
    ∃ j', j' < (Exp.mm_malloc s n).1.blocks.length ∧
      addrOf (Exp.mm_malloc s n).1.blocks j' = addrOf s.blocks j ∧
      (Exp.mm_malloc s n).1.blocks.getD j' dummyBlock =
        s.blocks.getD j dummyBlock := by
  have hpos := wfBlocks_sizesPos _ hwf
  have hage := asizeOf_ge24 n
  by_cases hn : n = 0
  · rw [show Exp.mm_malloc s n = (s, none) by simp [Exp.mm_malloc, hn]]
    exact ⟨j, hj, rfl, rfl⟩
  rcases hf : Exp.find_fit s (asizeOf n) with _ | bp
  · rcases he : (extend_heap Exp.insert_node Exp.remove_node s
        (max (asizeOf n) 4096 / 4)).2 with _ | bp2
    · rw [Exp_mm_malloc_fail s n hn hf (extend_heap_none _ _ _ _ he)]
      exact ⟨j, hj, rfl, rfl⟩
    · rw [Exp_mm_malloc_extend s n bp2 hn hf he]
      dsimp only
      have hnbp : 0 < extendBytes (max (asizeOf n) 4096 / 4) := by
        have := extendBytes_ge8 (max (asizeOf n) 4096 / 4) (by omega)
        omega
      have hwfe := extend_heap_wf Exp.insert_node Exp.remove_node s
        (max (asizeOf n) 4096 / 4) (by omega) hwf
      have hpose := wfBlocks_sizesPos _ hwfe
      obtain ⟨j1, hj1, haj1, hgj1⟩ := extend_alloc_preserved Exp.insert_node
        Exp.remove_node s (max (asizeOf n) 4096 / 4) j hpos hnbp hj halloc
      obtain ⟨j2, hj2, haj2, hfr2, _⟩ :=
        extend_heap_post Exp.insert_node Exp.remove_node s _ bp2 hwf (by omega) he
      obtain ⟨j', hj', haj', hgj'⟩ := place_alloc_preserved Exp.insert_node
        Exp.remove_node _ bp2 (asizeOf n) j1 hpose hj1
        (by rw [hgj1]; exact halloc)
        (by
          intro k hk hak
          have hkk : k = j2 := addrOf_inj _ hpose k j2 hk hj2 (by rw [hak, haj2])
          rw [hkk]
          exact hfr2)
        (by omega)
      exact ⟨j', hj', by rw [haj', haj1], by rw [hgj', hgj1]⟩
  · rw [Exp_mm_malloc_hit s n bp hn hf]
    dsimp only
    obtain ⟨hmemf, _⟩ := Exp_find_fit_hit s _ _ hf
    obtain ⟨j2, hj2, haj2, hfr2⟩ := hc.2.1 bp hmemf
    exact place_alloc_preserved Exp.insert_node Exp.remove_node s bp
      (asizeOf n) j hpos hj halloc
      (by
        intro k hk hak
        have hkk : k = j2 := addrOf_inj _ hpos k j2 hk hj2 (by rw [hak, haj2])
        rw [hkk]
        exact hfr2)
      (by omega)

lemma Seg_malloc_alloc_preserved (t : Seg.State) (n j : Nat)
    (hwf : wfBlocks t.blocks) (hc : Seg.consistent t)
    (hj : j < t.blocks.length)
    (halloc : (t.blocks.getD j dummyBlock).alloc = true) :
    ∃ j', j' < (Seg.mm_malloc t n).1.blocks.length ∧
      addrOf (Seg.mm_malloc t n).1.blocks j' = addrOf t.blocks j ∧
      (Seg.mm_malloc t n).1.blocks.getD j' dummyBlock =
        t.blocks.getD j dummyBlock := by
  have hpos := wfBlocks_sizesPos _ hwf
  have hage := asizeOf_ge24 n
  simp only [Seg.mm_malloc]
  by_cases hn : n = 0
  · rw [if_pos hn]
    exact ⟨j, hj, rfl, rfl⟩
  rw [if_neg hn]
  rcases hf : Seg.find_fit t (asizeOf n) with _ | bp
  · simp only
    by_cases hl : asizeOf n > Seg.getFreeSizeOfTail t.blocks
    · rw [if_pos hl, if_pos (by omega)]
      rcases he : (extend_heap Seg.insert_node Seg.remove_node t
          ((asizeOf n - Seg.getFreeSizeOfTail t.blocks + (4 - 1)) / 4)).2
          with _ | bp2
      · simp only [he]
        exact ⟨j, hj, rfl, rfl⟩
      · simp only [he]
        have hwords : 0 < (asizeOf n - Seg.getFreeSizeOfTail t.blocks +
            (4 - 1)) / 4 := by omega
        have hnbp : 0 < extendBytes
            ((asizeOf n - Seg.getFreeSizeOfTail t.blocks + (4 - 1)) / 4) := by
          have := extendBytes_ge8 _ hwords
          omega
        have hwfe := extend_heap_wf Seg.insert_node Seg.remove_node t
          ((asizeOf n - Seg.getFreeSizeOfTail t.blocks + (4 - 1)) / 4) hwords hwf
        have hpose := wfBlocks_sizesPos _ hwfe
        have hce := Seg_extend_consistent t _ hpos hnbp
          (by exact hc)
        obtain ⟨j1, hj1, haj1, hgj1⟩ := extend_alloc_preserved Seg.insert_node
          Seg.remove_node t _ j hpos hnbp hj halloc
        rcases hf2 : Seg.find_fit (extend_heap Seg.insert_node Seg.remove_node t
            ((asizeOf n - Seg.getFreeSizeOfTail t.blocks + (4 - 1)) / 4)).1
            (asizeOf n) with _ | bp3
        · simp only [hf2]
          exact ⟨j1, hj1, haj1, hgj1⟩
        · simp only [hf2]
          obtain ⟨hvis, _⟩ := Seg_find_fit_hit _ _ _ hf2
          obtain ⟨g, hg⟩ := Seg_visited_mem _ _ _ hvis
          obtain ⟨j2, hj2, haj2, hfr2, _⟩ := hce.2.1 g bp3 hg
          obtain ⟨j', hj', haj', hgj'⟩ := place_alloc_preserved Seg.insert_node
            Seg.remove_node _ bp3 (asizeOf n) j1 hpose hj1
            (by rw [hgj1]; exact halloc)
            (by
              intro k hk hak
              have hkk : k = j2 := addrOf_inj _ hpose k j2 hk hj2 (by rw [hak, haj2])
              rw [hkk]
              exact hfr2)
            (by omega)
          exact ⟨j', hj', by rw [haj', haj1], by rw [hgj', hgj1]⟩
    · rw [if_neg hl, if_neg (by omega)]
      simp only [hf]
      exact ⟨j, hj, rfl, rfl⟩
  · simp only
    obtain ⟨hvis, _⟩ := Seg_find_fit_hit t _ _ hf
    obtain ⟨g, hg⟩ := Seg_visited_mem _ _ _ hvis
    obtain ⟨j2, hj2, haj2, hfr2, _⟩ := hc.2.1 g bp hg
    exact place_alloc_preserved Seg.insert_node Seg.remove_node t bp
      (asizeOf n) j hpos hj halloc
      (by
        intro k hk hak
        have hkk : k = j2 := addrOf_inj _ hpos k j2 hk hj2 (by rw [hak, haj2])
        rw [hkk]
        exact hfr2)
      (by omega)

lemma Seg_consistent_of_consistentW (t : Seg.State)
    (h : consistentW Seg.memIdx Seg.inIdx Seg.nodupIdx t.blocks t.index) :
    Seg.consistent t := by
  obtain ⟨⟨h1, hdisj⟩, h2, h3⟩ := h
  refine ⟨h1, ?_, ?_⟩
  · intro g a hg
    obtain ⟨j, hj, haj, hfj⟩ := h2 a ⟨g, hg⟩
    refine ⟨j, hj, haj, hfj, ?_⟩
    have hin := h3 j hj hfj
    unfold Seg.inIdx at hin
    rw [haj] at hin
    exact hdisj _ _ _ hin hg
  · intro j hj hfj
    exact h3 j hj hfj

lemma Exp_mm_realloc_consistent (s : Exp.State) (i size : Nat)
    (hi : i < s.blocks.length) (hwf : wfBlocks s.blocks)
    (halloc : (s.blocks.getD i dummyBlock).alloc = true)
    (hc : Exp.consistent s) :
    Exp.consistent (Exp.mmRealloc s (some (addrOf s.blocks i)) size).1 := by
  rw [Exp_consistent_iff] at hc ⊢
  unfold Exp.mmRealloc
  exact realloc_consistentW Exp.insert_node Exp.remove_node
    (fun idx a => a ∈ idx) (fun idx a _ => a ∈ idx) List.Nodup
    Exp_mem_ins (fun _ _ _ => List.mem_cons_self _ _)
    (fun _ _ _ _ _ hb => List.mem_cons_of_mem _ hb) Exp_nodup_ins
    (fun idx a sz x h _ => Exp_mem_rem idx a sz x h) Exp_in_rem
    (fun _ a _ h => h.erase a)
    Exp.mm_malloc
    (fun u n huw huc => by
      rw [← Exp_consistent_iff] at huc
      have hr := Exp_mm_malloc_consistent u n huw huc
      rw [Exp_consistent_iff] at hr
      exact hr)
    (fun u n huw => Exp_mm_malloc_wf u n huw)
    (fun u n j huw huc hj hja => by
      rw [← Exp_consistent_iff] at huc
      exact Exp_malloc_alloc_preserved u n j huw huc hj hja)
    s i size hi hwf halloc hc

lemma Seg_mm_realloc_consistent (t : Seg.State) (i size : Nat)
    (hi : i < t.blocks.length) (hwf : wfBlocks t.blocks)
    (halloc : (t.blocks.getD i dummyBlock).alloc = true)
    (hc : Seg.consistent t) :
    Seg.consistent (Seg.mmRealloc t (some (addrOf t.blocks i)) size).1 := by
  have hpos := wfBlocks_sizesPos _ hwf
  apply Seg_consistent_of_consistentW
  rw [show (Seg.mmRealloc t (some (addrOf t.blocks i)) size).1 =
      (mm_realloc Seg.insert_node Seg.remove_node Seg.mm_malloc t
        (some (addrOf t.blocks i)) size).1 from rfl]
  exact realloc_consistentW Seg.insert_node Seg.remove_node
    Seg.memIdx Seg.inIdx Seg.nodupIdx
    Seg_mem_ins Seg_in_ins_self Seg_in_ins Seg_nodup_ins
    Seg_mem_rem Seg_in_rem Seg_nodup_rem
    Seg.mm_malloc
    (fun u n huw huc => by
      have hup := wfBlocks_sizesPos _ huw
      have hr := Seg_mm_malloc_consistent u n huw
        (Seg_consistent_of_consistentW u huc)
      rw [Seg_consistent_iff _ (wfBlocks_sizesPos _ (Seg_mm_malloc_wf u n huw))]
        at hr
      exact hr)
    (fun u n huw => Seg_mm_malloc_wf u n huw)
    (fun u n j huw huc hj hja =>
      Seg_malloc_alloc_preserved u n j huw (Seg_consistent_of_consistentW u huc)
        hj hja)
    t i size hi hwf halloc ((Seg_consistent_iff t hpos).mp hc)

/-- C7: in both variants, after every public operation — allocate on any
well-formed heap, free and resize at any allocated block, and a successful
init — the free index is consistent: the addresses reachable from the free
list(s) are exactly the payload addresses of the blocks whose header marks
them free, every indexed address sits on the list its size selects, and no
address appears in two list positions (`consistent` packages exactly
these). -/
theorem C7_free_index_consistency :
    (∀ (s : Exp.State) (n : Nat), Exp.WF s →
      Exp.consistent (Exp.mm_malloc s n).1) ∧
    (∀ (s : Exp.State) (i : Nat), Exp.WF s → i < s.blocks.length →
      (s.blocks.getD i dummyBlock).alloc = true →
      Exp.consistent (Exp.mmFree s (some (addrOf s.blocks i)))) ∧
    (∀ (s : Exp.State) (i size : Nat), Exp.WF s → i < s.blocks.length →
      (s.blocks.getD i dummyBlock).alloc = true →
      Exp.consistent (Exp.mmRealloc s (some (addrOf s.blocks i)) size).1) ∧
    (∀ (mem : Nat) (s0 : Exp.State), Exp.mmInit mem = some s0 →
      Exp.consistent s0) ∧
    (∀ (t : Seg.State) (n : Nat), Seg.WF t →
      Seg.consistent (Seg.mm_malloc t n).1) ∧
    (∀ (t : Seg.State) (i : Nat), Seg.WF t → i < t.blocks.length →
      (t.blocks.getD i dummyBlock).alloc = true →
      Seg.consistent (Seg.mmFree t (some (addrOf t.blocks i)))) ∧
    (∀ (t : Seg.State) (i size : Nat), Seg.WF t → i < t.blocks.length →
      (t.blocks.getD i dummyBlock).alloc = true →
      Seg.consistent (Seg.mmRealloc t (some (addrOf t.blocks i)) size).1) ∧
    (∀ (mem : Nat) (t0 : Seg.State), Seg.mmInit mem = some t0 →
      Seg.consistent t0) :=
  ⟨fun s n hWF => Exp_mm_malloc_consistent s n hWF.1 hWF.2.2,
   fun s i hWF hi ha =>
     Exp_free_consistent s i hi (wfBlocks_sizesPos _ hWF.1) ha hWF.2.2,
   fun s i size hWF hi ha =>
     Exp_mm_realloc_consistent s i size hi hWF.1 ha hWF.2.2,
   Exp_mm_init_consistent,
   fun t n hWF => Seg_mm_malloc_consistent t n hWF.1 hWF.2.2,
   fun t i hWF hi ha =>
     Seg_free_consistent t i hi (wfBlocks_sizesPos _ hWF.1) ha hWF.2.2,
   fun t i size hWF hi ha =>
     Seg_mm_realloc_consistent t i size hi hWF.1 ha hWF.2.2,
   Seg_mm_init_consistent⟩

/-- Witness for C7 at concrete inputs: a 1-byte allocation on the example
heaps of either variant. -/
theorem C7_witness :
    Exp.consistent (Exp.mm_malloc exampleExpState 1).1 ∧
    Seg.consistent (Seg.mm_malloc exampleSegState 1).1 :=
  ⟨C7_free_index_consistency.1 exampleExpState 1 exampleExpWF,
   C7_free_index_consistency.2.2.2.2.1 exampleSegState 1 exampleSegWF⟩

lemma blockAt_some_exists (bs : List Block) (a : Nat) (b : Block)
    (h : blockAt bs a = some b) :
    ∃ k, k < bs.length ∧ addrOf bs k = a ∧ bs.getD k dummyBlock = b := by
  unfold blockAt at h
  rcases hidx : idxOf bs a with _ | k <;> rw [hidx] at h
  · simp at h
  · rw [Option.some_bind] at h
    obtain ⟨hk, ha⟩ := idxOf_some bs a k hidx
    refine ⟨k, hk, ha, ?_⟩
    rw [get?_eq_getD bs k hk] at h
    exact Option.some.inj h

lemma combined_take_prefix (d w1 w2 nd : List Nat) (cs : Nat)
    (hcs : cs ≤ d.length) :
    (d ++ w1 ++ w2 ++ nd).take cs = d.take cs := by
  rw [List.append_assoc, List.append_assoc, List.take_append_of_le_length hcs]

lemma Exp_malloc_ne_alloc (s : Exp.State) (n q i : Nat) (hwf : wfBlocks s.blocks)
    (hc : Exp.consistent s) (hi : i < s.blocks.length)
    (halloc : (s.blocks.getD i dummyBlock).alloc = true)
    (hq : (Exp.mm_malloc s n).2 = some q) : q ≠ addrOf s.blocks i := by
  have hpos := wfBlocks_sizesPos _ hwf
  have hage := asizeOf_ge24 n
  by_cases hn : n = 0
  · rw [show Exp.mm_malloc s n = (s, none) by simp [Exp.mm_malloc, hn]] at hq
    simp at hq
  rcases hf : Exp.find_fit s (asizeOf n) with _ | bp
  · rcases he : (extend_heap Exp.insert_node Exp.remove_node s
        (max (asizeOf n) 4096 / 4)).2 with _ | bp2
    · rw [Exp_mm_malloc_fail s n hn hf (extend_heap_none _ _ _ _ he)] at hq
      simp at hq
    · rw [Exp_mm_malloc_extend s n bp2 hn hf he] at hq
      obtain rfl := Option.some.inj hq
      have hnbp : 0 < extendBytes (max (asizeOf n) 4096 / 4) := by
        have := extendBytes_ge8 (max (asizeOf n) 4096 / 4) (by omega)
        omega
      have hwfe := extend_heap_wf Exp.insert_node Exp.remove_node s
        (max (asizeOf n) 4096 / 4) (by omega) hwf
      have hpose := wfBlocks_sizesPos _ hwfe
      obtain ⟨j2, hj2, haj2, hfr2, _⟩ :=
        extend_heap_post Exp.insert_node Exp.remove_node s _ bp2 hwf (by omega) he
      obtain ⟨j1, hj1, haj1, hgj1⟩ := extend_alloc_preserved Exp.insert_node
        Exp.remove_node s (max (asizeOf n) 4096 / 4) i hpos hnbp hi halloc
      intro he2
      have hjj : j2 = j1 := addrOf_inj _ hpose j2 j1 hj2 hj1
        (by rw [haj2, haj1, he2])
      rw [hjj, hgj1, halloc] at hfr2
      simp at hfr2
  · rw [Exp_mm_malloc_hit s n bp hn hf] at hq
    obtain rfl := Option.some.inj hq
    obtain ⟨hmemf, _⟩ := Exp_find_fit_hit s _ _ hf
    obtain ⟨j2, hj2, haj2, hfr2⟩ := hc.2.1 bp hmemf
    intro he2
    have hjj : j2 = i := addrOf_inj _ hpos j2 i hj2 hi (by rw [haj2, he2])
    rw [hjj, halloc] at hfr2
    simp at hfr2

lemma Seg_malloc_ne_alloc (t : Seg.State) (n q i : Nat) (hwf : wfBlocks t.blocks)
    (hc : Seg.consistent t) (hi : i < t.blocks.length)
    (halloc : (t.blocks.getD i dummyBlock).alloc = true)
    (hq : (Seg.mm_malloc t n).2 = some q) : q ≠ addrOf t.blocks i := by
  have hpos := wfBlocks_sizesPos _ hwf
  have hage := asizeOf_ge24 n
  simp only [Seg.mm_malloc] at hq
  by_cases hn : n = 0
  · rw [if_pos hn] at hq
    simp at hq
  rw [if_neg hn] at hq
  rcases hf : Seg.find_fit t (asizeOf n) with _ | bp
  · simp only [hf] at hq
    by_cases hl : asizeOf n > Seg.getFreeSizeOfTail t.blocks
    · rw [if_pos hl, if_pos (by omega)] at hq
      rcases he : (extend_heap Seg.insert_node Seg.remove_node t
          ((asizeOf n - Seg.getFreeSizeOfTail t.blocks + (4 - 1)) / 4)).2
          with _ | bp2
      · simp only [he] at hq
        simp at hq
      · simp only [he] at hq
        have hwords : 0 < (asizeOf n - Seg.getFreeSizeOfTail t.blocks +
            (4 - 1)) / 4 := by omega
        have hnbp : 0 < extendBytes
            ((asizeOf n - Seg.getFreeSizeOfTail t.blocks + (4 - 1)) / 4) := by
          have := extendBytes_ge8 _ hwords
          omega
        have hwfe := extend_heap_wf Seg.insert_node Seg.remove_node t
          ((asizeOf n - Seg.getFreeSizeOfTail t.blocks + (4 - 1)) / 4) hwords hwf
        have hpose := wfBlocks_sizesPos _ hwfe
        have hce := Seg_extend_consistent t _ hpos hnbp hc
        obtain ⟨j1, hj1, haj1, hgj1⟩ := extend_alloc_preserved Seg.insert_node
          Seg.remove_node t _ i hpos hnbp hi halloc
        rcases hf2 : Seg.find_fit (extend_heap Seg.insert_node Seg.remove_node t
            ((asizeOf n - Seg.getFreeSizeOfTail t.blocks + (4 - 1)) / 4)).1
            (asizeOf n) with _ | bp3
        · simp only [hf2] at hq
          simp at hq
        · simp only [hf2] at hq
          obtain rfl := Option.some.inj hq
          obtain ⟨hvis, _⟩ := Seg_find_fit_hit _ _ _ hf2
          obtain ⟨g, hg⟩ := Seg_visited_mem _ _ _ hvis
          obtain ⟨j2, hj2, haj2, hfr2, _⟩ := hce.2.1 g bp3 hg
          intro he2
          have hjj : j2 = j1 := addrOf_inj _ hpose j2 j1 hj2 hj1
            (by rw [haj2, haj1, he2])
          rw [hjj, hgj1, halloc] at hfr2
          simp at hfr2
    · rw [if_neg hl, if_neg (by omega)] at hq
      simp only [hf] at hq
      simp at hq
  · simp only [hf] at hq
    obtain rfl := Option.some.inj hq
    obtain ⟨hvis, _⟩ := Seg_find_fit_hit t _ _ hf
    obtain ⟨g, hg⟩ := Seg_visited_mem _ _ _ hvis
    obtain ⟨j2, hj2, haj2, hfr2, _⟩ := hc.2.1 g bp hg
    intro he2
    have hjj : j2 = i := addrOf_inj _ hpos j2 i hj2 hi (by rw [haj2, he2])
    rw [hjj, halloc] at hfr2
    simp at hfr2

lemma realloc_grow_prefix {ι : Type} (ins rem : ι → Nat → Nat → ι)
    (malloc : HState ι → Nat → HState ι × Option Nat)
    (s : HState ι) (i size np : Nat)
    (hi : i < s.blocks.length) (hwf : wfBlocks s.blocks)
    (halloc : (s.blocks.getD i dummyBlock).alloc = true)
    (hgrow : (s.blocks.getD i dummyBlock).size < asizeOf size)
    (hmw : wfBlocks (malloc s size).1.blocks)
    (hma : ∃ j', j' < (malloc s size).1.blocks.length ∧
        addrOf (malloc s size).1.blocks j' = addrOf s.blocks i ∧
        (malloc s size).1.blocks.getD j' dummyBlock = s.blocks.getD i dummyBlock)
    (hpost : ∀ q, (malloc s size).2 = some q →
        ∃ k, k < (malloc s size).1.blocks.length ∧
          addrOf (malloc s size).1.blocks k = q ∧
          ((malloc s size).1.blocks.getD k dummyBlock).alloc = true)
    (hnp : ∀ q, (malloc s size).2 = some q → q ≠ addrOf s.blocks i)
    (hr : (mm_realloc ins rem malloc s (some (addrOf s.blocks i)) size).2 =
      some np) :
    ∃ b', blockAt
        (mm_realloc ins rem malloc s (some (addrOf s.blocks i)) size).1.blocks
        np = some b' ∧ b'.alloc = true ∧
      b'.data.take (min ((s.blocks.getD i dummyBlock).size - 8) size) =
        (s.blocks.getD i dummyBlock).data.take
          (min ((s.blocks.getD i dummyBlock).size - 8) size) := by
  have hpos := wfBlocks_sizesPos _ hwf
  obtain ⟨hba, hbb, hbc⟩ := wf_getD _ hwf i hi
  have hage := asizeOf_ge24 size
  have ha8 := asizeOf_mod8 size
  set cs := min ((s.blocks.getD i dummyBlock).size - 8) size with hcs
  have hcsle : cs ≤ (s.blocks.getD i dummyBlock).data.length := by omega
  simp only [mm_realloc] at hr ⊢
  by_cases hz : size = 0
  · rw [if_pos hz] at hr
    simp at hr
  rw [if_neg hz] at hr ⊢
  simp only [idxOf_addrOf s.blocks hpos i hi] at hr ⊢
  rw [if_neg (by omega : ¬asizeOf size ≤ (s.blocks.getD i dummyBlock).size)]
    at hr ⊢
  by_cases hnext : i + 1 < s.blocks.length ∧
      (s.blocks.getD (i + 1) dummyBlock).alloc = false
  · rw [if_pos hnext] at hr ⊢
    by_cases hcap : (s.blocks.getD i dummyBlock).size +
        (s.blocks.getD (i + 1) dummyBlock).size ≥ asizeOf size
    · rw [if_pos hcap] at hr ⊢
      obtain ⟨hna, hnb, hnc⟩ := wf_getD _ hwf (i + 1) hnext.1
      by_cases hrem2 : (s.blocks.getD i dummyBlock).size +
          (s.blocks.getD (i + 1) dummyBlock).size - asizeOf size ≥ 24
      · rw [if_pos hrem2] at hr ⊢
        dsimp only at hr ⊢
        replace hr := Option.some.inj hr
        subst hr
        set A := asizeOf size with hA
        set bs := s.blocks with hbs
        set combined := (bs.getD i dummyBlock).data ++
            wbytes ((bs.getD i dummyBlock).size + 1) ++
            wbytes (bs.getD (i + 1) dummyBlock).size ++
            (bs.getD (i + 1) dummyBlock).data with hcomb
        set front : Block := ⟨A, true, combined.take (A - 8)⟩ with hfront
        set rest : Block := ⟨(bs.getD i dummyBlock).size +
            (bs.getD (i + 1) dummyBlock).size - A, false, combined.drop A⟩
          with hrest
        have hk : i + 2 ≤ bs.length := by omega
        have hA0 : addrOf (bs.take i ++ front :: rest :: bs.drop (i + 2)) i =
            addrOf bs i :=
          replace_addrOf_left bs i 2 [front, rest] hk i (le_refl _)
        have hGf : (bs.take i ++ front :: rest :: bs.drop (i + 2)).getD i
            dummyBlock = front := by
          have h' : (bs.take i ++ ([front, rest] ++ bs.drop (i + 2))).getD (i + 0)
              dummyBlock = [front, rest].getD 0 dummyBlock :=
            replace_getD_mid bs i 2 [front, rest] hk 0 (by simp)
          simpa using h'
        have hlen2 : (bs.take i ++ front :: rest :: bs.drop (i + 2)).length =
            i + 2 + (bs.length - (i + 2)) :=
          replace_length bs i 2 [front, rest] hk
        have hposB : sizesPos (bs.take i ++ front :: rest :: bs.drop (i + 2)) := by
          intro b hb
          simp only [List.mem_append, List.mem_cons] at hb
          rcases hb with hb | rfl | rfl | hb
          · exact hpos b (List.mem_of_mem_take hb)
          · rw [hfront]
            dsimp only
            omega
          · rw [hrest]
            dsimp only
            omega
          · exact hpos b (List.mem_of_mem_drop hb)
        refine ⟨front, ?_, rfl, ?_⟩
        · rw [← hA0, blockAt_addrOf _ hposB i (by rw [hlen2]; omega), hGf]
        · rw [hfront]
          dsimp only
          rw [List.take_take, show min cs (A - 8) = cs by omega, hcomb]
          exact combined_take_prefix _ _ _ _ cs hcsle
      · rw [if_neg hrem2] at hr ⊢
        dsimp only at hr ⊢
        replace hr := Option.some.inj hr
        subst hr
        set bs := s.blocks with hbs
        set combined := (bs.getD i dummyBlock).data ++
            wbytes ((bs.getD i dummyBlock).size + 1) ++
            wbytes (bs.getD (i + 1) dummyBlock).size ++
            (bs.getD (i + 1) dummyBlock).data with hcomb
        set w : Block := ⟨(bs.getD i dummyBlock).size +
            (bs.getD (i + 1) dummyBlock).size, true, combined⟩ with hw
        have hk : i + 2 ≤ bs.length := by omega
        have hA0 : addrOf (bs.take i ++ w :: bs.drop (i + 2)) i = addrOf bs i :=
          replace_addrOf_left bs i 2 [w] hk i (le_refl _)
        have hGw : (bs.take i ++ w :: bs.drop (i + 2)).getD i dummyBlock = w := by
          have h' : (bs.take i ++ ([w] ++ bs.drop (i + 2))).getD (i + 0)
              dummyBlock = [w].getD 0 dummyBlock :=
            replace_getD_mid bs i 2 [w] hk 0 (by simp)
          simpa using h'
        have hlen1 : (bs.take i ++ w :: bs.drop (i + 2)).length =
            i + 1 + (bs.length - (i + 2)) := replace_length bs i 2 [w] hk
        have hposB : sizesPos (bs.take i ++ w :: bs.drop (i + 2)) := by
          intro b hb
          simp only [List.mem_append, List.mem_cons] at hb
          rcases hb with hb | rfl | hb
          · exact hpos b (List.mem_of_mem_take hb)
          · rw [hw]
            dsimp only
            omega
          · exact hpos b (List.mem_of_mem_drop hb)
        refine ⟨w, ?_, rfl, ?_⟩
        · rw [← hA0, blockAt_addrOf _ hposB i (by rw [hlen1]; omega), hGw]
        · rw [hw]
          dsimp only
          rw [hcomb]
          exact combined_take_prefix _ _ _ _ cs hcsle
    · rw [if_neg hcap] at hr ⊢
      rcases hm2 : (malloc s size).2 with _ | q
      · simp only [hm2] at hr
        simp at hr
      · simp only [hm2] at hr ⊢
        replace hr := Option.some.inj hr
        subst hr
        have hposq := wfBlocks_sizesPos _ hmw
        obtain ⟨j1, hj1, haj1, hgj1⟩ := hma
        obtain ⟨k, hk, hak, hkal⟩ := hpost q hm2
        have hnep := hnp q hm2
        have hkj1 : k ≠ j1 := by
          intro he
          rw [he, haj1] at hak
          exact hnep hak.symm
        have hblk : blockAt (malloc s size).1.blocks (addrOf s.blocks i) =
            some (s.blocks.getD i dummyBlock) := by
          rw [← haj1, blockAt_addrOf _ hposq j1 hj1, hgj1]
        rw [hblk]
        set src := (s.blocks.getD i dummyBlock).data.take
          (min ((s.blocks.getD i dummyBlock).size - 8) size) with hsrc
        set s2 : HState ι := ⟨writeData (malloc s size).1.blocks q src,
          (malloc s size).1.index, (malloc s size).1.mem⟩ with hs2
        have hsrclen : src.length = cs := by
          rw [hsrc]
          simp only [List.length_take]
          omega
        have hwid : idxOf (malloc s size).1.blocks q = some k := by
          rw [← hak]
          exact idxOf_addrOf _ hposq k hk
        have hs2b : s2.blocks = (malloc s size).1.blocks.set k
            ⟨((malloc s size).1.blocks.getD k dummyBlock).size,
             ((malloc s size).1.blocks.getD k dummyBlock).alloc,
             src ++ ((malloc s size).1.blocks.getD k dummyBlock).data.drop
               src.length⟩ := by
          rw [hs2]
          show writeData (malloc s size).1.blocks q src = _
          unfold writeData
          rw [hwid]
        have hmapw : s2.blocks.map Block.size =
            (malloc s size).1.blocks.map Block.size := writeData_map_size _ _ _
        have hposw : sizesPos s2.blocks := sizesPos_of_map_size_eq _ _ hmapw hposq
        have hlenw : s2.blocks.length = (malloc s size).1.blocks.length :=
          writeData_length _ _ _
        have haddrw : ∀ j, addrOf s2.blocks j = addrOf (malloc s size).1.blocks j :=
          addrOf_eq_of_map_size _ _ hmapw
        have hg2k : s2.blocks.getD k dummyBlock =
            ⟨((malloc s size).1.blocks.getD k dummyBlock).size,
             ((malloc s size).1.blocks.getD k dummyBlock).alloc,
             src ++ ((malloc s size).1.blocks.getD k dummyBlock).data.drop
               src.length⟩ := by
          rw [hs2b]
          exact getD_set_self _ _ _ hk
        have hg2j1 : s2.blocks.getD j1 dummyBlock = s.blocks.getD i dummyBlock := by
          rw [hs2b, getD_set_ne _ _ _ _ hkj1, hgj1]
        have hal2 : (s2.blocks.getD k dummyBlock).alloc = true := by
          rw [hg2k]
          exact hkal
        have haddr2 : addrOf s2.blocks j1 = addrOf s.blocks i := by
          rw [haddrw j1, haj1]
        rw [show addrOf s.blocks i = addrOf s2.blocks j1 from haddr2.symm]
        obtain ⟨j', hj', haj', hgj'⟩ := free_alloc_preserved ins rem s2 j1 k
          hposw (by omega) (by omega) hkj1 hal2
        refine ⟨s2.blocks.getD k dummyBlock, ?_, hal2, ?_⟩
        · have hposf := mm_free_sizesPos ins rem s2
            (some (addrOf s2.blocks j1)) hposw
          rw [show q = addrOf (mm_free ins rem s2
              (some (addrOf s2.blocks j1))).blocks j' by
            rw [haj', haddrw k, hak]]
          rw [blockAt_addrOf _ hposf j' hj', hgj']
        · rw [hg2k]
          dsimp only
          rw [List.take_append_of_le_length (by omega), hsrc, List.take_take,
            show min cs (min ((s.blocks.getD i dummyBlock).size - 8) size) = cs
              by omega]
  · rw [if_neg hnext] at hr ⊢
    rcases hm2 : (malloc s size).2 with _ | q
    · simp only [hm2] at hr
      simp at hr
    · simp only [hm2] at hr ⊢
      replace hr := Option.some.inj hr
      subst hr
      have hposq := wfBlocks_sizesPos _ hmw
      obtain ⟨j1, hj1, haj1, hgj1⟩ := hma
      obtain ⟨k, hk, hak, hkal⟩ := hpost q hm2
      have hnep := hnp q hm2
      have hkj1 : k ≠ j1 := by
        intro he
        rw [he, haj1] at hak
        exact hnep hak.symm
      have hblk : blockAt (malloc s size).1.blocks (addrOf s.blocks i) =
          some (s.blocks.getD i dummyBlock) := by
        rw [← haj1, blockAt_addrOf _ hposq j1 hj1, hgj1]
      rw [hblk]
      set src := (s.blocks.getD i dummyBlock).data.take
        (min ((s.blocks.getD i dummyBlock).size - 8) size) with hsrc
      set s2 : HState ι := ⟨writeData (malloc s size).1.blocks q src,
        (malloc s size).1.index, (malloc s size).1.mem⟩ with hs2
      have hsrclen : src.length = cs := by
        rw [hsrc]
        simp only [List.length_take]
        omega
      have hwid : idxOf (malloc s size).1.blocks q = some k := by
        rw [← hak]
        exact idxOf_addrOf _ hposq k hk
      have hs2b : s2.blocks = (malloc s size).1.blocks.set k
          ⟨((malloc s size).1.blocks.getD k dummyBlock).size,
           ((malloc s size).1.blocks.getD k dummyBlock).alloc,
           src ++ ((malloc s size).1.blocks.getD k dummyBlock).data.drop
             src.length⟩ := by
        rw [hs2]
        show writeData (malloc s size).1.blocks q src = _
        unfold writeData
        rw [hwid]
      have hmapw : s2.blocks.map Block.size =
          (malloc s size).1.blocks.map Block.size := writeData_map_size _ _ _
      have hposw : sizesPos s2.blocks := sizesPos_of_map_size_eq _ _ hmapw hposq
      have hlenw : s2.blocks.length = (malloc s size).1.blocks.length :=
        writeData_length _ _ _
      have haddrw : ∀ j, addrOf s2.blocks j = addrOf (malloc s size).1.blocks j :=
        addrOf_eq_of_map_size _ _ hmapw
      have hg2k : s2.blocks.getD k dummyBlock =
          ⟨((malloc s size).1.blocks.getD k dummyBlock).size,
           ((malloc s size).1.blocks.getD k dummyBlock).alloc,
           src ++ ((malloc s size).1.blocks.getD k dummyBlock).data.drop
             src.length⟩ := by
        rw [hs2b]
        exact getD_set_self _ _ _ hk
      have hg2j1 : s2.blocks.getD j1 dummyBlock = s.blocks.getD i dummyBlock := by
        rw [hs2b, getD_set_ne _ _ _ _ hkj1, hgj1]
      have hal2 : (s2.blocks.getD k dummyBlock).alloc = true := by
        rw [hg2k]
        exact hkal
      have haddr2 : addrOf s2.blocks j1 = addrOf s.blocks i := by
        rw [haddrw j1, haj1]
      rw [show addrOf s.blocks i = addrOf s2.blocks j1 from haddr2.symm]
      obtain ⟨j', hj', haj', hgj'⟩ := free_alloc_preserved ins rem s2 j1 k
        hposw (by omega) (by omega) hkj1 hal2
      refine ⟨s2.blocks.getD k dummyBlock, ?_, hal2, ?_⟩
      · have hposf := mm_free_sizesPos ins rem s2
          (some (addrOf s2.blocks j1)) hposw
        rw [show q = addrOf (mm_free ins rem s2
            (some (addrOf s2.blocks j1))).blocks j' by
          rw [haj', haddrw k, hak]]
        rw [blockAt_addrOf _ hposf j' hj', hgj']
      · rw [hg2k]
        dsimp only
        rw [List.take_append_of_le_length (by omega), hsrc, List.take_take,
          show min cs (min ((s.blocks.getD i dummyBlock).size - 8) size) = cs
            by omega]

lemma exampleExpGrowConsistent : Exp.consistent exampleExpGrow := by
  refine ⟨by decide, ?_, by decide⟩
  intro a ha
  simp [exampleExpGrow] at ha
  subst ha
  exact ⟨1, by decide, by decide, by decide⟩

lemma exampleSegGrowConsistent : Seg.consistent exampleSegGrow := by
  refine ⟨by decide, ?_, by decide⟩
  intro g a ha
  by_cases hg : g = 1
  · subst hg
    simp [exampleSegGrow] at ha
    subst ha
    exact ⟨1, by decide, by decide, by decide, by decide⟩
  · simp [exampleSegGrow, hg] at ha

/-- C10 (amended): in both the explicit (`mm.c`) and segregated best-fit
(`part_000`) variants, a `resize` that grows an allocated block (adjusted
request exceeding the current block size) preserves the payload prefix,
provided the adjusted-size computation does not overflow `size_t`
(`size + 15 < 2^64`): whenever it returns a non-null address, that address
holds an allocated block whose first `min(old payload size, requested
size)` bytes equal the old payload's, covering the in-place
neighbour-absorption paths and the allocate-copy-free path alike.  Without
the bound the property fails: at `size = 2^64 - 1` the code's adjusted
size wraps to 24, `mm_realloc` takes the shrink-split path on a 48-byte
block, overwrites payload bytes 16..39 with the split metadata, and still
returns the block non-null (`C10_counterexample`). -/
theorem C10_resize_growth_preserves_payload (s : Exp.State) (t : Seg.State)
    (i j size np nq : Nat) (hsz : 0 < size) (hb : size + 15 < 2 ^ 64)
    (hs : wfBlocks s.blocks) (hcs : Exp.consistent s)
    (ht : wfBlocks t.blocks) (hct : Seg.consistent t)
    (hi : i < s.blocks.length)
    (hia : (s.blocks.getD i dummyBlock).alloc = true)
    (hig : (s.blocks.getD i dummyBlock).size < asizeOf size)
    (hj : j < t.blocks.length)
    (hja : (t.blocks.getD j dummyBlock).alloc = true)
    (hjg : (t.blocks.getD j dummyBlock).size < asizeOf size) :
    ((Exp.mmRealloc s (some (addrOf s.blocks i)) size).2 = some np →
      ∃ b', blockAt (Exp.mmRealloc s (some (addrOf s.blocks i)) size).1.blocks
          np = some b' ∧ b'.alloc = true ∧
        b'.data.take (min ((s.blocks.getD i dummyBlock).size - 8) size) =
          (s.blocks.getD i dummyBlock).data.take
            (min ((s.blocks.getD i dummyBlock).size - 8) size)) ∧
    ((Seg.mmRealloc t (some (addrOf t.blocks j)) size).2 = some nq →
      ∃ b', blockAt (Seg.mmRealloc t (some (addrOf t.blocks j)) size).1.blocks
          nq = some b' ∧ b'.alloc = true ∧
        b'.data.take (min ((t.blocks.getD j dummyBlock).size - 8) size) =
          (t.blocks.getD j dummyBlock).data.take
            (min ((t.blocks.getD j dummyBlock).size - 8) size)) := by
  constructor
  · intro hr
    exact realloc_grow_prefix Exp.insert_node Exp.remove_node Exp.mm_malloc s
      i size np hi hs hia hig
      (Exp_mm_malloc_wf s size hs)
      (Exp_malloc_alloc_preserved s size i hs hcs hi hia)
      (fun q hq => by
        obtain ⟨_, b, hb2, hal, _⟩ :=
          Exp_mm_malloc_post s size q hs (by omega) hb hq
        obtain ⟨k, hk, hak, hgk⟩ := blockAt_some_exists _ _ _ hb2
        exact ⟨k, hk, hak, by rw [hgk]; exact hal⟩)
      (fun q hq => Exp_malloc_ne_alloc s size q i hs hcs hi hia hq)
      hr
  · intro hr
    exact realloc_grow_prefix Seg.insert_node Seg.remove_node Seg.mm_malloc t
      j size nq hj ht hja hjg
      (Seg_mm_malloc_wf t size ht)
      (Seg_malloc_alloc_preserved t size j ht hct hj hja)
      (fun q hq => by
        obtain ⟨_, b, hb2, hal, _⟩ :=
          Seg_mm_malloc_post t size q ht (by omega) hb hq
        obtain ⟨k, hk, hak, hgk⟩ := blockAt_some_exists _ _ _ hb2
        exact ⟨k, hk, hak, by rw [hgk]; exact hal⟩)
      (fun q hq => Seg_malloc_ne_alloc t size q j ht hct hj hja hq)
      hr

/-- Witness for C10 at concrete inputs: on the grow example heaps
(allocated 24-byte block whose payload is sixteen 7s, then a free 40-byte
neighbour), resizing to 30 bytes (adjusted size 40) absorbs the neighbour
in place and returns the same address 16. -/
theorem C10_witness :
    (0 < 30 ∧ wfBlocks exampleExpGrow.blocks ∧ Exp.consistent exampleExpGrow ∧
      wfBlocks exampleSegGrow.blocks ∧ Seg.consistent exampleSegGrow ∧
      (exampleExpGrow.blocks.getD 0 dummyBlock).alloc = true ∧
      (exampleExpGrow.blocks.getD 0 dummyBlock).size < asizeOf 30) ∧
    ((Exp.mmRealloc exampleExpGrow
        (some (addrOf exampleExpGrow.blocks 0)) 30).2 = some 16 →
      ∃ b', blockAt (Exp.mmRealloc exampleExpGrow
          (some (addrOf exampleExpGrow.blocks 0)) 30).1.blocks 16 = some b' ∧
        b'.alloc = true ∧
        b'.data.take (min ((exampleExpGrow.blocks.getD 0 dummyBlock).size - 8)
          30) = (exampleExpGrow.blocks.getD 0 dummyBlock).data.take
            (min ((exampleExpGrow.blocks.getD 0 dummyBlock).size - 8) 30)) ∧
    ((Seg.mmRealloc exampleSegGrow
        (some (addrOf exampleSegGrow.blocks 0)) 30).2 = some 16 →
      ∃ b', blockAt (Seg.mmRealloc exampleSegGrow
          (some (addrOf exampleSegGrow.blocks 0)) 30).1.blocks 16 = some b' ∧
        b'.alloc = true ∧
        b'.data.take (min ((exampleSegGrow.blocks.getD 0 dummyBlock).size - 8)
          30) = (exampleSegGrow.blocks.getD 0 dummyBlock).data.take
            (min ((exampleSegGrow.blocks.getD 0 dummyBlock).size - 8) 30)) :=
  ⟨⟨by decide, by unfold wfBlocks; decide, exampleExpGrowConsistent,
    by unfold wfBlocks; decide, exampleSegGrowConsistent,
    by decide, by decide⟩,
   C10_resize_growth_preserves_payload exampleExpGrow exampleSegGrow 0 0 30 16 16
    (by decide) (by decide) (by unfold wfBlocks; decide) exampleExpGrowConsistent
    (by unfold wfBlocks; decide) exampleSegGrowConsistent
    (by decide) (by decide) (by decide) (by decide) (by decide) (by decide)⟩

/-- Counterexample to the unamended C10: at `size = 2^64 - 1` the
adjusted size wraps to 24, so resizing the allocated 48-byte block (whose
payload holds forty 7s) takes the shrink-split path: the returned block at
16 keeps only the first 16 payload bytes, so the first
`min(old payload size, requested size) = 40` bytes are not preserved even
though the call returns non-null and the requested size exceeds the old
block size. -/
theorem C10_counterexample :
    (exampleExpShrinkBug.blocks.getD 0 dummyBlock).alloc = true ∧
    wfBlocks exampleExpShrinkBug.blocks ∧
    (exampleExpShrinkBug.blocks.getD 0 dummyBlock).size < 2 ^ 64 - 1 ∧
    (Exp.mmRealloc exampleExpShrinkBug
        (some (addrOf exampleExpShrinkBug.blocks 0)) (2 ^ 64 - 1)).2 =
      some 16 ∧
    blockAt (Exp.mmRealloc exampleExpShrinkBug
        (some (addrOf exampleExpShrinkBug.blocks 0))
        (2 ^ 64 - 1)).1.blocks 16 = some ⟨24, true, List.replicate 16 7⟩ ∧
    ¬ (List.replicate 16 (7 : Nat)).take
        (min ((exampleExpShrinkBug.blocks.getD 0 dummyBlock).size - 8)
          (2 ^ 64 - 1)) =
      (exampleExpShrinkBug.blocks.getD 0 dummyBlock).data.take
        (min ((exampleExpShrinkBug.blocks.getD 0 dummyBlock).size - 8)
          (2 ^ 64 - 1)) :=
  ⟨by decide, by unfold wfBlocks; decide, by decide, by decide, by decide,
   by decide⟩
